import Mathlib

/-!
# go-s3-sdk: part pipelines, partitioning and key naming

A shallow embedding of the v4 provider of `shideqin/go-s3-sdk`
(`pkg/providers/v4/multi.go`, `object.go`, `sync.go`, `bucket.go`), of the
signing of the v2 provider (`pkg/providers/v2/base.go`, `bucket.go`) and of
the helpers they use (`pkg/internal/base.go`), followed by theorems about that
embedding.

Go `int` values are modelled by `Int` with Go's truncated division
(`Int.tdiv`, `Int.tmod`); the part count is computed with Go's wrap-around
(`wrapInt`), the other size arithmetic is stated for sizes whose sums stay in
the range of `int`.
Go strings are modelled by `String`, an `error` by its text.
-/

namespace S3Sdk

/-! ## Go library functions used by the code -/

/-- Value of a decimal digit, as in the digit loop of `strconv.Atoi`. -/
def digitVal (c : Char) : Option Nat :=
  if 48 ≤ c.toNat ∧ c.toNat ≤ 57 then some (c.toNat - 48) else none

/-- Digits of `strconv.Atoi`: every character must be a decimal digit. -/
def parseDigits : List Char → Nat → Option Nat
  | [], acc => some acc
  | c :: cs, acc =>
    match digitVal c with
    | none => none
    | some d => parseDigits cs (acc * 10 + d)

/-- Largest Go `int` on a 64-bit platform. -/
def maxInt : Int := 9223372036854775807

/-- Smallest Go `int` on a 64-bit platform. -/
def minInt : Int := -9223372036854775808

/-- Go `strconv.Atoi` with the error dropped (`n, _ := strconv.Atoi(s)`):
an optional sign and at least one decimal digit give the number, cut to the
range of `int` when it does not fit; every other string gives 0. -/
def Atoi (s : String) : Int :=
  match s.data with
  | [] => 0
  | c :: cs =>
    if c = '-' then
      (if cs = [] then 0 else
        match parseDigits cs 0 with
        | none => 0
        | some n => max minInt (-(n : Int)))
    else if c = '+' then
      (if cs = [] then 0 else
        match parseDigits cs 0 with
        | none => 0
        | some n => min maxInt (n : Int))
    else
      match parseDigits (c :: cs) 0 with
      | none => 0
      | some n => min maxInt (n : Int)

/-- Go `strings.TrimSuffix`. -/
def TrimSuffix (s suffix : String) : String :=
  if suffix.data.isSuffixOf s.data then
    ⟨s.data.take (s.data.length - suffix.data.length)⟩
  else s

/-- Scan of `strings.Replace(s, old, new, -1)` for a non-empty `old`: the
leftmost occurrence is replaced, the scan resumes behind it (`skip` counts the
characters of the occurrence still to be dropped). -/
def replaceScan (old new : List Char) : List Char → Nat → List Char
  | [], _ => []
  | _ :: cs, skip + 1 => replaceScan old new cs skip
  | c :: cs, 0 =>
    if old.isPrefixOf (c :: cs) then new ++ replaceScan old new cs (old.length - 1)
    else c :: replaceScan old new cs 0

/-- Go `strings.Replace(s, old, new, -1)`: every non-overlapping occurrence of
`old` is replaced; `old == new` returns `s`; an empty `old` matches before
every character and at the end. -/
def Replace (s old new : String) : String :=
  if old = new then s
  else if old.data = [] then ⟨(s.data.flatMap fun c => new.data ++ [c]) ++ new.data⟩
  else ⟨replaceScan old.data new.data s.data 0⟩

/-- Go `path.Base`: the last element of the path, trailing slashes removed;
"." for the empty path and "/" for a path of slashes only. -/
def Base (path : String) : String :=
  if path = "" then "."
  else
    let stripped := path.data.reverse.dropWhile (fun c => c == '/')
    let last := (stripped.takeWhile (fun c => c != '/')).reverse
    if last = [] then "/" else ⟨last⟩

/-! ## Client configuration and options -/

/-- The fields of the v4 `Client` struct read by the large-file operations. -/
structure Client where
  partMinSize : Int
  partMaxSize : Int
  threadMinNum : Int
  threadMaxNum : Int
  maxRetryNum : Int
deriving DecidableEq

/-- The `thread_num` block of `UploadLargeFile` (multi.go 46-52), repeated
verbatim in `CopyLargeFile` (145-151) and `SyncLargeFile` (sync.go 34-40). -/
def threadNumOption (c : Client) (thread_num : String) : Int :=
  if thread_num ≠ "" then
    let n := Atoi thread_num
    if n ≤ c.threadMaxNum ∧ n ≥ c.threadMinNum then n else c.threadMaxNum
  else c.threadMaxNum

/-- The `part_size` block of `UploadLargeFile` (multi.go 39-45), repeated in
`CopyLargeFile` (138-144) and `SyncLargeFile` (sync.go 27-33). -/
def partSizeOption (c : Client) (part_size : String) : Int :=
  if part_size ≠ "" then
    let n := Atoi part_size
    if n ≤ c.partMaxSize ∧ n ≥ c.partMinSize then n else c.partMaxSize
  else c.partMaxSize

/-- Go `int` arithmetic on a 64-bit platform: the result of `+` and `-` is
cut to 64 bits in two's complement. -/
def wrapInt (n : Int) : Int :=
  (n + 9223372036854775808) % 18446744073709551616 - 9223372036854775808

/-- Number of parts: `(size + partSize - 1) / partSize` (multi.go 61, 160;
object.go 241; sync.go 52), with the sum and the difference cut to the range
of `int` as Go computes them. -/
def totalParts (size partSize : Int) : Int :=
  (wrapInt (wrapInt (size + partSize) - 1)).tdiv partSize

/-- Capacity of the channel `queueMaxSize` (multi.go 62-64 and 71; 161-163 and
193; sync.go 53-55 and 63): `if total < threadNum { threadNum = total }`. -/
def poolCapacity (c : Client) (thread_num : String) (total : Int) : Int :=
  let threadNum := threadNumOption c thread_num
  if total < threadNum then total else threadNum

/-- The spec's clamp: a value below the minimum becomes the minimum, a value
above the maximum becomes the maximum. -/
def specClamp (requested lo hi : Int) : Int :=
  if requested < lo then lo else if requested > hi then hi else requested

/-! ## Partitioning -/

/-- Byte range of the part with 0-based index `partNum` (multi.go 213-217,
object.go 271-275, sync.go 84-88): the pair `(tmpStart, tmpEnd)`. -/
def partRange (objectSize partSize partNum : Int) : Int × Int :=
  let tmpStart := partNum * partSize
  let tmpEnd := (partNum + 1) * partSize - 1
  let tmpEnd := if tmpEnd > objectSize then tmpStart + objectSize.tmod partSize - 1 else tmpEnd
  (tmpStart, tmpEnd)

/-- The header value `fmt.Sprintf("bytes=%d-%d", tmpStart, tmpEnd)`. -/
def partRangeHeader (objectSize partSize partNum : Int) : String :=
  "bytes=" ++ toString (partRange objectSize partSize partNum).1 ++ "-" ++
    toString (partRange objectSize partSize partNum).2

/-- Section of the local file read for the part with 0-based index `partNum`
in `UploadLargeFile` (multi.go 90-94): the pair `(offset, num)`. -/
def partSection (fileSize partSize partNum : Int) : Int × Int :=
  let offset := partNum * partSize
  let num := partSize
  let num := if fileSize - offset < num then fileSize - offset else num
  (offset, num)

/-! ## Target key of the directory operations -/

/-- Normalisation of the target prefix (object.go 488-490, 706-708;
sync.go 160-162). -/
def normalizePrefix (pfx : String) : String :=
  if pfx ≠ "" then TrimSuffix pfx "/" ++ "/" else pfx

/-- Target key of one listed entry (object.go 550-555, 771-776;
sync.go 209-214). -/
def targetObject (pfx sourcePrefix key full_path : String) : String :=
  if full_path = "true" then pfx ++ Replace key sourcePrefix ""
  else pfx ++ Base key

/-! ## Requests and events -/

/-- Outcome of one request as its Go caller sees it: `err` for a non-nil
error (with its text), `ok` with the value the caller reads (upload id, ETag). -/
inductive Resp
  | err (e : String)
  | ok (v : String)
deriving DecidableEq

/-- What a run does that can be observed: the requests it issues, with the
answers they got, and the starts of the worker goroutines. -/
inductive Event
  /-- The call of `InitUpload`; `ok` carries the upload id. -/
  | InitUpload (r : Resp)
  /-- A call of `UploadPart` (or of `CopyPart` in `CopyLargeFile`) with this
  `partNumber`; `ok` carries the ETag. -/
  | Part (partNumber : Nat) (r : Resp)
  /-- A call of `Cat` with this `Range` header. -/
  | Cat (partRange : String) (r : Resp)
  /-- The call of `CompleteUpload` with this body. -/
  | CompleteUpload (body : String) (r : Resp)
  /-- A call of `CancelPart`, the AbortUpload request. -/
  | CancelPart (uploadID : String) (r : Resp)
  /-- The statement `go func(partNum ...)`; `exit` is the value the fail-fast
  flag (`uploadExit`, `copyExit`) has at that moment. -/
  | go (partNum : Nat) (exit : Bool)
  /-- The worker of `partNum` reached the progress push `percentChan <- total`. -/
  | percent (partNum : Nat)
deriving DecidableEq

/-- One `<Part>` element: `fmt.Sprintf("<Part><PartNumber>%d</PartNumber>
<ETag>%s</ETag></Part>", partNum+1, Etag)` (multi.go 123, 249; sync.go 152). -/
def partEntry (partNum : Nat) (Etag : String) : String :=
  "<Part><PartNumber>" ++ toString (partNum + 1) ++ "</PartNumber><ETag>" ++ Etag ++
    "</ETag></Part>"

/-- The body built for `CompleteUpload` (multi.go 121-125, 247-251;
sync.go 150-154): a loop over the slots of the part list in index order. -/
def completeUploadInfo (uploadPartList : List String) : String :=
  (uploadPartList.enum.foldl (fun acc p => acc ++ partEntry p.1 p.2)
    "<CompleteMultipartUpload>") ++ "</CompleteMultipartUpload>"

/-! ## The part pipeline of `UploadLargeFile` and `CopyLargeFile`

The coordinator (the body of the function) and the workers (the goroutines it
starts) are threads over shared variables; a run is an interleaving of their
steps. One step is one access to shared state or one request. -/

namespace LargeFile

/-- What the pipeline is run with. -/
structure Pipeline where
  /-- The number of parts `total`. -/
  total : Nat
  /-- Capacity of `queueMaxSize`. -/
  threadNum : Nat
  /-- The client's `maxRetryNum`. -/
  maxRetryNum : Nat
  /-- Only `CopyLargeFile`: the caller passed an `exitChan`, so a cancel
  signal can arrive. `false` for `UploadLargeFile`. -/
  exitChan : Bool
deriving DecidableEq

/-- Where the coordinator stands. -/
inductive CoordPc
  /-- Before `InitUpload` (multi.go 66, 166). -/
  | init
  /-- At the loop head (76-79, 198-201): the tests `partNum < total` and
  `uploadExit`, then `wg.Add(1)`. -/
  | head
  /-- At `queueMaxSize <- true` (81, 203), followed by the `go` statement. -/
  | acquire
  /-- At `wg.Wait()` (116, 242), followed by the test of `partErr`. -/
  | wait
  /-- The function has returned. -/
  | returned
deriving DecidableEq

/-- Where the worker of one part stands. -/
inductive WorkerPc
  /-- No goroutine was started for the part. -/
  | notStarted
  /-- At the test `i < c.maxRetryNum` of the retry loop (95, 219). -/
  | loop (i : Nat)
  /-- At `if partErr != nil { return }` behind the loop (107, 233). -/
  | check
  /-- In the deferred function, at its test of `partErr` (84, 206). -/
  | deferred
  /-- At `wg.Done()` (87, 209). -/
  | wgDone
  /-- At `<-queueMaxSize` (88, 210). -/
  | release
  /-- The goroutine has ended. -/
  | finished
deriving DecidableEq

/-- The shared variables, the threads' positions and what was observed. -/
structure State where
  coord : CoordPc
  /-- Loop variable of the coordinator. -/
  partNum : Nat
  /-- The fail-fast flag `uploadExit` (`copyExit`). -/
  uploadExit : Bool
  /-- The flag `copyCancel` of `CopyLargeFile`. -/
  copyCancel : Bool
  /-- The shared error variable `partErr`. -/
  partErr : Option String
  /-- The slots `uploadPartList` (`copyPartList`). -/
  uploadPartList : List String
  /-- Number of values held by the channel `queueMaxSize`. -/
  queue : Nat
  /-- Counter of the wait group. -/
  wg : Nat
  /-- Position of the worker of each part, by 0-based `partNum`. -/
  workers : Nat → WorkerPc
  trace : List Event
  /-- What the function returned, once it has. -/
  result : Option Resp

/-- Who moves next, with the answer of the request in case the step issues one. -/
inductive Action
  /-- The coordinator; `r` answers `InitUpload` or `CompleteUpload`. -/
  | coord (r : Resp)
  /-- The worker of `partNum`; `r` answers `UploadPart` (`CopyPart`). -/
  | worker (partNum : Nat) (r : Resp)
  /-- The goroutine of `CopyLargeFile` that reads `true` from `exitChan`
  (multi.go 177-189): the step is its assignment `copyCancel = true`. The
  send on `copyExitChan` that follows it is taken by the goroutine
  `internal.CURL` has started for a `CopyPart` request, whose request it
  breaks off. -/
  | cancel
deriving DecidableEq

/-- State at entry, behind the option handling: `make([]string, total)` holds
empty strings. -/
def init (cfg : Pipeline) : State :=
  { coord := .init, partNum := 0, uploadExit := false, copyCancel := false,
    partErr := none, uploadPartList := List.replicate cfg.total "",
    queue := 0, wg := 0, workers := fun _ => .notStarted, trace := [], result := none }

/-- One step of the coordinator. -/
def coordStep (cfg : Pipeline) (s : State) (r : Resp) : Option State :=
  match s.coord with
  | .init =>
    match r with
    | .err _ =>
      some { s with coord := .returned, result := some r, trace := s.trace ++ [.InitUpload r] }
    | .ok _ => some { s with coord := .head, trace := s.trace ++ [.InitUpload r] }
  | .head =>
    if s.partNum < cfg.total then
      if s.uploadExit then some { s with coord := .wait }
      else some { s with coord := .acquire, wg := s.wg + 1 }
    else some { s with coord := .wait }
  | .acquire =>
    if s.queue < cfg.threadNum then
      some { s with
        coord := .head
        queue := s.queue + 1
        workers := Function.update s.workers s.partNum (.loop 0)
        partNum := s.partNum + 1
        trace := s.trace ++ [.go s.partNum s.uploadExit] }
    else none
  | .wait =>
    if s.wg = 0 then
      match s.partErr with
      | some e => some { s with coord := .returned, result := some (.err e) }
      | none =>
        some { s with
          coord := .returned
          result := some r
          trace := s.trace ++ [.CompleteUpload (completeUploadInfo s.uploadPartList) r] }
    else none
  | .returned => none

/-- One step of the worker of part `k`. -/
def workerStep (cfg : Pipeline) (s : State) (k : Nat) (r : Resp) : Option State :=
  match s.workers k with
  | .notStarted => none
  | .loop i =>
    if i < cfg.maxRetryNum then
      if s.copyCancel then
        some { s with partErr := some "canceled", workers := Function.update s.workers k .check }
      else
        match r with
        | .err e =>
          some { s with
            partErr := some e
            workers := Function.update s.workers k (.loop (i + 1))
            trace := s.trace ++ [.Part (k + 1) r] }
        | .ok Etag =>
          some { s with
            partErr := none
            uploadPartList := s.uploadPartList.set k Etag
            workers := Function.update s.workers k .check
            trace := s.trace ++ [.Part (k + 1) r] }
    else some { s with workers := Function.update s.workers k .check }
  | .check =>
    match s.partErr with
    | some _ => some { s with workers := Function.update s.workers k .deferred }
    | none =>
      some { s with
        workers := Function.update s.workers k .deferred
        trace := s.trace ++ [.percent k] }
  | .deferred =>
    some { s with
      uploadExit := if s.partErr.isSome then true else s.uploadExit
      workers := Function.update s.workers k .wgDone }
  | .wgDone => some { s with wg := s.wg - 1, workers := Function.update s.workers k .release }
  | .release =>
    some { s with queue := s.queue - 1, workers := Function.update s.workers k .finished }
  | .finished => none

/-- The step relation as a function: `none` when the thread cannot move. -/
def step (cfg : Pipeline) (s : State) : Action → Option State
  | .coord r => coordStep cfg s r
  | .worker k r => workerStep cfg s k r
  | .cancel =>
    if cfg.exitChan = true ∧ s.copyCancel = false then some { s with copyCancel := true }
    else none

/-- A run: the steps of a schedule, one after the other. -/
def exec (cfg : Pipeline) : State → List Action → Option State
  | s, [] => some s
  | s, a :: rest =>
    match step cfg s a with
    | none => none
    | some s1 => exec cfg s1 rest

/-- Whether the event is the start of a worker at a moment the fail-fast flag
was already set. -/
def isLateStart : Event → Bool
  | .go _ true => true
  | _ => false

/-- Number of workers started while the fail-fast flag was set. -/
def lateStarts (trace : List Event) : Nat := trace.countP isLateStart

/-- Whether the event is an AbortUpload request. -/
def isCancelPart : Event → Bool
  | .CancelPart _ _ => true
  | _ => false

/-- Whether the event is a CompleteUpload request. -/
def isCompleteUpload : Event → Bool
  | .CompleteUpload _ _ => true
  | _ => false

end LargeFile

/-! ## The retry loops of the workers

Every per-part and per-object mutation is wrapped in a loop of the shape
`for i := 0; i < c.maxRetryNum; i++ { ... continue ... break }`. -/

/-- What one pass through the body of a retry loop does. -/
inductive Pass
  /-- Only `CopyLargeFile` (multi.go 220-223): `copyCancel` is set, the pass
  stores the error "canceled" and leaves the loop without a request. -/
  | canceled
  /-- A local step in front of the request failed (`tFile.Seek`, `os.Open`),
  the pass stores the error and goes on with `continue`; no request. -/
  | localFail (e : String)
  /-- The request was issued and failed: the error is stored, `continue`. -/
  | reqFail (e : String)
  /-- The request was issued and succeeded: the error variable is set to nil,
  `break`. -/
  | reqOk (v : String)
deriving DecidableEq

/-- What a retry loop leaves behind. -/
structure LoopOut where
  /-- Answers of the requests the loop issued, in order. -/
  requests : List Resp
  /-- Number of passes begun. -/
  passes : Nat
  /-- The error the loop itself has stored last (nil after a successful
  request). In `MoveLargeFile` this is the local variable `cErr`; in the
  workers the variable (`partErr`, `fileErr`) is shared, and what it holds
  behind the loop can be the value another worker has stored. -/
  err : Option String
  /-- Value of the successful request, if one succeeded. -/
  value : Option String
deriving DecidableEq

/-- The loop `for i := ...; i < c.maxRetryNum; i++`: `fuel` is
`maxRetryNum - i`, the passes still allowed. -/
def retryFrom (pass : Nat → Pass) : Nat → Nat → LoopOut → LoopOut
  | 0, _, out => out
  | fuel + 1, i, out =>
    match pass i with
    | .canceled => { out with passes := out.passes + 1, err := some "canceled" }
    | .localFail e => retryFrom pass fuel (i + 1) { out with passes := out.passes + 1, err := some e }
    | .reqFail e =>
      retryFrom pass fuel (i + 1)
        { out with requests := out.requests ++ [.err e], passes := out.passes + 1, err := some e }
    | .reqOk v =>
      { requests := out.requests ++ [.ok v], passes := out.passes + 1, err := none,
        value := some v }

/-- A retry loop run from `i = 0`, the error variable holding `err0` before. -/
def retryLoop (maxRetryNum : Nat) (pass : Nat → Pass) (err0 : Option String) : LoopOut :=
  retryFrom pass maxRetryNum 0 { requests := [], passes := 0, err := err0, value := none }

/-- The pass of a loop whose body is the request alone. -/
def requestPass (resp : Nat → Resp) (i : Nat) : Pass :=
  match resp i with
  | .err e => .reqFail e
  | .ok v => .reqOk v

/-- The pass of a loop whose body has a local step in front of the request;
`local i` is the error of that step in pass `i`, if it fails. -/
def guardedPass (loc : Nat → Option String) (resp : Nat → Resp) (i : Nat) : Pass :=
  match loc i with
  | some e => .localFail e
  | none => requestPass resp i

/-- The `Delete` loop of `MoveLargeFile` (multi.go 273-279) and of
`MoveAllObject` (object.go 800-806); `cErr` is nil when the loop starts, the
copy before it having succeeded. -/
def deleteLoop (maxRetryNum : Nat) (resp : Nat → Resp) : LoopOut :=
  retryLoop maxRetryNum (requestPass resp) none

/-- The `Cat` loop of `SyncLargeFile` (sync.go 99-112); `seek i` is the error
of `tFile.Seek` in pass `i`. -/
def catLoop (maxRetryNum : Nat) (seek : Nat → Option String) (resp : Nat → Resp)
    (partErr : Option String) : LoopOut :=
  retryLoop maxRetryNum (guardedPass seek resp) partErr

/-- The passes of the `UploadPart` loop of `SyncLargeFile` (sync.go 121-135).
Every pass starts with `tFile, partErr = os.Open(tFile.Name())`: a failed
re-open leaves `tFile` nil, and the next evaluation of `tFile.Name()`
dereferences nil. `tFileNil` tells whether `tFile` is nil; the result is
`none` when the goroutine panics. -/
def syncUploadFrom (reopen : Nat → Option String) (resp : Nat → Resp) :
    Nat → Nat → Bool → LoopOut → Option LoopOut
  | 0, _, _, out => some out
  | fuel + 1, i, tFileNil, out =>
    if tFileNil then none
    else
      match reopen i with
      | some e =>
        syncUploadFrom reopen resp fuel (i + 1) true
          { out with passes := out.passes + 1, err := some e }
      | none =>
        match resp i with
        | .err e =>
          syncUploadFrom reopen resp fuel (i + 1) false
            { out with
              requests := out.requests ++ [.err e], passes := out.passes + 1, err := some e }
        | .ok v =>
          some
            { requests := out.requests ++ [.ok v], passes := out.passes + 1, err := none,
              value := some v }

/-- The `UploadPart` loop of `SyncLargeFile` (sync.go 121-135); `reopen i` is
the error of `os.Open` in pass `i`; `none` when the loop panics. -/
def syncUploadLoop (maxRetryNum : Nat) (reopen : Nat → Option String) (resp : Nat → Resp)
    (partErr : Option String) : Option LoopOut :=
  syncUploadFrom reopen resp maxRetryNum 0 false
    { requests := [], passes := 0, err := partErr, value := none }

/-- The `Put` loop of `UploadFromDir` (object.go 406-419); `reopen i` is the
error of `os.Open` in pass `i`. -/
def putLoop (maxRetryNum : Nat) (reopen : Nat → Option String) (resp : Nat → Resp)
    (fileErr : Option String) : LoopOut :=
  retryLoop maxRetryNum (guardedPass reopen resp) fileErr

/-- Whether a pass failed: it stored an error and went on to the next pass. -/
def Pass.failed : Pass → Bool
  | .localFail _ => true
  | .reqFail _ => true
  | _ => false

/-- Whether an answer is an error. -/
def Resp.isErr : Resp → Bool
  | .err _ => true
  | .ok _ => false

/-! ## `SyncLargeFile`

The function is modelled over the answers of its environment, in the
schedule in which every worker has ended before the coordinator goes on. The
state holds the temp files the call has created and not removed. -/

namespace Sync

/-- The answers of the environment; the arguments are the 0-based `partNum`
and the pass `i` of the retry loop. -/
structure Env where
  InitUpload : Resp
  /-- Answer of `os.CreateTemp`: an error, or the name of the file created. -/
  CreateTemp : Nat → Resp
  /-- Error of `tFile.Seek`, if it fails. -/
  Seek : Nat → Nat → Option String
  Cat : Nat → Nat → Resp
  /-- Error of `tFile.Stat`, if it fails. -/
  Stat : Nat → Option String
  /-- Error of `os.Open`, if it fails. -/
  Open : Nat → Nat → Option String
  UploadPart : Nat → Nat → Resp
  CompleteUpload : Resp

/-- The variables shared by coordinator and workers, the trace, and the file
system. -/
structure State where
  partErr : Option String
  partExit : Bool
  syncPartList : List String
  trace : List Event
  /-- Names of the temp files created by the call that are in the file
  system. -/
  files : List String
  /-- A goroutine has dereferenced a nil pointer: the program ends with a
  panic. -/
  panicked : Bool
deriving DecidableEq

/-- The `Cat` loop (sync.go 99-112) of the worker of `partNum`. -/
def catPasses (env : Env) (partRange : String) (partNum : Nat) : Nat → Nat → State → State
  | 0, _, st => st
  | fuel + 1, i, st =>
    match env.Seek partNum i with
    | some sErr => catPasses env partRange partNum fuel (i + 1) { st with partErr := some sErr }
    | none =>
      match env.Cat partNum i with
      | .err cErr =>
        catPasses env partRange partNum fuel (i + 1)
          { st with partErr := some cErr, trace := st.trace ++ [.Cat partRange (.err cErr)] }
      | .ok v => { st with partErr := none, trace := st.trace ++ [.Cat partRange (.ok v)] }

/-- The `UploadPart` loop (sync.go 121-135) of the worker of `partNum`.
`tFile` is the variable `tFile`: `none` for nil, else the name of the file it
stands for. A pass starts with `tFile, partErr = os.Open(tFile.Name())`, and
`tFile.Name()` on nil panics; a failed `os.Open` returns nil. -/
def uploadPasses (env : Env) (partNum : Nat) :
    Nat → Nat → Option String → State → Option String × State
  | 0, _, tFile, st => (tFile, st)
  | fuel + 1, i, tFile, st =>
    match tFile with
    | none => (none, { st with panicked := true })
    | some name =>
      match env.Open partNum i with
      | some oErr => uploadPasses env partNum fuel (i + 1) none { st with partErr := some oErr }
      | none =>
        match env.UploadPart partNum i with
        | .err syncErr =>
          uploadPasses env partNum fuel (i + 1) (some name)
            { st with
              partErr := some syncErr
              trace := st.trace ++ [.Part (partNum + 1) (.err syncErr)] }
        | .ok Etag =>
          (some name,
            { st with
              partErr := none
              syncPartList := st.syncPartList.set partNum Etag
              trace := st.trace ++ [.Part (partNum + 1) (.ok Etag)] })

/-- The deferred function `tFile.Close(); os.Remove(tFile.Name())`
(sync.go 95-98): `Close` on nil returns an error, `Name` on nil panics before
anything is removed. -/
def cleanup (tFile : Option String) (st : State) : State :=
  match tFile with
  | none => { st with panicked := true }
  | some name => { st with files := st.files.erase name }

/-- The body of the goroutine (sync.go 75-142) with its deferred removal of
the temp file, which runs at every `return` behind `os.CreateTemp` and also
when the body panics. -/
def workerBody (env : Env) (maxRetryNum : Nat) (objectSize partSize : Int) (partNum : Nat)
    (st : State) : State :=
  let partRange := partRangeHeader objectSize partSize partNum
  match env.CreateTemp partNum with
  | .err tErr => { st with partErr := some tErr }
  | .ok name =>
    let st1 := catPasses env partRange partNum maxRetryNum 0 { st with files := name :: st.files }
    if st1.partErr.isSome then cleanup (some name) st1
    else
      match env.Stat partNum with
      | some e => cleanup (some name) { st1 with partErr := some e }
      | none =>
        let up := uploadPasses env partNum maxRetryNum 0 (some name) st1
        if up.2.panicked then cleanup up.1 up.2
        else if up.2.partErr.isSome then cleanup up.1 up.2
        else cleanup up.1 { up.2 with trace := up.2.trace ++ [.percent partNum] }

/-- The goroutine: its body, then the deferred function (sync.go 76-82). -/
def worker (env : Env) (maxRetryNum : Nat) (objectSize partSize : Int) (partNum : Nat)
    (st : State) : State :=
  let st1 := workerBody env maxRetryNum objectSize partSize partNum st
  if st1.partErr.isSome then { st1 with partExit := true } else st1

/-- The loop `for partNum := 0; partNum < total; partNum++` (sync.go 69-144).
Its body ends in a second `partNum++` (line 143), so the next pass runs with
`partNum + 2`. `fuel` bounds the number of passes; a panic ends the program. -/
def dispatch (env : Env) (maxRetryNum : Nat) (objectSize partSize : Int) (total : Nat) :
    Nat → Nat → State → State
  | 0, _, st => st
  | fuel + 1, partNum, st =>
    if st.panicked then st
    else if partNum < total then
      if st.partExit then st
      else
        dispatch env maxRetryNum objectSize partSize total fuel (partNum + 2)
          (worker env maxRetryNum objectSize partSize partNum
            { st with trace := st.trace ++ [.go partNum st.partExit] })
    else st

/-- How a call of `SyncLargeFile` ends. -/
structure Return where
  /-- The value returned; `none` when the program ended with a panic. -/
  result : Option Resp
  trace : List Event
  /-- The temp files of the call left in the file system. -/
  files : List String
deriving DecidableEq

end Sync

/-- The function `SyncLargeFile` (sync.go 19-156) from the point where the
source HEAD has answered with `objectSize`. -/
def SyncLargeFile (c : Client) (env : Sync.Env) (objectSize : Int) (part_size : String) :
    Sync.Return :=
  let partSize := partSizeOption c part_size
  if ¬ (objectSize > 0) then
    { result := some (.err "Content-Length cant not zero"), trace := [], files := [] }
  else
    let total := (totalParts objectSize partSize).toNat
    match env.InitUpload with
    | .err e => { result := some (.err e), trace := [.InitUpload (.err e)], files := [] }
    | .ok uploadID =>
      let st0 : Sync.State :=
        { partErr := none, partExit := false, syncPartList := List.replicate total "",
          trace := [.InitUpload (.ok uploadID)], files := [], panicked := false }
      let st := Sync.dispatch env c.maxRetryNum.toNat objectSize partSize total total 0 st0
      if st.panicked then { result := none, trace := st.trace, files := st.files }
      else
        match st.partErr with
        | some e => { result := some (.err e), trace := st.trace, files := st.files }
        | none =>
          { result := some env.CompleteUpload
            trace :=
              st.trace ++
                [.CompleteUpload (completeUploadInfo st.syncPartList) env.CompleteUpload]
            files := st.files }

namespace LargeFile

/-- The step relation: one constructor for every way a thread can move. -/
inductive Step (cfg : Pipeline) : State → State → Prop
  | initFail (s : State) (e : String) (hc : s.coord = .init) :
    Step cfg s { s with
      coord := .returned, result := some (.err e), trace := s.trace ++ [.InitUpload (.err e)] }
  | initOk (s : State) (v : String) (hc : s.coord = .init) :
    Step cfg s { s with coord := .head, trace := s.trace ++ [.InitUpload (.ok v)] }
  | headExit (s : State) (hc : s.coord = .head) (hn : s.partNum < cfg.total)
      (hx : s.uploadExit = true) :
    Step cfg s { s with coord := .wait }
  | headAdd (s : State) (hc : s.coord = .head) (hn : s.partNum < cfg.total)
      (hx : s.uploadExit = false) :
    Step cfg s { s with coord := .acquire, wg := s.wg + 1 }
  | headEnd (s : State) (hc : s.coord = .head) (hn : ¬ s.partNum < cfg.total) :
    Step cfg s { s with coord := .wait }
  | start (s : State) (hc : s.coord = .acquire) (hq : s.queue < cfg.threadNum) :
    Step cfg s { s with
      coord := .head
      queue := s.queue + 1
      workers := Function.update s.workers s.partNum (.loop 0)
      partNum := s.partNum + 1
      trace := s.trace ++ [.go s.partNum s.uploadExit] }
  | joinErr (s : State) (e : String) (hc : s.coord = .wait) (hw : s.wg = 0)
      (he : s.partErr = some e) :
    Step cfg s { s with coord := .returned, result := some (.err e) }
  | joinOk (s : State) (r : Resp) (hc : s.coord = .wait) (hw : s.wg = 0)
      (he : s.partErr = none) :
    Step cfg s { s with
      coord := .returned
      result := some r
      trace := s.trace ++ [.CompleteUpload (completeUploadInfo s.uploadPartList) r] }
  | passCanceled (s : State) (k i : Nat) (hp : s.workers k = .loop i)
      (hi : i < cfg.maxRetryNum) (hx : s.copyCancel = true) :
    Step cfg s { s with
      partErr := some "canceled", workers := Function.update s.workers k .check }
  | passFail (s : State) (k i : Nat) (e : String) (hp : s.workers k = .loop i)
      (hi : i < cfg.maxRetryNum) (hx : s.copyCancel = false) :
    Step cfg s { s with
      partErr := some e
      workers := Function.update s.workers k (.loop (i + 1))
      trace := s.trace ++ [.Part (k + 1) (.err e)] }
  | passOk (s : State) (k i : Nat) (Etag : String) (hp : s.workers k = .loop i)
      (hi : i < cfg.maxRetryNum) (hx : s.copyCancel = false) :
    Step cfg s { s with
      partErr := none
      uploadPartList := s.uploadPartList.set k Etag
      workers := Function.update s.workers k .check
      trace := s.trace ++ [.Part (k + 1) (.ok Etag)] }
  | loopEnd (s : State) (k i : Nat) (hp : s.workers k = .loop i)
      (hi : ¬ i < cfg.maxRetryNum) :
    Step cfg s { s with workers := Function.update s.workers k .check }
  | checkErr (s : State) (k : Nat) (e : String) (hp : s.workers k = .check)
      (he : s.partErr = some e) :
    Step cfg s { s with workers := Function.update s.workers k .deferred }
  | checkOk (s : State) (k : Nat) (hp : s.workers k = .check) (he : s.partErr = none) :
    Step cfg s { s with
      workers := Function.update s.workers k .deferred
      trace := s.trace ++ [.percent k] }
  | deferred (s : State) (k : Nat) (hp : s.workers k = .deferred) :
    Step cfg s { s with
      uploadExit := if s.partErr.isSome then true else s.uploadExit
      workers := Function.update s.workers k .wgDone }
  | wgDone (s : State) (k : Nat) (hp : s.workers k = .wgDone) :
    Step cfg s { s with wg := s.wg - 1, workers := Function.update s.workers k .release }
  | release (s : State) (k : Nat) (hp : s.workers k = .release) :
    Step cfg s { s with
      queue := s.queue - 1, workers := Function.update s.workers k .finished }
  | cancel (s : State) (hc : cfg.exitChan = true) (hx : s.copyCancel = false) :
    Step cfg s { s with copyCancel := true }

/-- The worker is between its start and its `wg.Done()`. -/
def WorkerPc.active : WorkerPc → Bool
  | .loop _ => true
  | .check => true
  | .deferred => true
  | .wgDone => true
  | _ => false

/-- Number of the workers of the parts below `n` that have not yet called
`wg.Done()`. -/
def activeCount (workers : Nat → WorkerPc) (n : Nat) : Nat :=
  (List.range n).countP (fun k => (workers k).active)

/-- The answers of the requests made for the part with 0-based index `k`,
in the order of the requests. -/
def partResps (trace : List Event) (k : Nat) : List Resp :=
  trace.filterMap fun ev =>
    match ev with
    | .Part n r => if n = k + 1 then some r else none
    | _ => none

/-- The worker has left its retry loop. -/
def WorkerPc.pastLoop : WorkerPc → Bool
  | .check => true
  | .deferred => true
  | .wgDone => true
  | .release => true
  | .finished => true
  | _ => false

/-- States reached by the schedule `acts` from the entry state. -/
def Reaches (cfg : Pipeline) (acts : List Action) (s : State) : Prop :=
  exec cfg (init cfg) acts = some s

end LargeFile

namespace LargeFile

/-- The state a schedule ends in (the entry state when the schedule cannot be
run to its end). -/
def finalState (cfg : Pipeline) (acts : List Action) : State :=
  (exec cfg (init cfg) acts).getD (init cfg)

/-- An answer for the steps that issue no request. -/
def noReq : Resp := .ok ""

/-- The steps of the worker of part `k` from the end of its retry loop to the
end of the goroutine: loop exit or check, deferred function, `wg.Done()`,
release of the pool slot. -/
def finishWorker (k : Nat) : List Action :=
  [.worker k noReq, .worker k noReq, .worker k noReq, .worker k noReq]

/-- One part, three attempts allowed. -/
def onePart : Pipeline := { total := 1, threadNum := 1, maxRetryNum := 3, exitChan := false }

/-- A run of `onePart`: InitUpload succeeds, the only part fails with status
500 on each of its three attempts, the coordinator joins and returns. -/
def onePartFails : List Action :=
  [.coord (.ok "upload-1"), .coord noReq, .coord noReq,
    .worker 0 (.err "StatusCode: 500"), .worker 0 (.err "StatusCode: 500"),
    .worker 0 (.err "StatusCode: 500"), .worker 0 noReq] ++ finishWorker 0 ++
  [.coord noReq, .coord noReq]

/-- Two parts, a pool of two, three attempts allowed. -/
def twoParts : Pipeline := { total := 2, threadNum := 2, maxRetryNum := 3, exitChan := false }

/-- A run of `twoParts` in which both parts succeed at once and part 2
finishes before part 1. -/
def reverseOrder : List Action :=
  [.coord (.ok "upload-1"), .coord noReq, .coord noReq, .coord noReq, .coord noReq,
    .worker 1 (.ok "etag-b")] ++ finishWorker 1 ++
  [.worker 0 (.ok "etag-a")] ++ finishWorker 0 ++
  [.coord noReq, .coord (.ok "done")]

/-- A run of `twoParts`: both workers are started; part 1 fails on each of
its three attempts; part 2 succeeds after that; both workers end; the
coordinator joins. -/
def failThenSucceed : List Action :=
  [.coord (.ok "upload-1"), .coord noReq, .coord noReq, .coord noReq, .coord noReq,
    .worker 0 (.err "StatusCode: 500"), .worker 0 (.err "StatusCode: 500"),
    .worker 0 (.err "StatusCode: 500"),
    .worker 1 (.ok "etag-b"), .worker 0 noReq] ++ finishWorker 1 ++ finishWorker 0 ++
  [.coord noReq, .coord (.ok "done")]

/-- A run of `twoParts`: both workers are started and the coordinator waits
for them; part 2 fails on each of its three attempts; part 1 succeeds after
that; both workers end; the coordinator joins. -/
def manifestGap : List Action :=
  [.coord (.ok "upload-1"), .coord noReq, .coord noReq, .coord noReq, .coord noReq,
    .coord noReq,
    .worker 1 (.err "StatusCode: 500"), .worker 1 (.err "StatusCode: 500"),
    .worker 1 (.err "StatusCode: 500"),
    .worker 0 (.ok "etag-a"), .worker 1 noReq] ++ finishWorker 0 ++ finishWorker 1 ++
  [.coord (.ok "done")]

/-- `CopyLargeFile` of one part with three attempts allowed and an
`exitChan`. -/
def copyOnePart : Pipeline := { total := 1, threadNum := 1, maxRetryNum := 3, exitChan := true }

/-- A run of `copyOnePart`: the cancel signal arrives while the first
`CopyPart` request is under way, the request is broken off and fails, and the
next pass finds the copy cancelled. The step of the request, which has begun
before the signal, stands in front of the step of the cancel goroutine. -/
def cancelledCopy : List Action :=
  [.coord (.ok "upload-1"), .coord noReq, .coord noReq, .coord noReq,
    .worker 0 (.err "context canceled"), .cancel, .worker 0 noReq] ++ finishWorker 0 ++
  [.coord noReq]

/-- Two parts, a pool of one, one attempt allowed. -/
def poolOfOne : Pipeline := { total := 2, threadNum := 1, maxRetryNum := 1, exitChan := false }

/-- A run of `poolOfOne`: the coordinator passes the loop head for part 2 and
waits for the pool slot; part 1 fails and its worker sets the fail-fast flag
and frees the slot; the coordinator then starts the worker of part 2. -/
def lateStart : List Action :=
  [.coord (.ok "upload-1"), .coord noReq, .coord noReq, .coord noReq,
    .worker 0 (.err "StatusCode: 500"), .worker 0 noReq] ++ finishWorker 0 ++
  [.coord noReq]

/-- Four parts, a pool of two, three attempts allowed. -/
def fourParts : Pipeline := { total := 4, threadNum := 2, maxRetryNum := 3, exitChan := false }

/-- A run of `fourParts` in which the coordinator moves whenever it can. The
workers of parts 1 and 2 are started and the coordinator, past the loop head
for part 3, waits for a place in the pool. Part 1 succeeds; the first attempt
of part 2 fails; the worker of part 1 runs its deferred function and ends.
The coordinator starts the worker of part 3 and comes to the loop head for
part 4. The second attempt of part 2 and part 3 succeed, their workers end,
and the coordinator joins. -/
def recoveredRetry : List Action :=
  [.coord (.ok "upload-1"), .coord noReq, .coord noReq, .coord noReq, .coord noReq,
    .coord noReq,
    .worker 0 (.ok "etag-1"), .worker 0 noReq,
    .worker 1 (.err "StatusCode: 500"),
    .worker 0 noReq, .worker 0 noReq, .worker 0 noReq,
    .coord noReq, .coord noReq,
    .worker 1 (.ok "etag-2")] ++ finishWorker 1 ++
  [.worker 2 (.ok "etag-3")] ++ finishWorker 2 ++
  [.coord (.ok "done")]

end LargeFile

namespace Sync

/-- An environment in which every local step and every request succeeds;
`UploadPart` for the part with index `k` returns the ETag `etag-(k+1)`. -/
def allSucceed : Env where
  InitUpload := .ok "upload-1"
  CreateTemp := fun k => .ok ("/tmp/aws-v4-sync-large" ++ toString k ++ "-1")
  Seek := fun _ _ => none
  Cat := fun _ _ => .ok ""
  Stat := fun _ => none
  Open := fun _ _ => none
  UploadPart := fun k _ => .ok ("etag-" ++ toString (k + 1))
  CompleteUpload := .ok "done"

end Sync

/-- A client with the default limits: parts of 5 MiB to 100 MiB, 1 to 10
threads, 3 attempts. -/
def defaultClient : Client :=
  { partMinSize := 5242880, partMaxSize := 104857600, threadMinNum := 1, threadMaxNum := 10,
    maxRetryNum := 3 }

namespace Sync

/-- An environment in which every step succeeds but `os.Open`, which fails
in every pass. -/
def openFails : Env where
  InitUpload := .ok "upload-1"
  CreateTemp := fun k => .ok ("/tmp/aws-v4-sync-large" ++ toString k ++ "-1")
  Seek := fun _ _ => none
  Cat := fun _ _ => .ok ""
  Stat := fun _ => none
  Open := fun _ _ => some "too many open files"
  UploadPart := fun k _ => .ok ("etag-" ++ toString (k + 1))
  CompleteUpload := .ok "done"

end Sync

/-! ## More Go library functions -/

/-- Go `strings.ToLower` on ASCII letters; other characters are left as they
are. -/
def ToLower (s : String) : String := ⟨s.data.map Char.toLower⟩

/-- Go `strings.HasSuffix`. -/
def HasSuffix (s suffix : String) : Bool := suffix.data.isSuffixOf s.data

/-- Go `strings.Split` for a separator of one character: the pieces between
the separators, one (empty) piece for the empty string. -/
def Split (s : String) (sep : Char) : List String :=
  (s.data.splitOn sep).map String.mk

/-- Go `strings.Join`. -/
def Join (elems : List String) (sep : String) : String :=
  ⟨sep.data.intercalate (elems.map String.data)⟩

/-- Go `strings.Contains`. -/
def Contains (s substr : String) : Bool := decide (substr.data <:+: s.data)

/-! ## Suffix filters -/

/-- The suffix block of `CopyAllObject` (object.go 537-548) and of
`MoveAllObject` (758-769): the value of `isSkipped` behind it. -/
def suffixSkipped (suffix key : String) : Bool :=
  if suffix ≠ "" then
    (Split suffix ',').any fun tmpSuffix =>
      tmpSuffix ≠ "" && HasSuffix (ToLower key) tmpSuffix
  else false

/-- The loop over `suffixList` in `WalkDir` (base.go 262-271); `allowed` is
the value of the variable when the pass begins. -/
def allowedLoop (fileName : String) : List String → Bool → Bool
  | [], allowed => allowed
  | tmpSuffix :: rest, allowed =>
    if tmpSuffix = "" then allowedLoop fileName rest allowed
    else if HasSuffix (ToLower fileName) tmpSuffix then true
    else allowedLoop fileName rest false

/-- The decision of `WalkDir` whether a file is put into the list
(base.go 259-275). -/
def walkAllowed (suffix fileName : String) : Bool :=
  if suffix ≠ "" then allowedLoop fileName (Split suffix ',') true else true

/-! ## Region of `CreateBucket` -/

/-- The region `strings.Split(c.host, ".")[1]` (bucket.go 67); `none` when the
index is out of range and the call panics. -/
def region (host : String) : Option String := (Split host '.')[1]?

/-- The body `CreateBucket` sends (bucket.go 68); `none` when the call has
panicked before. -/
def createBucketContent (host : String) : Option String :=
  (region host).map fun r =>
    "<CreateBucketConfiguration><LocationConstraint>" ++ r ++
      "</LocationConstraint></CreateBucketConfiguration>"

/-! ## Classification of the response status -/

/-- What `internal.CURL` hands back: a transport error, or the response with
its status code as a string. -/
inductive Curl
  | fail (e : String)
  | status (code : String)
deriving DecidableEq

/-- The v4 operations that issue one request. -/
inductive Op
  | Put | Copy | Head | InitUpload | UploadPart | CopyPart | CompleteUpload | ListObject
  | Cat | Delete | CancelPart | DeleteLifecycle
deriving DecidableEq

/-- Operations that test `status != "200"` and return the header
(`Put` object.go 78-87, `Head` 192-200, `UploadPart` multi.go 340-350). -/
def checked200 : Curl → Bool
  | .fail _ => false
  | .status code => code = "200"

/-- Operations that test `status != "200"` and then decode the body
(`Copy` object.go 132-145, `InitUpload` multi.go 306-320, `CopyPart` 390-404,
`CompleteUpload` 423-436, `ListObject` object.go 469-483); `xmlOk` tells
whether `xml.Unmarshal` succeeds. -/
def checked200Xml (curl : Curl) (xmlOk : Bool) : Bool :=
  match curl with
  | .fail _ => false
  | .status code => code = "200" && xmlOk

/-- `Cat` (object.go 329-337): `status != "200" && status != "206"` fails. -/
def checkedCat : Curl → Bool
  | .fail _ => false
  | .status code => ¬ (code ≠ "200" ∧ code ≠ "206")

/-- Operations that return the header whenever the transport succeeded, with
no test of the status (`Delete` object.go 171-175, `CancelPart`
multi.go 366-370, `DeleteLifecycle` bucket.go 410-414). -/
def unchecked : Curl → Bool
  | .fail _ => false
  | .status _ => true

/-- Whether the operation returns a success value (`err == nil`). -/
def Op.succeeds (op : Op) (curl : Curl) (xmlOk : Bool) : Bool :=
  match op with
  | .Put => checked200 curl
  | .Head => checked200 curl
  | .UploadPart => checked200 curl
  | .Copy => checked200Xml curl xmlOk
  | .InitUpload => checked200Xml curl xmlOk
  | .CopyPart => checked200Xml curl xmlOk
  | .CompleteUpload => checked200Xml curl xmlOk
  | .ListObject => checked200Xml curl xmlOk
  | .Cat => checkedCat curl
  | .Delete => unchecked curl
  | .CancelPart => unchecked curl
  | .DeleteLifecycle => unchecked curl

/-! ## `SetLifecycle` -/

/-- A rule of `LifecycleResult.Rules` with the fields `SetLifecycle` reads:
`ID`, `Filter.Prefix`, `Expiration.Days`. -/
structure LifecycleRule where
  ID : String
  FilterPrefix : String
  ExpirationDays : Int
deriving DecidableEq

/-- The text appended for one existing rule (bucket.go 354-359; v2
bucket.go 340-345). -/
def existingRule (v : LifecycleRule) : String :=
  "<Rule>" ++ ("<ID>" ++ v.ID ++ "</ID>") ++ "<Status>Enabled</Status>" ++
    ("<Filter><Prefix>" ++ v.FilterPrefix ++ "</Prefix></Filter>") ++
    ("<Expiration><Days>" ++ toString v.ExpirationDays ++ "</Days></Expiration>") ++ "</Rule>"

/-- The text appended for the new rule, without the closing tag of the
document (bucket.go 362-367; v2 bucket.go 348-353). -/
def newRule (uuid pfx expiration : String) : String :=
  "<Rule>" ++ ("<ID>" ++ uuid ++ "</ID>") ++ "<Status>Enabled</Status>" ++
    ("<Filter><Prefix>" ++ pfx ++ "</Prefix></Filter>") ++
    ("<Expiration><Days>" ++ expiration ++ "</Days></Expiration>") ++ "</Rule>"

/-- The document `SetLifecycle` builds (bucket.go 350-367; v2
bucket.go 336-353). `lifecycle` is the answer of `GetLifecycle`: `none` when
it returned an error, else the rules; `uuid` is the value of
`internal.UUID()`. -/
def lifecycleContent (lifecycle : Option (List LifecycleRule)) (uuid pfx expiration : String) :
    String :=
  let content := "<LifecycleConfiguration>"
  let content :=
    match lifecycle with
    | some rules => rules.foldl (fun content v => content ++ existingRule v) content
    | none => content
  content ++ newRule uuid pfx expiration ++ "</LifecycleConfiguration>"

/-! ## The v2 signature -/

namespace V2

/-- The order of `sort.Strings`: strings are compared byte by byte, which for
UTF-8 text is the comparison of the code points one by one. -/
def lexLe : List Char → List Char → Bool
  | [], _ => true
  | _ :: _, [] => false
  | a :: as, b :: bs =>
    if a.toNat < b.toNat then true
    else if b.toNat < a.toNat then false
    else lexLe as bs

/-- Go `sort.Strings`. -/
def sortStrings (l : List String) : List String :=
  l.insertionSort fun a b => lexLe a.data b.data = true

/-- The fields of the v2 `Client` struct read by `sign`. -/
structure Client where
  accessKeyID : String
  accessKeySecret : String
deriving DecidableEq

/-- The value `headers[key]` of the Go map `headers`, given by its entries. -/
def headerValue (headers : List (String × String)) (key : String) : String :=
  (headers.lookup key).getD ""

/-- The loop over the sorted `keyList` (base.go 20-26); `sign` is the string
built so far. -/
def signLoop (headers : List (String × String)) : List String → String → String
  | [], sign => sign
  | key :: rest, sign =>
    if Contains key "x-amz-" then
      signLoop headers rest (sign ++ (key ++ ":" ++ headerValue headers key ++ "\n"))
    else signLoop headers rest (sign ++ (headerValue headers key ++ "\n"))

/-- The string that is signed (base.go 13-33). -/
def stringToSign (method : String) (headers : List (String × String)) (bucket object : String) :
    String :=
  let sign := method ++ "\n"
  let keyList := sortStrings (headers.map Prod.fst)
  let sign := signLoop headers keyList sign
  let sign := sign ++ "/"
  let sign := if bucket ≠ "" then sign ++ bucket else sign
  if object ≠ "" then sign ++ ("/" ++ object) else sign

/-- The method `sign` of the v2 client (base.go 12-35). `hmacEncode sign key`
is HMAC-SHA1 of `sign` under `key` (base.go 37-41), `Base64Encode` the
standard base64 encoding; both are library functions taken as given. -/
def sign (hmacEncode : String → String → String) (Base64Encode : String → String) (c : Client)
    (method : String) (headers : List (String × String)) (bucket object : String) : String :=
  "AWS " ++ c.accessKeyID ++ ":" ++
    Base64Encode (hmacEncode (stringToSign method headers bucket object) c.accessKeySecret)

/-- The line a header contributes to the string that is signed. -/
def headerLine (headers : List (String × String)) (key : String) : String :=
  if Contains key "x-amz-" then key ++ ":" ++ headerValue headers key ++ "\n"
  else headerValue headers key ++ "\n"

/-- A header map with three entries. -/
def signedHeaders : List (String × String) :=
  [("x-amz-acl", "private"), ("Date", "d"), ("Content-Md5", "m")]

/-- The entries of `signedHeaders` in ascending order of their names. -/
def sortedHeaders : List (String × String) :=
  [("Content-Md5", "m"), ("Date", "d"), ("x-amz-acl", "private")]

end V2

/-! ## Operations on objects and directories -/

/-- The requests of the operations on objects and directories. -/
inductive Call
  | Head (bucket object : String)
  | CopyLargeFile (bucket object source : String)
  | Delete (bucket object : String)
  | Put (bucket object : String)
  | Cat (bucket object : String)
  /-- A list call with its `marker`. -/
  | ListObject (bucket marker : String)
  /-- A `POST ?delete` request with its body. -/
  | PostDelete (bucket body : String)
deriving DecidableEq

/-- The parsing of `source` shared by `Copy`, `CopyLargeFile`, `MoveLargeFile`,
`SyncLargeFile` and the directory operations (multi.go 131-133, 257-259;
object.go 102-104, 496-498; sync.go 20-22): `sourceBucket` is element 1 of
`strings.Split(source, "/")`, `sourceObject` the elements from 2 on joined
with "/". `none` when element 1 does not exist and the call panics. -/
def parseSource (source : String) : Option (String × String) :=
  let tmpSourceInfo := Split source '/'
  match tmpSourceInfo[1]? with
  | none => none
  | some sourceBucket => some (sourceBucket, Join (tmpSourceInfo.drop 2) "/")

/-- The answers `MoveLargeFile` gets: of the source HEAD, of `CopyLargeFile`,
and of the `Delete` request of pass `i`. -/
structure MoveEnv where
  Head : Resp
  CopyLargeFile : Resp
  Delete : Nat → Resp

/-- The function `MoveLargeFile` (multi.go 256-284): the value returned and
the requests issued; `none` when the call panics. -/
def MoveLargeFile (maxRetryNum : Nat) (env : MoveEnv) (bucket object source : String) :
    Option (Resp × List Call) :=
  match parseSource source with
  | none => none
  | some (sourceBucket, sourceObject) =>
    if bucket = sourceBucket ∧ object = sourceObject then
      some (.err "move soure-object and target-object same not allowed", [])
    else
      match env.Head with
      | .err hErr => some (.err hErr, [.Head sourceBucket sourceObject])
      | .ok _ =>
        match env.CopyLargeFile with
        | .err cErr =>
          some (.err cErr,
            [.Head sourceBucket sourceObject, .CopyLargeFile bucket object source])
        | .ok copied =>
          let out := deleteLoop maxRetryNum env.Delete
          let calls :=
            [Call.Head sourceBucket sourceObject, .CopyLargeFile bucket object source] ++
              out.requests.map fun _ => Call.Delete sourceBucket sourceObject
          match out.err with
          | some cErr => some (.err cErr, calls)
          | none => some (.ok copied, calls)

/-- An environment in which every request succeeds. -/
def moveAllSucceed : MoveEnv :=
  { Head := .ok "", CopyLargeFile := .ok "copied", Delete := fun _ => .ok "" }

/-! ## The skip policy of the directory operations -/

/-- The header fields of a HEAD answer that the directory operations read. -/
structure HeadInfo where
  /-- The header `Content-Length`. -/
  ContentLength : String
  /-- The value `time.Parse(c.dateTimeGMT, h.Get("Last-Modified")).Unix()`. -/
  LastModified : Int
  ContentDisposition : String
deriving DecidableEq

/-- The value `time.Time{}.Unix()` of the zero time, which `time.Parse` returns
for a header it cannot parse: the first second of the year 1. -/
def zeroTimeUnix : Int := -62135596800

/-- The size read from a HEAD answer, `strconv.ParseInt(h.Get("Content-Length"),
10, 64)` with the error dropped. `none` is a HEAD that failed: its error is
dropped too (`var sourceHead, _ = c.Head(...)`), the header is nil and every
field reads as "". -/
def headSize (head : Option HeadInfo) : Int :=
  match head with
  | none => Atoi ""
  | some h => Atoi h.ContentLength

/-- The time read from a HEAD answer; the zero time for a HEAD that failed. -/
def headTime (head : Option HeadInfo) : Int :=
  match head with
  | none => zeroTimeUnix
  | some h => h.LastModified

/-- The options the directory operations read. -/
structure DirOptions where
  replace : String
  suffix : String
  full_path : String
deriving DecidableEq

/-- The block `if options["replace"] != "true" { ... }` (object.go 559-569,
780-790, 394-404; sync.go 219-230): whether it finds the target up to date.
`sourceSize` and `sourceTime` are the size and the time of the source as the
caller has read them. -/
def replaceSkipped (replace : String) (sourceSize sourceTime : Int)
    (objectHead : Option HeadInfo) : Bool :=
  if replace ≠ "true" then
    if sourceSize = headSize objectHead then
      if headTime objectHead ≥ sourceTime then true else false
    else false
  else false

/-- The answers one entry of `CopyAllObject` or `MoveAllObject` gets: of the
HEAD on the source key and on the target key (`none` when the request
failed), of `CopyLargeFile`, and of the `Delete` request of pass `i`. -/
structure EntryEnv where
  sourceHead : Option HeadInfo
  objectHead : Option HeadInfo
  CopyLargeFile : Resp
  Delete : Nat → Resp

/-- What the worker of one entry has done. -/
structure EntryOut where
  calls : List Call
  /-- What it has added to `tmpSkip`. -/
  skip : Nat
  /-- What it has added to `tmpFinish`. -/
  finish : Nat
  /-- The error it has stored in `fileErr`, if any. -/
  fileErr : Option String
deriving DecidableEq

/-- The requests of an entry in front of its mutation: the HEAD on the source
key and, unless `replace` is "true", the HEAD on the target key. -/
def entryHeads (options : DirOptions) (bucket object sourceBucket key : String) : List Call :=
  if options.replace ≠ "true" then [.Head sourceBucket key, .Head bucket object]
  else [.Head sourceBucket key]

/-- The value of `isSkipped` in front of `if isSkipped` (object.go 537-569,
758-790): set by the suffix block or by the replace block. -/
def entrySkipped (options : DirOptions) (env : EntryEnv) (key : String) : Bool :=
  suffixSkipped options.suffix key ||
    replaceSkipped options.replace (headSize env.sourceHead) (headTime env.sourceHead)
      env.objectHead

/-- The worker of one listed entry in `CopyAllObject` (object.go 528-584). -/
def copyEntry (options : DirOptions) (env : EntryEnv)
    (bucket pfx sourceBucket sourcePrefix key : String) : EntryOut :=
  let object := targetObject pfx sourcePrefix key options.full_path
  let calls := entryHeads options bucket object sourceBucket key
  if entrySkipped options env key then { calls := calls, skip := 1, finish := 0, fileErr := none }
  else
    let tmpSourceObject := "/" ++ sourceBucket ++ "/" ++ key
    match env.CopyLargeFile with
    | .err e =>
      { calls := calls ++ [.CopyLargeFile bucket object tmpSourceObject], skip := 0, finish := 0,
        fileErr := some e }
    | .ok _ =>
      { calls := calls ++ [.CopyLargeFile bucket object tmpSourceObject], skip := 0, finish := 1,
        fileErr := none }

/-- The worker of one listed entry in `MoveAllObject` (object.go 749-816). -/
def moveEntry (maxRetryNum : Nat) (options : DirOptions) (env : EntryEnv)
    (bucket pfx sourceBucket sourcePrefix key : String) : EntryOut :=
  let object := targetObject pfx sourcePrefix key options.full_path
  let calls := entryHeads options bucket object sourceBucket key
  if entrySkipped options env key then { calls := calls, skip := 1, finish := 0, fileErr := none }
  else
    let tmpSourceObject := "/" ++ sourceBucket ++ "/" ++ key
    match env.CopyLargeFile with
    | .err e =>
      { calls := calls ++ [.CopyLargeFile bucket object tmpSourceObject], skip := 0, finish := 0,
        fileErr := some e }
    | .ok _ =>
      let out := deleteLoop maxRetryNum env.Delete
      let calls :=
        calls ++ [.CopyLargeFile bucket object tmpSourceObject] ++
          out.requests.map fun _ => Call.Delete sourceBucket key
      match out.err with
      | some e => { calls := calls, skip := 0, finish := 0, fileErr := some e }
      | none => { calls := calls, skip := 0, finish := 1, fileErr := none }

/-- The answers one file of `UploadFromDir` gets: of the HEAD on the target
key, and of the `Put` request of pass `i`; `Open i` is the error of `os.Open`
in pass `i`, if it fails. -/
structure UploadEnv where
  objectHead : Option HeadInfo
  Open : Nat → Option String
  Put : Nat → Resp

/-- The worker of one file in `UploadFromDir` (object.go 377-429) behind the
`os.Stat` of the local file, which gave `localFileSize` and `localFileTime`
(as Unix seconds). -/
def uploadEntry (maxRetryNum : Nat) (replace : String) (env : UploadEnv)
    (bucket pfx fileName : String) (localFileSize localFileTime : Int) : EntryOut :=
  let object := pfx ++ fileName
  let calls := if replace ≠ "true" then [Call.Head bucket object] else []
  if replaceSkipped replace localFileSize localFileTime env.objectHead then
    { calls := calls, skip := 1, finish := 0, fileErr := none }
  else
    let out := putLoop maxRetryNum env.Open env.Put none
    let calls := calls ++ out.requests.map fun _ => Call.Put bucket object
    match out.err with
    | some e => { calls := calls, skip := 0, finish := 0, fileErr := some e }
    | none => { calls := calls, skip := 0, finish := 1, fileErr := none }

/-- Whether a request changes an object: copy, put or delete. -/
def Call.isMutation : Call → Bool
  | .CopyLargeFile _ _ _ => true
  | .Put _ _ => true
  | .Delete _ _ => true
  | _ => false

/-- An environment of an entry whose source HEAD and target HEAD both fail. -/
def headsFail : EntryEnv :=
  { sourceHead := none, objectHead := none, CopyLargeFile := .ok "copied",
    Delete := fun _ => .ok "" }

/-- An environment of an entry whose source has 10 bytes and whose target
does not exist. -/
def targetMissing : EntryEnv :=
  { sourceHead :=
      some { ContentLength := "10", LastModified := 1700000000, ContentDisposition := "" }
    objectHead := none, CopyLargeFile := .ok "copied", Delete := fun _ => .ok "" }

/-! ## `DeleteAllObject`

The listing is a function of the answers of the list calls. The coordinator
and the workers of the delete requests are threads, and a schedule tells
which of them takes the next step. -/

namespace DeleteAll

/-- One page of a listing: the keys of `Contents` and the field
`IsTruncated`. -/
structure ListPage where
  Contents : List String
  IsTruncated : String
deriving DecidableEq

/-- Answer of a list call: an error, or a page. -/
inductive ListAnswer
  | err (e : String)
  | page (p : ListPage)
deriving DecidableEq

/-- The body built for one page (object.go 620-626). -/
def content (keys : List String) : String :=
  keys.foldl (fun content key => content ++ ("<Object><Key>" ++ key ++ "</Key></Object>"))
      ("<Delete>" ++ "<Quiet>true</Quiet>") ++
    "</Delete>"

/-- The variables of the listing loop. -/
structure Listing where
  contents : List String
  counts : List Nat
  marker : String
  total : Nat
  calls : List Call
deriving DecidableEq

/-- How the listing loop ends. -/
inductive Listed
  /-- A list call returned an error. -/
  | failed (e : String) (calls : List Call)
  /-- The early return of `total <= 0`. -/
  | nothing (calls : List Call)
  /-- The last page was not truncated. -/
  | done (l : Listing)
  /-- The environment has no further answer for a list call. -/
  | noAnswer
deriving DecidableEq

/-- The loop `LIST: ... goto LIST` (object.go 611-631) over the answers of the
list calls, in the order of the calls. -/
def listLoop (bucket : String) : List ListAnswer → Listing → Listed
  | [], _ => .noAnswer
  | answer :: rest, l =>
    let calls := l.calls ++ [.ListObject bucket l.marker]
    match answer with
    | .err e => .failed e calls
    | .page p =>
      let total := l.total + p.Contents.length
      if total ≤ 0 then .nothing calls
      else
        let l1 : Listing :=
          { contents := l.contents ++ [content p.Contents]
            counts := l.counts ++ [p.Contents.length]
            marker := p.Contents.foldl (fun _ key => key) l.marker
            total := total
            calls := calls }
        if p.IsTruncated = "true" then listLoop bucket rest l1 else .done l1

/-- Answer of a delete request: the error of `internal.CURL`, or the response
with the header fields `StatusCode` and `X-Amz-Request-Id` and the fields
`Code` and `Message` that `xml.Unmarshal` finds in its body (empty when the
body is no error document). -/
inductive PostAnswer
  | fail (cErr : String)
  | response (status reqID Code Message : String)
deriving DecidableEq

/-- Whether the request succeeded: a response with status "200". -/
def PostAnswer.succeeded : PostAnswer → Bool
  | .fail _ => false
  | .response status _ _ _ => status = "200"

/-- What the loop of the delete requests is run with (object.go 640-648). -/
structure Pipeline where
  bucket : String
  /-- The argument `prefix`. -/
  pfx : String
  contents : List String
  counts : List Nat
  total : Nat
  /-- Capacity of `queueMaxSize`. -/
  threadNum : Nat

/-- The pipeline behind the listing `l` (object.go 633-648): `threadNum` is
the option or the client's maximum, and at most the number of batches; `none`
when `make(chan bool, threadNum)` panics on a negative size. -/
def pipeline (c : Client) (bucket pfx thread_num : String) (l : Listing) : Option Pipeline :=
  let threadNum := threadNumOption c thread_num
  let contentCount : Int := l.contents.length
  let threadNum := if contentCount < threadNum then contentCount else threadNum
  if threadNum < 0 then none
  else
    some { bucket := bucket, pfx := pfx, contents := l.contents, counts := l.counts,
           total := l.total, threadNum := threadNum.toNat }

/-- Where the coordinator stands. -/
inductive CoordPc
  /-- At the loop head (object.go 649-653): the tests `fileNum < contentCount`
  and `fileExit`, then `wg.Add(1)`. -/
  | head
  /-- At `queueMaxSize <- true` (654), followed by the `go` statement. -/
  | acquire
  /-- At `wg.Wait()` (696), followed by the test of `fileErr`. -/
  | wait
  /-- The function has returned. -/
  | returned
deriving DecidableEq

/-- Where the worker of one batch stands. -/
inductive WorkerPc
  /-- No goroutine was started for the batch. -/
  | notStarted
  /-- In the body of the goroutine (object.go 663-693), in front of the
  request. -/
  | body
  /-- In the deferred function, at its test of `fileErr` (657-659). -/
  | deferred
  /-- At `wg.Done()` (660). -/
  | wgDone
  /-- At `<-queueMaxSize` (661). -/
  | release
  /-- The goroutine has ended. -/
  | finished
deriving DecidableEq

/-- A `POST ?delete` request as the worker of the batch `fileNum` issued it,
with its answer. -/
structure Post where
  fileNum : Nat
  body : String
  answer : PostAnswer
deriving DecidableEq

/-- The value returned by `DeleteAllObject`: an error, or the entries of the
map. -/
inductive Result
  | error (e : String)
  | ok (entries : List (String × Nat))
deriving DecidableEq

/-- The shared variables, the threads' positions and the requests issued. -/
structure State where
  coord : CoordPc
  /-- Loop variable of the coordinator. -/
  fileNum : Nat
  fileErr : Option String
  fileExit : Bool
  tmpFinish : Nat
  /-- Number of values held by the channel `queueMaxSize`. -/
  queue : Nat
  /-- Counter of the wait group. -/
  wg : Nat
  /-- Position of the worker of each batch. -/
  workers : Nat → WorkerPc
  /-- The delete requests, in the order in which they were issued. -/
  posted : List Post
  /-- What the function returned, once it has. -/
  result : Option Result

/-- Who moves next; `answer` is the answer to the delete request in case the
step of the worker issues it. -/
inductive Action
  | coord
  | worker (fileNum : Nat) (answer : PostAnswer)
deriving DecidableEq

/-- State in front of the loop (object.go 644-648). -/
def init : State :=
  { coord := .head, fileNum := 0, fileErr := none, fileExit := false, tmpFinish := 0,
    queue := 0, wg := 0, workers := fun _ => .notStarted, posted := [], result := none }

/-- One step of the coordinator. -/
def coordStep (cfg : Pipeline) (s : State) : Option State :=
  match s.coord with
  | .head =>
    if s.fileNum < cfg.contents.length then
      if s.fileExit then some { s with coord := .wait }
      else some { s with coord := .acquire, wg := s.wg + 1 }
    else some { s with coord := .wait }
  | .acquire =>
    if s.queue < cfg.threadNum then
      some { s with
        coord := .head
        queue := s.queue + 1
        workers := Function.update s.workers s.fileNum .body
        fileNum := s.fileNum + 1 }
    else none
  | .wait =>
    if s.wg = 0 then
      match s.fileErr with
      | some e => some { s with coord := .returned, result := some (.error e) }
      | none =>
        some { s with
          coord := .returned
          result := some (.ok [("Total", cfg.total), ("Finish", s.tmpFinish)]) }
    else none
  | .returned => none

/-- The error a worker stores in `fileErr` for the answer of its request
(object.go 678-689), nil when the request succeeded. -/
def postError (pfx : String) : PostAnswer → Option String
  | .fail cErr => some (" DeleteAllObject Prefix: " ++ pfx ++ " Error: " ++ cErr)
  | .response status reqID Code Message =>
    if status ≠ "200" then
      some (" DeleteAllObject Prefix: " ++ pfx ++ " StatusCode: " ++ status ++
        " X-Amz-Request-Id: " ++ reqID ++ " Code: " ++ Code ++ " Message: " ++ Message)
    else none

/-- One step of the worker of the batch `k`. The body of the goroutine is one
step: the request, and the assignment of `fileErr` or the addition to
`tmpFinish` that follows its answer. `percentChan` is nil, or read by the
caller. -/
def workerStep (cfg : Pipeline) (s : State) (k : Nat) (answer : PostAnswer) : Option State :=
  match s.workers k with
  | .notStarted => none
  | .body =>
    match postError cfg.pfx answer with
    | some e =>
      some { s with
        fileErr := some e
        workers := Function.update s.workers k .deferred
        posted := s.posted ++
          [{ fileNum := k, body := cfg.contents.getD k "", answer := answer }] }
    | none =>
      some { s with
        tmpFinish := s.tmpFinish + cfg.counts.getD k 0
        workers := Function.update s.workers k .deferred
        posted := s.posted ++
          [{ fileNum := k, body := cfg.contents.getD k "", answer := answer }] }
  | .deferred =>
    some { s with
      fileExit := if s.fileErr.isSome then true else s.fileExit
      workers := Function.update s.workers k .wgDone }
  | .wgDone => some { s with wg := s.wg - 1, workers := Function.update s.workers k .release }
  | .release =>
    some { s with queue := s.queue - 1, workers := Function.update s.workers k .finished }
  | .finished => none

/-- The step of a thread; `none` when the thread cannot move. -/
def step (cfg : Pipeline) (s : State) : Action → Option State
  | .coord => coordStep cfg s
  | .worker k answer => workerStep cfg s k answer

/-- A run: the steps of a schedule, one after the other. -/
def exec (cfg : Pipeline) : State → List Action → Option State
  | s, [] => some s
  | s, a :: rest =>
    match step cfg s a with
    | none => none
    | some s1 => exec cfg s1 rest

/-- The steps of the pipeline, one constructor per branch of `step`. -/
inductive Step (cfg : Pipeline) : State → State → Prop
  | headExit (s : State) (hc : s.coord = .head) (hn : s.fileNum < cfg.contents.length)
      (hx : s.fileExit = true) :
    Step cfg s { s with coord := .wait }
  | headAdd (s : State) (hc : s.coord = .head) (hn : s.fileNum < cfg.contents.length)
      (hx : s.fileExit = false) :
    Step cfg s { s with coord := .acquire, wg := s.wg + 1 }
  | headEnd (s : State) (hc : s.coord = .head) (hn : ¬ s.fileNum < cfg.contents.length) :
    Step cfg s { s with coord := .wait }
  | start (s : State) (hc : s.coord = .acquire) (hq : s.queue < cfg.threadNum) :
    Step cfg s { s with
      coord := .head
      queue := s.queue + 1
      workers := Function.update s.workers s.fileNum .body
      fileNum := s.fileNum + 1 }
  | joinErr (s : State) (e : String) (hc : s.coord = .wait) (hw : s.wg = 0)
      (he : s.fileErr = some e) :
    Step cfg s { s with coord := .returned, result := some (.error e) }
  | joinOk (s : State) (hc : s.coord = .wait) (hw : s.wg = 0) (he : s.fileErr = none) :
    Step cfg s { s with
      coord := .returned
      result := some (.ok [("Total", cfg.total), ("Finish", s.tmpFinish)]) }
  | postFail (s : State) (k : Nat) (answer : PostAnswer) (e : String)
      (hp : s.workers k = .body) (ha : answer.succeeded = false) :
    Step cfg s { s with
      fileErr := some e
      workers := Function.update s.workers k .deferred
      posted := s.posted ++
        [{ fileNum := k, body := cfg.contents.getD k "", answer := answer }] }
  | postOk (s : State) (k : Nat) (answer : PostAnswer)
      (hp : s.workers k = .body) (ha : answer.succeeded = true) :
    Step cfg s { s with
      tmpFinish := s.tmpFinish + cfg.counts.getD k 0
      workers := Function.update s.workers k .deferred
      posted := s.posted ++
        [{ fileNum := k, body := cfg.contents.getD k "", answer := answer }] }
  | deferred (s : State) (k : Nat) (hp : s.workers k = .deferred) :
    Step cfg s { s with
      fileExit := if s.fileErr.isSome then true else s.fileExit
      workers := Function.update s.workers k .wgDone }
  | wgDone (s : State) (k : Nat) (hp : s.workers k = .wgDone) :
    Step cfg s { s with wg := s.wg - 1, workers := Function.update s.workers k .release }
  | release (s : State) (k : Nat) (hp : s.workers k = .release) :
    Step cfg s { s with
      queue := s.queue - 1, workers := Function.update s.workers k .finished }

/-- Sum, over the workers of the batches below `n`, of a weight of the
position of each. -/
def sumOver (f : Nat → WorkerPc → Nat) (workers : Nat → WorkerPc) (n : Nat) : Nat :=
  ((List.range n).map fun i => f i (workers i)).sum

/-- The worker is between its start and its `wg.Done()`. -/
def WorkerPc.active : WorkerPc → Bool
  | .body => true
  | .deferred => true
  | .wgDone => true
  | _ => false

/-- The worker holds a place of `queueMaxSize`. -/
def WorkerPc.holds : WorkerPc → Bool
  | .body => true
  | .deferred => true
  | .wgDone => true
  | .release => true
  | _ => false

/-- The worker has issued its request. -/
def WorkerPc.pastBody : WorkerPc → Bool
  | .deferred => true
  | .wgDone => true
  | .release => true
  | .finished => true
  | _ => false

/-- Number of steps the worker has before it, counted from its start. -/
def WorkerPc.left : WorkerPc → Nat
  | .notStarted => 4
  | .body => 4
  | .deferred => 3
  | .wgDone => 2
  | .release => 1
  | .finished => 0

/-- Number of steps the coordinator has before it at most. -/
def coordLeft (cfg : Pipeline) (s : State) : Nat :=
  match s.coord with
  | .head => 2 * (cfg.contents.length - s.fileNum) + 2
  | .acquire => 2 * (cfg.contents.length - s.fileNum) + 1
  | .wait => 1
  | .returned => 0

/-- Number of steps a run has before it at most. -/
def stepsLeft (cfg : Pipeline) (s : State) : Nat :=
  coordLeft cfg s + sumOver (fun _ pc => pc.left) s.workers cfg.contents.length

/-- How a call of `DeleteAllObject` stands at the end of a schedule. -/
structure Return where
  /-- The value returned; `none` when the call has not returned. -/
  result : Option Result
  /-- The list calls. -/
  calls : List Call
  /-- The delete requests, in the order in which they were issued. -/
  posted : List Post
deriving DecidableEq

/-- The function `DeleteAllObject` (object.go 601-702); `lists` are the
answers of the list calls in the order of the calls, `acts` is the schedule of
the coordinator and the workers of the delete requests. `none` when the
environment has no further answer for a list call, when the call panics, or
when the schedule cannot be run. -/
def DeleteAllObject (c : Client) (bucket pfx thread_num : String) (lists : List ListAnswer)
    (acts : List Action) : Option Return :=
  match listLoop bucket lists
      { contents := [], counts := [], marker := "", total := 0, calls := [] } with
  | .noAnswer => none
  | .failed e calls => some { result := some (.error e), calls := calls, posted := [] }
  | .nothing calls =>
    some { result := some (.ok [("total", 0), ("finish", 0)]), calls := calls, posted := [] }
  | .done l =>
    match pipeline c bucket pfx thread_num l with
    | none => none
    | some cfg =>
      (exec cfg init acts).map fun s =>
        { result := s.result, calls := l.calls, posted := s.posted }

/-- A listing of the three keys under "logs/" in three pages. -/
def threePages : List ListAnswer :=
  [.page { Contents := ["logs/a"], IsTruncated := "true" },
    .page { Contents := ["logs/b"], IsTruncated := "true" },
    .page { Contents := ["logs/c"], IsTruncated := "false" }]

/-- A successful answer. -/
def ok200 : PostAnswer := .response "200" "req" "" ""

/-- The steps of the worker of the batch `k` behind its request: the deferred
function, `wg.Done()`, the release of its place. -/
def finishWorker (k : Nat) : List Action :=
  [.worker k ok200, .worker k ok200, .worker k ok200]

/-- A schedule for three batches and `thread_num = 1`. The coordinator starts
the worker of batch 0, passes the loop head for batch 1 and waits for the
place in `queueMaxSize`; the request of batch 0 is answered with status 500
and its worker ends; the coordinator, having the place, starts the worker of
batch 1, finds `fileExit` set at the loop head and waits for the workers; the
request of batch 1 succeeds; the call returns. -/
def firstFails : List Action :=
  [.coord, .coord, .coord,
    .worker 0 (.response "500" "req-1" "InternalError" "We encountered an internal error.")] ++
  finishWorker 0 ++ [.coord, .coord, .worker 1 ok200] ++ finishWorker 1 ++ [.coord]

/-- The schedule in which the batches `fileNum`, ..., `fileNum + n - 1` are
posted one after the other, every request succeeding, and the call returns. -/
def serial : Nat → Nat → List Action
  | 0, _ => [.coord, .coord]
  | n + 1, fileNum =>
    [.coord, .coord, .worker fileNum ok200] ++ finishWorker fileNum ++ serial n (fileNum + 1)

/-- The body of the claim for the keys of one page. -/
def specBody (keys : List String) : String :=
  "<Delete><Quiet>true</Quiet>" ++
    String.join (keys.map fun key => "<Object><Key>" ++ key ++ "</Key></Object>") ++ "</Delete>"

/-- The list calls for the pages: the first with the empty marker, every
further one with the last key of the page before. -/
def listCalls (bucket : String) : String → List ListPage → List Call
  | _, [] => []
  | marker, p :: rest =>
    .ListObject bucket marker :: listCalls bucket (p.Contents.getLastD marker) rest

/-- The keys `k<a>`, ..., `k<a+n-1>`. -/
def keysFrom (a n : Nat) : List String :=
  (List.range n).map fun i => "k" ++ toString (a + i)

/-- The first two pages of a listing of 2500 keys with page size 1000. -/
def fullPages : List ListPage :=
  [{ Contents := keysFrom 0 1000, IsTruncated := "true" },
    { Contents := keysFrom 1000 1000, IsTruncated := "true" }]

/-- The last page of a listing of 2500 keys with page size 1000. -/
def lastPage : ListPage :=
  { Contents := keysFrom 2000 500, IsTruncated := "false" }

/-- The deletion of the listing of 2500 keys with the default client, in the
schedule in which the batches are posted one after the other and every
request succeeds. -/
def deleteAllKeys : Option Return :=
  DeleteAllObject defaultClient "b" "" "" ((fullPages ++ [lastPage]).map .page) (serial 3 0)

end DeleteAll

/-! ## The part size of `Get` -/

/-- The `part_size` block of `Get` (object.go 214-220): the default is
`partMinSize`. -/
def getPartSizeOption (c : Client) (part_size : String) : Int :=
  if part_size ≠ "" then
    let n := Atoi part_size
    if n ≤ c.partMaxSize ∧ n ≥ c.partMinSize then n else c.partMinSize
  else c.partMinSize

/-! ## `UUID` -/

/-- One lowercase hexadecimal digit, as printed by the verb `%x`. -/
def hexDigit (n : Nat) : Char :=
  if n < 10 then Char.ofNat (48 + n) else Char.ofNat (87 + n)

/-- The two digits the verb `%x` prints for one byte. -/
def hexByte (b : Nat) : List Char := [hexDigit (b / 16), hexDigit (b % 16)]

/-- The verb `%x` on a byte slice: two lowercase hexadecimal digits per
byte. -/
def hexBytes (bytes : List Nat) : String := ⟨bytes.flatMap hexByte⟩

/-- Go `x &^ y` on bytes: the bits of `y` cleared in `x`. -/
def bitClear (x y : Nat) : Nat := x &&& (255 ^^^ y)

/-- The function `UUID` (base.go 282-295). `read` is what `io.ReadFull` has
read into `uuid`: the 16 bytes, or `none` when fewer bytes were read or an
error was returned. -/
def UUID (read : Option (List Nat)) : String :=
  match read with
  | none => ""
  | some uuid =>
    let uuid := uuid.set 8 (bitClear (uuid.getD 8 0) 0xc0 ||| 0x80)
    let uuid := uuid.set 6 (bitClear (uuid.getD 6 0) 0xf0 ||| 0x40)
    hexBytes (uuid.take 4) ++ "-" ++ hexBytes ((uuid.drop 4).take 2) ++ "-" ++
      hexBytes ((uuid.drop 6).take 2) ++ "-" ++ hexBytes ((uuid.drop 8).take 2) ++ "-" ++
      hexBytes (uuid.drop 10)

/-- Whether a character is a lowercase hexadecimal digit. -/
def isLowerHex (c : Char) : Bool :=
  (48 ≤ c.toNat && c.toNat ≤ 57) || (97 ≤ c.toNat && c.toNat ≤ 102)

/-- Sixteen bytes: 12 34 56 78 9a bc de f0, twice. -/
def sampleBytes : List Nat :=
  [0x12, 0x34, 0x56, 0x78, 0x9a, 0xbc, 0xde, 0xf0, 0x12, 0x34, 0x56, 0x78, 0x9a, 0xbc, 0xde, 0xf0]

/-! ## The strings signed by the v2 bucket operations -/

namespace V2

/-- The map `headers` of an operation that takes the option `acl`
(bucket.go 64-69, 280-285): `Date`, and `x-amz-acl` when the option is not
empty. -/
def aclHeaders (acl date : String) : List (String × String) :=
  if acl ≠ "" then [("Date", date), ("x-amz-acl", acl)] else [("Date", date)]

/-- The string signed by `GetService` (bucket.go 32-39). -/
def getServiceSign (date : String) : String :=
  stringToSign ("GET" ++ "\n" ++ "\n") [("Date", date)] "" ""

/-- The string signed by `CreateBucket` (bucket.go 61-71). -/
def createBucketSign (bucket acl date : String) : String :=
  stringToSign ("PUT" ++ "\n" ++ "\n") (aclHeaders acl date) (bucket ++ "/") ""

/-- The string signed by `DeleteBucket` (bucket.go 89-96). -/
def deleteBucketSign (bucket date : String) : String :=
  stringToSign ("DELETE" ++ "\n" ++ "\n") [("Date", date)] (bucket ++ "/") ""

/-- The string signed by `ListPart` (bucket.go 127-135). -/
def listPartSign (bucket date : String) : String :=
  stringToSign ("GET" ++ "\n" ++ "\n") [("Date", date)] (bucket ++ "/?uploads") ""

/-- The string signed by `GetACL` (bucket.go 247-255). -/
def getACLSign (bucket date : String) : String :=
  stringToSign ("GET" ++ "\n" ++ "\n") [("Date", date)] (bucket ++ "/" ++ "?acl") ""

/-- The string signed by `SetACL` (bucket.go 277-288). -/
def setACLSign (bucket acl date : String) : String :=
  stringToSign ("PUT" ++ "\n" ++ "\n") (aclHeaders acl date) (bucket ++ "/" ++ "?acl") ""

/-- The string signed by `GetLifecycle` (bucket.go 306-314). -/
def getLifecycleSign (bucket date : String) : String :=
  stringToSign ("GET" ++ "\n" ++ "\n") [("Date", date)] (bucket ++ "/" ++ "?lifecycle") ""

/-- The string signed by `SetLifecycle` (bucket.go 354-367); `contentMd5` is
`internal.Base64Encode(internal.Md5Byte([]byte(content)))`. -/
def setLifecycleSign (bucket contentMd5 date : String) : String :=
  stringToSign "PUT" [("Content-Md5", contentMd5 ++ "\n"), ("Date", date)] bucket "?lifecycle"

/-- The string signed by `DeleteLifecycle` (bucket.go 385-393). -/
def deleteLifecycleSign (bucket date : String) : String :=
  stringToSign ("DELETE" ++ "\n" ++ "\n") [("Date", date)] (bucket ++ "/" ++ "?lifecycle") ""

end V2

/-! ## `GetDisposition` -/

/-- The group `(.*)` of the pattern `filename="(.*)"` for a match that starts
right in front of `rest`: `.` matches every character but the line feed and
`*` is greedy, so the group runs to the last `"` of the line; `none` when the
line has no `"`. -/
def quotedGroup (rest : List Char) : Option (List Char) :=
  match (rest.takeWhile fun c => c != '\n').reverse.dropWhile fun c => c != '"' with
  | [] => none
  | _ :: group => some group.reverse

/-- Go `regexp.MustCompile(pattern).FindStringSubmatch` for the pattern
`filename="(.*)"`: the group of the leftmost match, `none` when there is no
match. -/
def findSubmatch : List Char → Option (List Char)
  | [] => none
  | c :: cs =>
    if "filename=\"".data.isPrefixOf (c :: cs) then
      match quotedGroup ((c :: cs).drop 10) with
      | some group => some group
      | none => findSubmatch cs
    else findSubmatch cs

/-- The function `GetDisposition` (base.go 298-304). -/
def GetDisposition (disposition : String) : String :=
  match findSubmatch disposition.data with
  | some group => ⟨group⟩
  | none => disposition

/-- The header value `fmt.Sprintf("attachment; filename=\"%s\"", name)` that
`Put` (object.go 73-75) and `InitUpload` send. -/
def dispositionHeader (name : String) : String :=
  "attachment; filename=\"" ++ name ++ "\""

/-! ## The key a copy is written to -/

/-- One element of the path in Go `path.Clean`; `stack` holds the elements
kept so far, the last one first. Empty elements and "." are dropped; ".."
removes the element before it, is dropped at the root and is kept where
nothing is left to remove. -/
def cleanStep (rooted : Bool) (stack : List String) (elem : String) : List String :=
  if elem = "" ∨ elem = "." then stack
  else if elem = ".." then
    match stack with
    | [] => if rooted then [] else [".."]
    | top :: rest => if top = ".." then ".." :: top :: rest else rest
  else elem :: stack

/-- Go `path.Clean`: the shortest path equal to `path`. -/
def Clean (path : String) : String :=
  if path = "" then "."
  else
    let rooted := path.data.head? = some '/'
    let stack := (Split path '/').foldl (cleanStep rooted) []
    let out := (if rooted then "/" else "") ++ Join stack.reverse "/"
    if out = "" then "." else out

/-- Go `path.Dir`: `path.Clean` of the path up to and with its last "/". -/
def Dir (path : String) : String :=
  Clean ⟨(path.data.reverse.dropWhile fun c => c != '/').reverse⟩

/-- The key `CopyLargeFile` writes to (multi.go 153-158): an empty `object`
is the base name of the source, and an `object` that names a directory gets
the base name of the source appended. -/
def copyTargetObject (object sourceObject : String) : String :=
  let object := if object = "" then Base sourceObject else object
  if TrimSuffix object "/" = Dir object then Dir object ++ "/" ++ Base sourceObject
  else object

/-- The guard of `MoveAllObject` (object.go 706-714): whether the call is
refused because source and target are the same; `none` when the parse of
`source` panics. -/
def moveAllRefused (bucket pfx source : String) : Option Bool :=
  match parseSource source with
  | none => none
  | some (sourceBucket, sourcePrefix) =>
    some (decide (bucket = sourceBucket ∧ normalizePrefix pfx = sourcePrefix))

/-- An environment of an entry of 10 bytes whose target has the same size and
time, and whose copy and delete succeed. -/
def sameObject : EntryEnv :=
  { sourceHead :=
      some { ContentLength := "10", LastModified := 1700000000, ContentDisposition := "" }
    objectHead :=
      some { ContentLength := "10", LastModified := 1700000000, ContentDisposition := "" }
    CopyLargeFile := .ok "copied", Delete := fun _ => .ok "" }

/-! ## The spool file of a part

The temp file of a worker of `Get` and of `SyncLargeFile` as a sequence of
bytes. -/

namespace Spool

/-- What one `Cat` request does: `written` are the bytes of the response body
that `io.Copy(dsc, resp.Body)` has written into the spool (base.go 104-112;
the body is copied whatever the status is), `outcome` is the error of `CURL`
or the status of the response. -/
structure CatAnswer where
  written : List Nat
  outcome : Curl
deriving DecidableEq

/-- A write of `body` at the start of the file, as done behind
`tFile.Seek(0, io.SeekStart)`: the bytes behind the written ones stay. -/
def writeAtStart (file body : List Nat) : List Nat := body ++ file.drop body.length

/-- The error `Cat` returns for an answer (object.go 329-337), if any. -/
def catErr (a : CatAnswer) : Option String :=
  match a.outcome with
  | .fail e => some e
  | .status code => if code ≠ "200" ∧ code ≠ "206" then some ("StatusCode: " ++ code) else none

/-- The `Cat` loop of a worker (object.go 277-291, sync.go 99-112) on the
spool and the shared error variable; `seek i` is the error of `tFile.Seek` in
pass `i`, if it fails. -/
def catPasses (seek : Nat → Option String) (cat : Nat → CatAnswer) :
    Nat → Nat → List Nat × Option String → List Nat × Option String
  | 0, _, st => st
  | fuel + 1, i, (spool, _) =>
    match seek i with
    | some sErr => catPasses seek cat fuel (i + 1) (spool, some sErr)
    | none =>
      let spool := writeAtStart spool (cat i).written
      match catErr (cat i) with
      | some cErr => catPasses seek cat fuel (i + 1) (spool, some cErr)
      | none => (spool, none)

/-- Go `File.WriteAt(body, off)` when it writes all of `body`: a file shorter
than `off` is filled with zero bytes up to `off`. -/
def writeAt (file : List Nat) (off : Nat) (body : List Nat) : List Nat :=
  file.take off ++ List.replicate (off - file.length) 0 ++ body ++ file.drop (off + body.length)

/-- The worker of a part in `Get` behind `os.CreateTemp` (object.go 270-298),
where the local steps of `FileIoCopyAt` succeed: the local file and the
error variable it leaves. `FileIoCopyAt` (base.go 193-206) reads the whole
spool and writes it at `tmpStart`. -/
def getPart (maxRetryNum : Nat) (seek : Nat → Option String) (cat : Nat → CatAnswer)
    (partErr : Option String) (file : List Nat) (tmpStart : Nat) : List Nat × Option String :=
  let st := catPasses seek cat maxRetryNum 0 ([], partErr)
  if st.2.isSome then (file, st.2) else (writeAt file tmpStart st.1, st.2)

/-- The worker of a part in `SyncLargeFile` behind `os.CreateTemp`
(sync.go 99-123) up to its first `UploadPart` request, where `tFile.Stat`
and `os.Open` succeed: the bytes of the re-opened spool and the size
`int(stat.Size())` the request is made with; `none` when the `Cat` loop left
an error. -/
def syncPart (maxRetryNum : Nat) (seek : Nat → Option String) (cat : Nat → CatAnswer)
    (partErr : Option String) : Option (List Nat × Nat) :=
  let st := catPasses seek cat maxRetryNum 0 ([], partErr)
  if st.2.isSome then none else some (st.1, st.1.length)

/-- A part of three bytes whose first request is answered with status 503 and
an error document of eight bytes, and whose second request succeeds. -/
def longError : Nat → CatAnswer := fun i =>
  if i = 0 then { written := [60, 69, 114, 114, 111, 114, 47, 62], outcome := .status "503" }
  else { written := [1, 2, 3], outcome := .status "206" }

/-- A part of three bytes whose first request breaks off after one byte of
the body, and whose second request succeeds. -/
def shortError : Nat → CatAnswer := fun i =>
  if i = 0 then { written := [1], outcome := .fail "unexpected EOF" }
  else { written := [1, 2, 3], outcome := .status "206" }

end Spool

/-! ## The pipeline of `CopyAllObject`

The coordinator and the workers of `CopyAllObject` for a listing of one page
(`IsTruncated` is not "true"), as threads that take turns. The body of a
worker is one step: its only write to a shared variable other than the
counters is the assignment `_, fileErr = c.CopyLargeFile(...)`. -/

namespace CopyAll

/-- What the call is run with. -/
structure Pipeline where
  options : DirOptions
  bucket : String
  /-- The target prefix, normalised. -/
  pfx : String
  sourceBucket : String
  sourcePrefix : String
  /-- The keys of `sourceList.Contents`. -/
  keys : List String
  /-- The answers the worker of each entry gets. -/
  envs : Nat → EntryEnv
  /-- Capacity of `queueMaxSize`. -/
  threadNum : Nat

/-- Where the worker of one entry stands. -/
inductive WorkerPc
  /-- No goroutine was started for the entry. -/
  | notStarted
  /-- In the body of the goroutine (object.go 535-584). -/
  | body
  /-- In the deferred function (object.go 529-534). -/
  | deferred
  /-- The goroutine has ended. -/
  | finished
deriving DecidableEq

/-- The value `CopyAllObject` returns: an error, or the counters `Total`,
`Skip` and `Finish` of the map. -/
inductive Result
  | error (e : String)
  | ok (Total Skip Finish : Nat)
deriving DecidableEq

/-- The shared variables and the positions of the threads. -/
structure State where
  /-- Loop variable of the coordinator. -/
  fileNum : Nat
  copyExit : Bool
  fileErr : Option String
  tmpSkip : Nat
  tmpFinish : Nat
  /-- Number of values held by the channel `queueMaxSize`. -/
  queue : Nat
  /-- Counter of the wait group. -/
  wg : Nat
  /-- Position of the worker of each entry. -/
  workers : List WorkerPc
  calls : List Call
  /-- What the function returned, once it has. -/
  result : Option Result
deriving DecidableEq

/-- Who moves next. -/
inductive Action
  /-- The coordinator. -/
  | coord
  /-- The worker of the entry `fileNum`. -/
  | worker (fileNum : Nat)
deriving DecidableEq

/-- State behind the list call (object.go 515-521). -/
def init (cfg : Pipeline) : State :=
  { fileNum := 0, copyExit := false, fileErr := none, tmpSkip := 0, tmpFinish := 0, queue := 0,
    wg := 0, workers := List.replicate cfg.keys.length .notStarted, calls := [], result := none }

/-- One step of the coordinator: a pass of the loop (object.go 522-527:
the tests of `fileNum` and `copyExit`, `wg.Add(1)`, the send on
`queueMaxSize`, which needs a free place, and the `go` statement), or, behind
the loop, `wg.Wait()` and the return (object.go 586-597). -/
def coordStep (cfg : Pipeline) (s : State) : Option State :=
  if s.result.isSome then none
  else if s.fileNum < cfg.keys.length ∧ s.copyExit = false then
    if s.queue < cfg.threadNum then
      some { s with
        fileNum := s.fileNum + 1, wg := s.wg + 1, queue := s.queue + 1
        workers := s.workers.set s.fileNum .body }
    else none
  else if s.wg = 0 then
    match s.fileErr with
    | some e => some { s with result := some (.error e) }
    | none => some { s with result := some (.ok cfg.keys.length s.tmpSkip s.tmpFinish) }
  else none

/-- One step of the worker of the entry `k`: its body, or its deferred
function. A skipped entry does not assign `fileErr`; every other entry
assigns it the error of `CopyLargeFile`, nil when the copy succeeded. -/
def workerStep (cfg : Pipeline) (s : State) (k : Nat) : Option State :=
  match s.workers[k]? with
  | some .body =>
    let out := copyEntry cfg.options (cfg.envs k) cfg.bucket cfg.pfx cfg.sourceBucket
      cfg.sourcePrefix (cfg.keys.getD k "")
    some { s with
      fileErr := if out.skip = 1 then s.fileErr else out.fileErr
      tmpSkip := s.tmpSkip + out.skip
      tmpFinish := s.tmpFinish + out.finish
      calls := s.calls ++ out.calls
      workers := s.workers.set k .deferred }
  | some .deferred =>
    some { s with
      copyExit := if s.fileErr.isSome then true else s.copyExit
      wg := s.wg - 1
      queue := s.queue - 1
      workers := s.workers.set k .finished }
  | _ => none

/-- The step of a thread; `none` when the thread cannot move. -/
def step (cfg : Pipeline) (s : State) : Action → Option State
  | .coord => coordStep cfg s
  | .worker k => workerStep cfg s k

/-- A run: the steps of a schedule, one after the other. -/
def exec (cfg : Pipeline) : State → List Action → Option State
  | s, [] => some s
  | s, a :: rest =>
    match step cfg s a with
    | none => none
    | some s1 => exec cfg s1 rest

/-- An entry whose copy fails. -/
def copyFails : EntryEnv :=
  { sourceHead :=
      some { ContentLength := "10", LastModified := 1700000000, ContentDisposition := "" }
    objectHead := none, CopyLargeFile := .err "StatusCode: 500", Delete := fun _ => .ok "" }

/-- Two entries under "in/" copied to "out/" with `replace = "true"` and a
pool of two: the copy of the first entry fails, the copy of the second
succeeds. -/
def twoEntries : Pipeline :=
  { options := { replace := "true", suffix := "", full_path := "true" }
    bucket := "dst", pfx := "out/", sourceBucket := "src", sourcePrefix := "in/"
    keys := ["in/a.txt", "in/b.txt"]
    envs := fun k => if k = 0 then copyFails else targetMissing
    threadNum := 2 }

/-- A run of `twoEntries`: both workers are started; the copy of the first
entry fails and its worker ends; the copy of the second entry succeeds after
that and its worker ends; the coordinator joins. -/
def failureErased : List Action :=
  [.coord, .coord, .worker 0, .worker 0, .worker 1, .worker 1, .coord]

/-- A run of `twoEntries` in which the worker of the first entry has ended
before the coordinator comes to the loop head again. -/
def failureSeen : List Action :=
  [.coord, .worker 0, .worker 0, .coord]

end CopyAll

/-! # Theorems -/

/-! ## Partitioning -/

/-- Within the range of `int` the arithmetic of Go is that of the integers. -/
theorem wrapInt_of_range (n : Int) (h1 : minInt ≤ n) (h2 : n ≤ maxInt) : wrapInt n = n := by
  unfold wrapInt
  unfold minInt at h1
  unfold maxInt at h2
  omega

theorem totalParts_eq (S P : Int) (hS : 0 ≤ S) (hP : 1 ≤ P) (hmax : S + P - 1 ≤ maxInt) :
    totalParts S P = (S + P - 1) / P := by
  unfold totalParts
  have hm : maxInt = 9223372036854775807 := rfl
  have hn : minInt = -9223372036854775808 := rfl
  by_cases hz : S + P ≤ maxInt
  · rw [wrapInt_of_range (S + P) (by omega) hz, wrapInt_of_range (S + P - 1) (by omega) hmax]
    exact Int.tdiv_eq_ediv (by omega) (by omega)
  · have e1 : wrapInt (S + P) = minInt := by
      unfold wrapInt
      omega
    rw [e1]
    have e2 : wrapInt (minInt - 1) = maxInt := by decide
    rw [e2]
    have e3 : S + P - 1 = maxInt := by omega
    rw [e3]
    exact Int.tdiv_eq_ediv (by omega) (by omega)

theorem lt_totalParts_iff (S P k : Int) (hS : 0 ≤ S) (hP : 1 ≤ P)
    (hmax : S + P - 1 ≤ maxInt) :
    k < totalParts S P ↔ k * P < S := by
  rw [totalParts_eq S P hS hP hmax]
  have hpos : (0 : Int) < P := by omega
  constructor
  · intro h
    have h1 : k + 1 ≤ (S + P - 1) / P := by omega
    have h2 := (Int.le_ediv_iff_mul_le hpos).mp h1
    nlinarith
  · intro h
    have h2 : (k + 1) * P ≤ S + P - 1 := by nlinarith
    have h1 := (Int.le_ediv_iff_mul_le hpos).mpr h2
    omega

theorem totalParts_ceil (S P : Int) (hS : 0 ≤ S) (hP : 1 ≤ P) (hmax : S + P - 1 ≤ maxInt) :
    (totalParts S P - 1) * P < S ∧ S ≤ totalParts S P * P := by
  constructor
  · exact (lt_totalParts_iff S P _ hS hP hmax).mp (by omega)
  · by_contra h
    have := (lt_totalParts_iff S P (totalParts S P) hS hP hmax).mpr (by omega)
    omega

theorem emod_of_between (S P k : Int) (hP : 1 ≤ P) (h1 : k * P ≤ S) (h2 : S < (k + 1) * P) :
    S % P = S - k * P := by
  have hpos : (0 : Int) < P := by omega
  have e := Int.emod_add_ediv S P
  have r0 := Int.emod_nonneg S (by omega : P ≠ 0)
  have r1 := Int.emod_lt_of_pos S hpos
  have hq : S / P = k := by
    rcases lt_trichotomy (S / P) k with h | h | h
    · have : S / P + 1 ≤ k := by omega
      nlinarith
    · exact h
    · have : k + 1 ≤ S / P := by omega
      nlinarith
  rw [hq] at e
  linarith

/-- Away from the sizes `S = (k+1)·P - 1`, the range computed by the code for
the part with index `k` is `[k·P, min((k+1)·P, S) - 1]`. -/
theorem partRange_of_ne (S P k : Int) (hS : 1 ≤ S) (hP : 1 ≤ P)
    (hmax : S + P - 1 ≤ maxInt) (hk : k < totalParts S P) (hne : (k + 1) * P - 1 ≠ S) :
    partRange S P k = (k * P, min ((k + 1) * P) S - 1) := by
  have hkS := (lt_totalParts_iff S P k (by omega) hP hmax).mp hk
  unfold partRange
  simp only
  by_cases hgt : (k + 1) * P - 1 > S
  · rw [if_pos hgt, Int.tmod_eq_emod (by omega) (by omega),
      emod_of_between S P k hP (by omega) (by omega)]
    rw [min_eq_right (by omega)]
    congr 1
    ring
  · rw [if_neg hgt, min_eq_left (by omega)]

/-- At the sizes `S = (k+1)·P - 1` the end of the last range is `S`, one past
the last byte. -/
theorem partRange_of_eq (S P k : Int) (hne : (k + 1) * P - 1 = S) :
    partRange S P k = (k * P, S) := by
  unfold partRange
  simp only
  rw [if_neg (by omega), hne]

theorem partSection_eq (S P i : Int) :
    partSection S P i = (i * P, min P (S - i * P)) := by
  unfold partSection
  simp only
  by_cases h : S - i * P < P
  · rw [if_pos h, min_eq_right (by omega)]
  · rw [if_neg h, min_eq_left (by omega)]

theorem sum_full_sections (S P : Int) (n : Nat) (h : (n : Int) * P ≤ S) (hP : 1 ≤ P) :
    ((List.range n).map (fun i : Nat => (partSection S P (i : Int)).2)).sum = (n : Int) * P := by
  induction n with
  | zero => simp
  | succ m ih =>
    have hm : (m : Int) * P ≤ S := by push_cast at h; nlinarith
    rw [List.range_succ, List.map_append, List.sum_append, ih hm]
    rw [List.map_singleton, List.sum_singleton, partSection_eq]
    push_cast at h ⊢
    rw [min_eq_left (by nlinarith)]
    ring

theorem last_section_length (S P t : Int) (hP : 1 ≤ P) (h1 : (t - 1) * P < S)
    (h2 : S ≤ t * P) : S - (t - 1) * P = (if S % P = 0 then P else S % P) := by
  by_cases he : S = t * P
  · have : S % P = 0 := by rw [he]; exact Int.mul_emod_left t P
    rw [if_pos this, he]; ring
  · have hm := emod_of_between S P (t - 1) hP (by omega)
      (by have e : (t - 1 + 1) * P = t * P := by ring
          rw [e]; omega)
    have hne : S % P ≠ 0 := by rw [hm]; omega
    rw [if_neg hne, hm]

/-- C4. For a file of size `S ≥ 1` and a part size `P ≥ 1` whose sum
`S + P - 1` is a Go `int`, `UploadLargeFile` cuts the file into
`total = ⌈S/P⌉` sections; section `k` (1-indexed) starts at `(k-1)·P`; every
section but the last has length `P`, the last has length `S mod P`, or `P`
when that is 0; the sections are non-empty, contiguous from 0 to `S`,
pairwise disjoint, and their lengths sum to `S`. -/
theorem C4_upload_sections (S P : Int) (hS : 1 ≤ S) (hP : 1 ≤ P)
    (hmax : S + P - 1 ≤ maxInt) :
    ((totalParts S P - 1) * P < S ∧ S ≤ totalParts S P * P) ∧
    (∀ k : Int, 1 ≤ k → k ≤ totalParts S P → (partSection S P (k - 1)).1 = (k - 1) * P) ∧
    (∀ k : Int, 1 ≤ k → k < totalParts S P → (partSection S P (k - 1)).2 = P) ∧
    (partSection S P (totalParts S P - 1)).2 = (if S % P = 0 then P else S % P) ∧
    (∀ k : Int, 1 ≤ k → k ≤ totalParts S P → 1 ≤ (partSection S P (k - 1)).2) ∧
    ((partSection S P 0).1 = 0 ∧
      (∀ k : Int, 1 ≤ k → k < totalParts S P →
        (partSection S P (k - 1)).1 + (partSection S P (k - 1)).2 = (partSection S P k).1) ∧
      (partSection S P (totalParts S P - 1)).1 + (partSection S P (totalParts S P - 1)).2 = S) ∧
    (∀ j k : Int, 1 ≤ j → j < k → k ≤ totalParts S P →
      (partSection S P (j - 1)).1 + (partSection S P (j - 1)).2 ≤ (partSection S P (k - 1)).1) ∧
    ((List.range (totalParts S P).toNat).map
      (fun i : Nat => (partSection S P (i : Int)).2)).sum = S := by
  obtain ⟨hc1, hc2⟩ := totalParts_ceil S P (by omega) hP hmax
  have hlt : ∀ k : Int, k < totalParts S P → k * P < S := fun k hk =>
    (lt_totalParts_iff S P k (by omega) hP hmax).mp hk
  have hpos : 1 ≤ totalParts S P := by
    by_contra h
    have : totalParts S P * P ≤ 0 := by nlinarith
    omega
  have hfull : ∀ k : Int, k < totalParts S P → min P (S - (k - 1) * P) = P := by
    intro k hk
    have := hlt k hk
    apply min_eq_left
    have e : (k - 1) * P = k * P - P := by ring
    rw [e]; omega
  have hlastmin : min P (S - (totalParts S P - 1) * P) = S - (totalParts S P - 1) * P := by
    apply min_eq_right
    have e : (totalParts S P - 1) * P = totalParts S P * P - P := by ring
    rw [e]; omega
  have hlen : ∀ k : Int, 1 ≤ k → k ≤ totalParts S P → 1 ≤ min P (S - (k - 1) * P) := by
    intro k _ hk
    have := hlt (k - 1) (by omega)
    exact le_min hP (by omega)
  refine ⟨⟨hc1, hc2⟩, ?_, ?_, ?_, ?_, ⟨?_, ?_, ?_⟩, ?_, ?_⟩
  · intro k _ _; rw [partSection_eq]
  · intro k _ hk; rw [partSection_eq]; exact hfull k hk
  · rw [partSection_eq]
    simp only
    rw [hlastmin]
    exact last_section_length S P _ hP hc1 hc2
  · intro k h1 hk; rw [partSection_eq]; exact hlen k h1 hk
  · rw [partSection_eq]; simp
  · intro k _ hk
    rw [partSection_eq, partSection_eq]
    simp only
    rw [hfull k hk]; ring
  · rw [partSection_eq]
    simp only
    rw [hlastmin]; ring
  · intro j k _ hjk hk
    rw [partSection_eq, partSection_eq]
    simp only
    rw [hfull j (by omega)]
    have : j ≤ k - 1 := by omega
    nlinarith
  · obtain ⟨m, hm⟩ : ∃ m : Nat, totalParts S P = (m : Int) + 1 :=
      ⟨(totalParts S P - 1).toNat, by omega⟩
    have htn : (totalParts S P).toNat = m + 1 := by omega
    rw [htn, List.range_succ, List.map_append, List.sum_append,
      sum_full_sections S P m (by have := hc1; rw [hm] at this; simpa using this.le) hP]
    rw [List.map_singleton, List.sum_singleton, partSection_eq]
    simp only
    have e : (m : Int) = totalParts S P - 1 := by omega
    rw [e, hlastmin]; ring

/-- Witness of C4: a file of 12 MiB cut with a part size of 5 MiB. -/
theorem C4_upload_sections_witness :
    (1 : Int) ≤ 12582912 ∧ (1 : Int) ≤ 5242880 ∧ (12582912 : Int) + 5242880 - 1 ≤ maxInt ∧
    totalParts 12582912 5242880 = 3 ∧
    ((List.range (totalParts 12582912 5242880).toNat).map
      (fun i : Nat => (partSection 12582912 5242880 (i : Int)).2)).sum = 12582912 :=
  ⟨by decide, by decide, by decide, by decide,
    (C4_upload_sections 12582912 5242880 (by decide) (by decide) (by decide)).2.2.2.2.2.2.2⟩

/-- Beyond the range of `int` the sum wraps: for a size of `2^63 - 1` and a
part size of 100 MiB the part count the code computes is negative. -/
theorem totalParts_wraps : totalParts maxInt 104857600 = -87960930221 := by
  decide

/-! ## The part pipeline -/

namespace LargeFile

theorem step_sound (cfg : Pipeline) (s : State) (a : Action) (s1 : State)
    (hs : step cfg s a = some s1) : Step cfg s s1 := by
  cases a with
  | coord r =>
    simp only [step, coordStep] at hs
    split at hs
    · rename_i hc
      split at hs <;>
      · simp only [Option.some.injEq] at hs
        subst hs
        first
          | exact Step.initFail s _ hc
          | exact Step.initOk s _ hc
    · rename_i hc
      split at hs
      · rename_i hn
        split at hs
        · rename_i hx
          simp only [Option.some.injEq] at hs
          subst hs
          exact Step.headExit s hc hn hx
        · rename_i hx
          simp only [Option.some.injEq] at hs
          subst hs
          exact Step.headAdd s hc hn (by simpa using hx)
      · rename_i hn
        simp only [Option.some.injEq] at hs
        subst hs
        exact Step.headEnd s hc hn
    · rename_i hc
      split at hs
      · rename_i hq
        simp only [Option.some.injEq] at hs
        subst hs
        exact Step.start s hc hq
      · exact absurd hs (by simp)
    · rename_i hc
      split at hs
      · rename_i hw
        split at hs
        · rename_i e he
          simp only [Option.some.injEq] at hs
          subst hs
          exact Step.joinErr s e hc hw he
        · rename_i he
          simp only [Option.some.injEq] at hs
          subst hs
          exact Step.joinOk s r hc hw he
      · exact absurd hs (by simp)
    · exact absurd hs (by simp)
  | worker k r =>
    simp only [step, workerStep] at hs
    split at hs
    · exact absurd hs (by simp)
    · rename_i i hp
      split at hs
      · rename_i hi
        split at hs
        · rename_i hx
          simp only [Option.some.injEq] at hs
          subst hs
          exact Step.passCanceled s k i hp hi hx
        · rename_i hx
          split at hs
          · simp only [Option.some.injEq] at hs
            subst hs
            exact Step.passFail s k i _ hp hi (by simpa using hx)
          · simp only [Option.some.injEq] at hs
            subst hs
            exact Step.passOk s k i _ hp hi (by simpa using hx)
      · rename_i hi
        simp only [Option.some.injEq] at hs
        subst hs
        exact Step.loopEnd s k i hp hi
    · rename_i hp
      split at hs
      · rename_i e he
        simp only [Option.some.injEq] at hs
        subst hs
        exact Step.checkErr s k e hp he
      · rename_i he
        simp only [Option.some.injEq] at hs
        subst hs
        exact Step.checkOk s k hp he
    · rename_i hp
      simp only [Option.some.injEq] at hs
      subst hs
      exact Step.deferred s k hp
    · rename_i hp
      simp only [Option.some.injEq] at hs
      subst hs
      exact Step.wgDone s k hp
    · rename_i hp
      simp only [Option.some.injEq] at hs
      subst hs
      exact Step.release s k hp
    · exact absurd hs (by simp)
  | cancel =>
    simp only [step] at hs
    split at hs
    · rename_i h
      simp only [Option.some.injEq] at hs
      subst hs
      exact Step.cancel s h.1 h.2
    · exact absurd hs (by simp)

/-- A property that holds at entry and is kept by every step holds in every
state of every run. -/
theorem reaches_invariant (cfg : Pipeline) (P : State → Prop) (h0 : P (init cfg))
    (hstep : ∀ s s1, P s → Step cfg s s1 → P s1) :
    ∀ (acts : List Action) (s : State), Reaches cfg acts s → P s := by
  have key : ∀ (acts : List Action) (s s1 : State), P s → exec cfg s acts = some s1 → P s1 := by
    intro acts
    induction acts with
    | nil =>
      intro s s1 hP h
      simp only [exec, Option.some.injEq] at h
      exact h ▸ hP
    | cons a rest ih =>
      intro s s1 hP h
      simp only [exec] at h
      cases hst : step cfg s a with
      | none => rw [hst] at h; exact absurd h (by simp)
      | some s2 =>
        rw [hst] at h
        exact ih s2 s1 (hstep s s2 hP (step_sound cfg s a s2 hst)) h
  intro acts s h
  exact key acts (init cfg) s h0 h

theorem lateStarts_append (t : List Event) (ev : Event) :
    lateStarts (t ++ [ev]) = lateStarts t + (if isLateStart ev then 1 else 0) := by
  unfold lateStarts
  rw [List.countP_append]
  simp [List.countP_cons]

/-- What holds of the late starts in every state of a run. -/
def LateInv (s : State) : Prop :=
  lateStarts s.trace ≤ 1 ∧ (s.uploadExit = false → lateStarts s.trace = 0) ∧
    (s.coord = .acquire → lateStarts s.trace = 0)

theorem lateInv_step (cfg : Pipeline) (s s1 : State)
    (h : LateInv s) (hs : Step cfg s s1) : LateInv s1 := by
  obtain ⟨h1, h2, h3⟩ := h
  cases hs <;> simp_all [LateInv, lateStarts_append, isLateStart]
  case start hq => cases hu : s.uploadExit <;> simp_all

end LargeFile

namespace LargeFile

theorem activeCount_succ (w : Nat → WorkerPc) (n : Nat) :
    activeCount w (n + 1) = activeCount w n + (if (w n).active then 1 else 0) := by
  unfold activeCount
  rw [List.range_succ, List.countP_append]
  simp [List.countP_cons]

theorem activeCount_update_ge (w : Nat → WorkerPc) (n k : Nat) (v : WorkerPc) (h : n ≤ k) :
    activeCount (Function.update w k v) n = activeCount w n := by
  induction n with
  | zero => rfl
  | succ m ih =>
    rw [activeCount_succ, activeCount_succ, ih (by omega)]
    have : m ≠ k := by omega
    rw [Function.update_noteq this]

theorem activeCount_update_lt (w : Nat → WorkerPc) (n k : Nat) (v : WorkerPc) (h : k < n) :
    activeCount (Function.update w k v) n + (if (w k).active then 1 else 0) =
      activeCount w n + (if v.active then 1 else 0) := by
  induction n with
  | zero => omega
  | succ m ih =>
    rw [activeCount_succ, activeCount_succ]
    by_cases hk : k = m
    · subst hk
      rw [activeCount_update_ge w k k v (le_refl k), Function.update_same]
      omega
    · have := ih (by omega)
      rw [Function.update_noteq (Ne.symm hk)]
      omega

theorem activeCount_zero (w : Nat → WorkerPc) (n : Nat) (h : activeCount w n = 0) :
    ∀ k, k < n → (w k).active = false := by
  induction n with
  | zero => intro k hk; omega
  | succ m ih =>
    rw [activeCount_succ] at h
    intro k hk
    by_cases hkm : k = m
    · subst hkm
      by_contra hc
      simp only [Bool.not_eq_false] at hc
      rw [hc] at h
      simp at h
    · exact ih (by omega) k (by omega)

/-- What holds of counters and positions in every state of a run. -/
structure Inv (cfg : Pipeline) (s : State) : Prop where
  len : s.uploadPartList.length = cfg.total
  partNum_le : s.partNum ≤ cfg.total
  acquire_lt : s.coord = .acquire → s.partNum < cfg.total
  started : ∀ k, s.partNum ≤ k → s.workers k = .notStarted
  wg_eq : s.wg = activeCount s.workers s.partNum + (if s.coord = .acquire then 1 else 0)
  quiet : s.coord = .returned → ∀ k, (s.workers k).active = false
  at_init : s.coord = .init → s.partNum = 0

theorem inv_init (cfg : Pipeline) : Inv cfg (init cfg) := by
  constructor <;> simp [init, activeCount]

theorem inv_worker_keep (cfg : Pipeline) (s s1 : State) (k : Nat) (v : WorkerPc)
    (h : Inv cfg s) (hc : s1.coord = s.coord) (hp : s1.partNum = s.partNum)
    (hl : s1.uploadPartList.length = s.uploadPartList.length) (hg : s1.wg = s.wg)
    (hw : s1.workers = Function.update s.workers k v)
    (hns : s.workers k ≠ .notStarted)
    (ha : v.active = (s.workers k).active) : Inv cfg s1 := by
  obtain ⟨hlen, hle, hacq, hst, hwg, hq, hin⟩ := h
  have hk : k < s.partNum := by
    by_contra hcon
    exact hns (hst k (by omega))
  refine ⟨by rw [hl, hlen], by rw [hp]; exact hle, by rw [hc, hp]; exact hacq, ?_, ?_, ?_,
    by rw [hc, hp]; exact hin⟩
  · intro j hj
    rw [hp] at hj
    rw [hw, Function.update_noteq (by omega)]
    exact hst j hj
  · have := activeCount_update_lt s.workers s.partNum k v hk
    rw [ha] at this
    rw [hg, hw, hp, hc, hwg]
    omega
  · intro hr j
    rw [hc] at hr
    rw [hw]
    by_cases hjk : j = k
    · subst hjk
      rw [Function.update_same, ha]
      exact hq hr j
    · rw [Function.update_noteq hjk]
      exact hq hr j

theorem inv_worker_done (cfg : Pipeline) (s s1 : State) (k : Nat)
    (h : Inv cfg s) (hc : s1.coord = s.coord) (hp : s1.partNum = s.partNum)
    (hl : s1.uploadPartList.length = s.uploadPartList.length) (hg : s1.wg = s.wg - 1)
    (hw : s1.workers = Function.update s.workers k .release)
    (hpc : s.workers k = .wgDone) : Inv cfg s1 := by
  obtain ⟨hlen, hle, hacq, hst, hwg, hq, hin⟩ := h
  have hk : k < s.partNum := by
    by_contra hcon
    have := hst k (by omega)
    rw [hpc] at this
    exact absurd this (by simp)
  refine ⟨by rw [hl, hlen], by rw [hp]; exact hle, by rw [hc, hp]; exact hacq, ?_, ?_, ?_,
    by rw [hc, hp]; exact hin⟩
  · intro j hj
    rw [hp] at hj
    rw [hw, Function.update_noteq (by omega)]
    exact hst j hj
  · have := activeCount_update_lt s.workers s.partNum k .release hk
    rw [hpc] at this
    simp only [WorkerPc.active, if_true] at this
    rw [hg, hw, hp, hc, hwg]
    simp only [Bool.false_eq_true, if_false] at this
    omega
  · intro hr j
    rw [hc] at hr
    rw [hw]
    by_cases hjk : j = k
    · subst hjk
      rw [Function.update_same]
      rfl
    · rw [Function.update_noteq hjk]
      exact hq hr j

theorem inv_step (cfg : Pipeline) (s s1 : State) (h : Inv cfg s) (hs : Step cfg s s1) :
    Inv cfg s1 := by
  cases hs with
  | initFail e hc =>
    obtain ⟨hlen, hle, hacq, hst, hwg, hq, hin⟩ := h
    refine ⟨hlen, hle, by simp, hst, ?_, ?_, by simp⟩
    · simpa [hc] using hwg
    · intro _ k
      rw [hst k (by rw [hin hc]; omega)]
      rfl
  | initOk v hc =>
    obtain ⟨hlen, hle, hacq, hst, hwg, hq, hin⟩ := h
    exact ⟨hlen, hle, by simp, hst, by simpa [hc] using hwg, by simp, by simp⟩
  | headExit hc hn hx =>
    obtain ⟨hlen, hle, hacq, hst, hwg, hq, hin⟩ := h
    exact ⟨hlen, hle, by simp, hst, by simpa [hc] using hwg, by simp, by simp⟩
  | headAdd hc hn hx =>
    obtain ⟨hlen, hle, hacq, hst, hwg, hq, hin⟩ := h
    exact ⟨hlen, hle, fun _ => hn, hst, by simpa [hc] using hwg, by simp, by simp⟩
  | headEnd hc hn =>
    obtain ⟨hlen, hle, hacq, hst, hwg, hq, hin⟩ := h
    exact ⟨hlen, hle, by simp, hst, by simpa [hc] using hwg, by simp, by simp⟩
  | start hc hq1 =>
    obtain ⟨hlen, hle, hacq, hst, hwg, hq, hin⟩ := h
    have hlt := hacq hc
    refine ⟨hlen, by simpa using hlt, by simp, ?_, ?_, by simp, by simp⟩
    · intro k hk
      simp only at hk
      simp only
      rw [Function.update_noteq (by omega)]
      exact hst k (by omega)
    · simp only
      rw [activeCount_succ, activeCount_update_ge _ _ _ _ (le_refl _), Function.update_same, hwg]
      simp [hc, WorkerPc.active]
  | joinErr e hc hw he =>
    obtain ⟨hlen, hle, hacq, hst, hwg, hq, hin⟩ := h
    refine ⟨hlen, hle, by simp, hst, by simpa [hc] using hwg, ?_, by simp⟩
    intro _ k
    simp only
    by_cases hk : k < s.partNum
    · exact activeCount_zero s.workers s.partNum (by omega) k hk
    · rw [hst k (by omega)]; rfl
  | joinOk r hc hw he =>
    obtain ⟨hlen, hle, hacq, hst, hwg, hq, hin⟩ := h
    refine ⟨hlen, hle, by simp, hst, by simpa [hc] using hwg, ?_, by simp⟩
    intro _ k
    simp only
    by_cases hk : k < s.partNum
    · exact activeCount_zero s.workers s.partNum (by omega) k hk
    · rw [hst k (by omega)]; rfl
  | passCanceled k i hp hi hx =>
    exact inv_worker_keep cfg s _ k .check h rfl rfl rfl rfl rfl (by simp [hp])
      (by simp [hp, WorkerPc.active])
  | passFail k i e hp hi hx =>
    exact inv_worker_keep cfg s _ k (.loop (i + 1)) h rfl rfl rfl rfl rfl (by simp [hp])
      (by simp [hp, WorkerPc.active])
  | passOk k i Etag hp hi hx =>
    exact inv_worker_keep cfg s _ k .check h rfl rfl (by simp) rfl rfl (by simp [hp])
      (by simp [hp, WorkerPc.active])
  | loopEnd k i hp hi =>
    exact inv_worker_keep cfg s _ k .check h rfl rfl rfl rfl rfl (by simp [hp])
      (by simp [hp, WorkerPc.active])
  | checkErr k e hp he =>
    exact inv_worker_keep cfg s _ k .deferred h rfl rfl rfl rfl rfl (by simp [hp])
      (by simp [hp, WorkerPc.active])
  | checkOk k hp he =>
    exact inv_worker_keep cfg s _ k .deferred h rfl rfl rfl rfl rfl (by simp [hp])
      (by simp [hp, WorkerPc.active])
  | deferred k hp =>
    exact inv_worker_keep cfg s _ k .wgDone h rfl rfl rfl rfl rfl (by simp [hp])
      (by simp [hp, WorkerPc.active])
  | wgDone k hp =>
    exact inv_worker_done cfg s _ k h rfl rfl rfl rfl rfl hp
  | release k hp =>
    exact inv_worker_keep cfg s _ k .finished h rfl rfl rfl rfl rfl (by simp [hp])
      (by simp [hp, WorkerPc.active])
  | cancel hc hx =>
    obtain ⟨hlen, hle, hacq, hst, hwg, hq, hin⟩ := h
    exact ⟨hlen, hle, hacq, hst, hwg, hq, hin⟩

theorem reaches_inv (cfg : Pipeline) (acts : List Action) (s : State)
    (h : Reaches cfg acts s) : Inv cfg s :=
  reaches_invariant cfg (Inv cfg) (inv_init cfg) (inv_step cfg) acts s h

end LargeFile

namespace LargeFile

theorem workers_update_started (w : Nat → WorkerPc) (k j : Nat) (v : WorkerPc)
    (hv : v ≠ .notStarted) (h : w j ≠ .notStarted) :
    Function.update w k v j ≠ .notStarted := by
  by_cases hjk : j = k
  · subst hjk; rw [Function.update_same]; exact hv
  · rw [Function.update_noteq hjk]; exact h

/-- No AbortUpload request is in the trace. -/
def NoCancel (s : State) : Prop := ∀ ev ∈ s.trace, isCancelPart ev = false

theorem noCancel_step (cfg : Pipeline) (s s1 : State) (h : NoCancel s) (hs : Step cfg s s1) :
    NoCancel s1 := by
  unfold NoCancel at *
  cases hs <;> simp_all [isCancelPart] <;> intro ev hev <;> rcases hev with hev | hev <;>
    first
      | exact h ev hev
      | (subst hev; rfl)

/-- Every part request in the trace belongs to a part whose worker was
started. -/
def PartStarted (s : State) : Prop :=
  ∀ n r, Event.Part n r ∈ s.trace → ∃ k, n = k + 1 ∧ s.workers k ≠ .notStarted

theorem partStarted_step (cfg : Pipeline) (s s1 : State) (h : PartStarted s)
    (hs : Step cfg s s1) : PartStarted s1 := by
  unfold PartStarted at *
  have hup : ∀ (k : Nat) (v : WorkerPc), v ≠ .notStarted → ∀ n r, Event.Part n r ∈ s.trace →
      ∃ j, n = j + 1 ∧ Function.update s.workers k v j ≠ .notStarted := by
    intro k v hv n r hm
    obtain ⟨j, hj1, hj2⟩ := h n r hm
    exact ⟨j, hj1, workers_update_started _ _ _ _ hv hj2⟩
  cases hs <;> intro n r hm <;>
    simp only [List.mem_append, List.mem_singleton, Event.Part.injEq, reduceCtorEq,
      or_false] at hm
  case initFail => exact h n r hm
  case initOk => exact h n r hm
  case headExit => exact h n r hm
  case headAdd => exact h n r hm
  case headEnd => exact h n r hm
  case start => exact hup _ _ (by simp) n r hm
  case joinErr => exact h n r hm
  case joinOk => exact h n r hm
  case passCanceled => exact hup _ _ (by simp) n r hm
  case passFail k i e hp hi hx =>
    rcases hm with hm | ⟨hn, _⟩
    · exact hup _ _ (by simp) n r hm
    · exact ⟨k, hn, by simp⟩
  case passOk k i e hp hi hx =>
    rcases hm with hm | ⟨hn, _⟩
    · exact hup _ _ (by simp) n r hm
    · exact ⟨k, hn, by simp⟩
  case loopEnd => exact hup _ _ (by simp) n r hm
  case checkErr => exact hup _ _ (by simp) n r hm
  case checkOk => exact hup _ _ (by simp) n r hm
  case deferred => exact hup _ _ (by simp) n r hm
  case wgDone => exact hup _ _ (by simp) n r hm
  case release => exact hup _ _ (by simp) n r hm
  case cancel => exact h n r hm

/-- A successful part request has filled the slot of its part, and the worker
of that part has left its retry loop. -/
def OkSlot (s : State) : Prop :=
  ∀ k e, Event.Part (k + 1) (.ok e) ∈ s.trace →
    s.uploadPartList[k]? = some e ∧ ∀ i, s.workers k ≠ .loop i

theorem okSlot_step (cfg : Pipeline) (s s1 : State) (hi : Inv cfg s) (hp : PartStarted s)
    (h : OkSlot s) (hs : Step cfg s s1) : OkSlot s1 := by
  unfold OkSlot at *
  have hup : ∀ (k : Nat) (v : WorkerPc), (∀ i, v ≠ .loop i) → ∀ j e,
      Event.Part (j + 1) (.ok e) ∈ s.trace →
      s.uploadPartList[j]? = some e ∧ ∀ i, Function.update s.workers k v j ≠ .loop i := by
    intro k v hv j e hm
    obtain ⟨h1, h2⟩ := h j e hm
    refine ⟨h1, fun i => ?_⟩
    by_cases hjk : j = k
    · subst hjk; rw [Function.update_same]; exact hv i
    · rw [Function.update_noteq hjk]; exact h2 i
  cases hs <;> intro j e hm <;>
    simp only [List.mem_append, List.mem_singleton, Event.Part.injEq, reduceCtorEq,
      or_false, and_false, Resp.ok.injEq, Nat.add_right_cancel_iff] at hm
  case initFail => exact h j e hm
  case initOk => exact h j e hm
  case headExit => exact h j e hm
  case headAdd => exact h j e hm
  case headEnd => exact h j e hm
  case start =>
    obtain ⟨h1, h2⟩ := h j e hm
    refine ⟨h1, fun i => ?_⟩
    obtain ⟨j1, hj1, hj2⟩ := hp _ _ hm
    have hjj : j1 = j := by omega
    subst hjj
    have hne : j1 ≠ s.partNum := by
      intro hcon
      exact hj2 (hi.started j1 (by omega))
    simp only
    rw [Function.update_noteq hne]
    exact h2 i
  case joinErr => exact h j e hm
  case joinOk => exact h j e hm
  case passCanceled => exact hup _ _ (by simp) j e hm
  case passFail k i e1 hpc hlt hx =>
    obtain ⟨h1, h2⟩ := h j e hm
    refine ⟨h1, fun i1 => ?_⟩
    have hne : j ≠ k := by
      intro hcon; subst hcon
      exact h2 i hpc
    simp only
    rw [Function.update_noteq hne]
    exact h2 i1
  case passOk k i e1 hpc hlt hx =>
    rcases hm with hm | ⟨hjk, he⟩
    · obtain ⟨h1, h2⟩ := h j e hm
      have hne : j ≠ k := by
        intro hcon; subst hcon
        exact h2 i hpc
      refine ⟨?_, fun i1 => ?_⟩
      · simp only
        rw [List.getElem?_set_ne (Ne.symm hne)]
        exact h1
      · simp only
        rw [Function.update_noteq hne]
        exact h2 i1
    · subst hjk; subst he
      have hk : j < s.uploadPartList.length := by
        rw [hi.len]
        have : j < s.partNum := by
          by_contra hcon
          have := hi.started j (by omega)
          rw [hpc] at this
          exact absurd this (by simp)
        have := hi.partNum_le
        omega
      refine ⟨?_, fun i1 => ?_⟩
      · simp only
        rw [List.getElem?_set_self hk]
      · simp
  case loopEnd => exact hup _ _ (by simp) j e hm
  case checkErr => exact hup _ _ (by simp) j e hm
  case checkOk => exact hup _ _ (by simp) j e hm
  case deferred => exact hup _ _ (by simp) j e hm
  case wgDone => exact hup _ _ (by simp) j e hm
  case release => exact hup _ _ (by simp) j e hm
  case cancel => exact h j e hm

/-- A slot of the part list is empty unless a part request of its part
succeeded. -/
def SlotFilled (cfg : Pipeline) (s : State) : Prop :=
  ∀ k, k < cfg.total →
    s.uploadPartList[k]? = some "" ∨ ∃ e, Event.Part (k + 1) (.ok e) ∈ s.trace

theorem slotFilled_init (cfg : Pipeline) : SlotFilled cfg (init cfg) := by
  intro k hk
  left
  simp [init, List.getElem?_replicate, hk]

theorem slotFilled_step (cfg : Pipeline) (s s1 : State) (h : SlotFilled cfg s)
    (hs : Step cfg s s1) : SlotFilled cfg s1 := by
  unfold SlotFilled at *
  have hgrow : ∀ (ev : Event) (k : Nat), k < cfg.total →
      s.uploadPartList[k]? = some "" ∨ ∃ e, Event.Part (k + 1) (.ok e) ∈ s.trace ++ [ev] := by
    intro ev k hk
    rcases h k hk with h1 | ⟨e, he⟩
    · exact Or.inl h1
    · exact Or.inr ⟨e, List.mem_append_left _ he⟩
  cases hs
  case passOk k i e1 hpc hlt hx =>
    intro j hj
    by_cases hjk : j = k
    · subst hjk
      exact Or.inr ⟨e1, by simp⟩
    · rcases h j hj with h1 | ⟨e, he⟩
      · left
        simp only
        rw [List.getElem?_set_ne (Ne.symm hjk)]
        exact h1
      · exact Or.inr ⟨e, List.mem_append_left _ he⟩
  all_goals first
    | exact h
    | exact hgrow _

/-- What holds of the returned value and of the CompleteUpload request. -/
structure Outcome (s : State) : Prop where
  initial : s.coord = .init → s.trace = []
  running : s.coord ≠ .returned → s.result = none ∧ ∀ ev ∈ s.trace, isCompleteUpload ev = false
  done : s.coord = .returned →
    (∃ e, s.result = some (.err e) ∧ s.trace = [.InitUpload (.err e)]) ∨
    (∃ e, s.partErr = some e ∧ s.result = some (.err e) ∧
      ∀ ev ∈ s.trace, isCompleteUpload ev = false) ∨
    (s.partErr = none ∧ ∃ r, s.result = some r ∧
      ∀ body r1, Event.CompleteUpload body r1 ∈ s.trace ↔
        (body = completeUploadInfo s.uploadPartList ∧ r1 = r))

theorem outcome_init (cfg : Pipeline) : Outcome (init cfg) := by
  constructor <;> simp [init]

theorem outcome_same (s s1 : State) (h : Outcome s) (hc : s1.coord = s.coord)
    (hr : s1.result = s.result) (ht : s1.trace = s.trace) (he : s1.partErr = s.partErr)
    (hl : s1.uploadPartList = s.uploadPartList) : Outcome s1 := by
  obtain ⟨h1, h2, h3⟩ := h
  refine ⟨?_, ?_, ?_⟩
  · rw [hc, ht]; exact h1
  · rw [hc, hr, ht]; exact h2
  · rw [hc, hr, ht, he, hl]; exact h3

theorem outcome_running (s s1 : State) (h : Outcome s) (hc1 : s1.coord ≠ .init)
    (hc2 : s1.coord ≠ .returned) (hr : s1.result = s.result) (hnr : s.coord ≠ .returned)
    (ht : ∀ ev ∈ s1.trace, ev ∈ s.trace ∨ isCompleteUpload ev = false) : Outcome s1 := by
  obtain ⟨h1, h2, h3⟩ := h
  refine ⟨?_, ?_, ?_⟩
  · intro hcon; exact absurd hcon hc1
  · intro _
    rw [hr]
    refine ⟨(h2 hnr).1, fun ev hev => ?_⟩
    rcases ht ev hev with h4 | h4
    · exact (h2 hnr).2 ev h4
    · exact h4
  · intro hcon; exact absurd hcon hc2

theorem active_not_returned (cfg : Pipeline) (s : State) (k : Nat) (hi : Inv cfg s)
    (ha : (s.workers k).active = true) : s.coord ≠ .returned ∧ s.coord ≠ .init := by
  constructor
  · intro hcon
    have := hi.quiet hcon k
    rw [ha] at this
    exact absurd this (by simp)
  · intro hcon
    have := hi.started k (by rw [hi.at_init hcon]; omega)
    rw [this] at ha
    exact absurd ha (by simp [WorkerPc.active])

theorem outcome_step (cfg : Pipeline) (s s1 : State) (hi : Inv cfg s) (h : Outcome s)
    (hs : Step cfg s s1) : Outcome s1 := by
  have hact := fun k => active_not_returned cfg s k hi
  have hsame : ∀ ev ∈ s.trace, ev ∈ s.trace ∨ isCompleteUpload ev = false :=
    fun ev hev => Or.inl hev
  have hadd : ∀ ev1 : Event, isCompleteUpload ev1 = false →
      ∀ ev ∈ s.trace ++ [ev1], ev ∈ s.trace ∨ isCompleteUpload ev = false := by
    intro ev1 h1 ev hev
    rcases List.mem_append.mp hev with h2 | h2
    · exact Or.inl h2
    · rw [List.mem_singleton] at h2
      subst h2
      exact Or.inr h1
  cases hs
  case initFail e hc =>
    have ht := h.initial hc
    refine ⟨by simp, by simp, fun _ => Or.inl ⟨e, rfl, by simp [ht]⟩⟩
  case initOk v hc =>
    have ht := h.initial hc
    refine ⟨by simp, fun _ => ⟨?_, ?_⟩, by simp⟩
    · exact (h.running (by simp [hc])).1
    · simp [ht, isCompleteUpload]
  case headExit hc hn hx =>
    exact outcome_running s _ h (by simp) (by simp) rfl (by simp [hc]) hsame
  case headAdd hc hn hx =>
    exact outcome_running s _ h (by simp) (by simp) rfl (by simp [hc]) hsame
  case headEnd hc hn =>
    exact outcome_running s _ h (by simp) (by simp) rfl (by simp [hc]) hsame
  case start hc hq =>
    exact outcome_running s _ h (by simp) (by simp) rfl (by simp [hc]) (hadd _ rfl)
  case joinErr e hc hw he =>
    have hrun := h.running (by simp [hc])
    refine ⟨by simp, by simp, fun _ => Or.inr (Or.inl ⟨e, he, rfl, hrun.2⟩)⟩
  case joinOk r hc hw he =>
    have hrun := h.running (by simp [hc])
    refine ⟨by simp, by simp, fun _ => Or.inr (Or.inr ⟨he, r, rfl, ?_⟩)⟩
    intro body r1
    simp only [List.mem_append, List.mem_singleton, Event.CompleteUpload.injEq]
    constructor
    · rintro (hm | hm)
      · have := hrun.2 _ hm
        simp [isCompleteUpload] at this
      · exact hm
    · intro hm
      exact Or.inr hm
  case passCanceled k i hp hlt hx =>
    obtain ⟨h1, h2⟩ := hact k (by simp [hp, WorkerPc.active])
    exact outcome_running s _ h h2 h1 rfl h1 hsame
  case passFail k i e hp hlt hx =>
    obtain ⟨h1, h2⟩ := hact k (by simp [hp, WorkerPc.active])
    exact outcome_running s _ h h2 h1 rfl h1 (hadd _ rfl)
  case passOk k i e hp hlt hx =>
    obtain ⟨h1, h2⟩ := hact k (by simp [hp, WorkerPc.active])
    exact outcome_running s _ h h2 h1 rfl h1 (hadd _ rfl)
  case loopEnd k i hp hlt =>
    obtain ⟨h1, h2⟩ := hact k (by simp [hp, WorkerPc.active])
    exact outcome_running s _ h h2 h1 rfl h1 hsame
  case checkErr k e hp he =>
    obtain ⟨h1, h2⟩ := hact k (by simp [hp, WorkerPc.active])
    exact outcome_running s _ h h2 h1 rfl h1 hsame
  case checkOk k hp he =>
    obtain ⟨h1, h2⟩ := hact k (by simp [hp, WorkerPc.active])
    exact outcome_running s _ h h2 h1 rfl h1 (hadd _ rfl)
  case deferred k hp =>
    obtain ⟨h1, h2⟩ := hact k (by simp [hp, WorkerPc.active])
    exact outcome_running s _ h h2 h1 rfl h1 hsame
  case wgDone k hp =>
    obtain ⟨h1, h2⟩ := hact k (by simp [hp, WorkerPc.active])
    exact outcome_running s _ h h2 h1 rfl h1 hsame
  case release k hp => exact outcome_same s _ h rfl rfl rfl rfl rfl
  case cancel hc hx => exact outcome_same s _ h rfl rfl rfl rfl rfl

/-- Everything that holds in every state of a run. -/
structure AllInv (cfg : Pipeline) (s : State) : Prop where
  inv : Inv cfg s
  late : LateInv s
  noCancel : NoCancel s
  partStarted : PartStarted s
  okSlot : OkSlot s
  slotFilled : SlotFilled cfg s
  outcome : Outcome s

theorem allInv_init (cfg : Pipeline) : AllInv cfg (init cfg) := by
  refine ⟨inv_init cfg, ?_, ?_, ?_, ?_, slotFilled_init cfg, outcome_init cfg⟩
  · simp [LateInv, init, lateStarts]
  · simp [NoCancel, init]
  · simp [PartStarted, init]
  · simp [OkSlot, init]

theorem allInv_step (cfg : Pipeline) (s s1 : State) (h : AllInv cfg s) (hs : Step cfg s s1) :
    AllInv cfg s1 :=
  ⟨inv_step cfg s s1 h.inv hs, lateInv_step cfg s s1 h.late hs,
    noCancel_step cfg s s1 h.noCancel hs, partStarted_step cfg s s1 h.partStarted hs,
    okSlot_step cfg s s1 h.inv h.partStarted h.okSlot hs,
    slotFilled_step cfg s s1 h.slotFilled hs, outcome_step cfg s s1 h.inv h.outcome hs⟩

theorem reaches_allInv (cfg : Pipeline) (acts : List Action) (s : State)
    (h : Reaches cfg acts s) : AllInv cfg s :=
  reaches_invariant cfg (AllInv cfg) (allInv_init cfg) (allInv_step cfg) acts s h

end LargeFile

/-! ## The completion manifest -/

theorem foldl_append_init (l : List String) (a : String) :
    l.foldl (fun acc x => acc ++ x) a = a ++ l.foldl (fun acc x => acc ++ x) "" := by
  induction l generalizing a with
  | nil => simp
  | cons x rest ih =>
    simp only [List.foldl_cons]
    rw [ih (a ++ x), ih ("" ++ x), String.empty_append, String.append_assoc]

theorem foldl_entries (l : List (Nat × String)) (a : String) :
    l.foldl (fun acc p => acc ++ partEntry p.1 p.2) a =
      a ++ String.join (l.map fun p => partEntry p.1 p.2) := by
  unfold String.join
  induction l generalizing a with
  | nil => simp
  | cons x rest ih =>
    simp only [List.foldl_cons, List.map_cons]
    rw [ih, foldl_append_init _ ("" ++ partEntry x.1 x.2), String.empty_append,
      String.append_assoc]

theorem enum_entries (l : List String) :
    (l.enum.map fun p => partEntry p.1 p.2) =
      (List.range l.length).map fun k => partEntry k (l.getD k "") := by
  apply List.ext_getElem
  · simp
  · intro i h1 h2
    simp only [List.length_map, List.enum_length] at h1
    simp [List.getElem_enum, List.getD_eq_getElem?_getD, List.getElem?_eq_getElem h1]

/-- The body built for CompleteUpload, written out: the opening tag, the
`<Part>` elements of the slots in index order, the closing tag. -/
theorem completeUploadInfo_eq (l : List String) :
    completeUploadInfo l =
      "<CompleteMultipartUpload>" ++
        String.join ((List.range l.length).map fun k =>
          "<Part><PartNumber>" ++ toString (k + 1) ++ "</PartNumber><ETag>" ++ l.getD k "" ++
            "</ETag></Part>") ++
        "</CompleteMultipartUpload>" := by
  unfold completeUploadInfo
  rw [foldl_entries, enum_entries]
  rfl

namespace LargeFile

theorem reaches_finalState (cfg : Pipeline) (acts : List Action)
    (h : (exec cfg (init cfg) acts).isSome = true) :
    Reaches cfg acts (finalState cfg acts) := by
  unfold Reaches finalState
  cases hx : exec cfg (init cfg) acts with
  | none => rw [hx] at h; exact absurd h (by simp)
  | some s => rfl

/-- C1 (counterexample). In the run `onePartFails` InitUpload succeeds and the
only part fails on all three attempts: the call returns the part error, and
the requests it has issued are InitUpload and three UploadPart, no
AbortUpload. -/
theorem C1_counterexample :
    (exec onePart (init onePart) onePartFails).map (fun s => (s.coord, s.result, s.trace)) =
      some (.returned, some (.err "StatusCode: 500"),
        [.InitUpload (.ok "upload-1"), .go 0 false,
          .Part 1 (.err "StatusCode: 500"), .Part 1 (.err "StatusCode: 500"),
          .Part 1 (.err "StatusCode: 500")]) ∧
    (finalState onePart onePartFails).trace.any isCancelPart = false := by
  constructor <;> decide

/-- C1 (amended). No run of `UploadLargeFile` or `CopyLargeFile` issues an
AbortUpload (CancelPart) request; when InitUpload succeeded and the pipeline
ends in failure (the error variable is set when the workers have been
joined), the call returns that error, having issued no CompleteUpload. -/
theorem C1_failure_returns_error_without_abort (cfg : Pipeline) (acts : List Action)
    (s : State) (h : Reaches cfg acts s) :
    s.trace.any isCancelPart = false ∧
    (∀ v e, s.coord = .returned → Event.InitUpload (.ok v) ∈ s.trace → s.partErr = some e →
      s.result = some (.err e) ∧ s.trace.any isCompleteUpload = false) := by
  have hall := reaches_allInv cfg acts s h
  constructor
  · rw [List.any_eq_false]
    intro ev hev
    rw [hall.noCancel ev hev]
    simp
  · intro v e hc hinit he
    rcases hall.outcome.done hc with ⟨e1, _, ht⟩ | ⟨e1, he1, hr, hno⟩ | ⟨hnone, _⟩
    · rw [ht] at hinit
      simp at hinit
    · rw [he] at he1
      injection he1 with he1
      subst he1
      refine ⟨hr, ?_⟩
      rw [List.any_eq_false]
      intro ev hev
      rw [hno ev hev]
      simp
    · rw [he] at hnone
      exact absurd hnone (by simp)

/-- Witness of C1 (amended): the run `onePartFails`. -/
theorem C1_failure_returns_error_without_abort_witness :
    Reaches onePart onePartFails (finalState onePart onePartFails) ∧
    (finalState onePart onePartFails).trace.any isCancelPart = false ∧
    (finalState onePart onePartFails).result = some (.err "StatusCode: 500") ∧
    (finalState onePart onePartFails).trace.any isCompleteUpload = false :=
  ⟨reaches_finalState onePart onePartFails (by decide),
    (C1_failure_returns_error_without_abort onePart onePartFails _
      (reaches_finalState onePart onePartFails (by decide))).1,
    ((C1_failure_returns_error_without_abort onePart onePartFails _
      (reaches_finalState onePart onePartFails (by decide))).2 "upload-1" "StatusCode: 500"
      (by decide) (by decide) (by decide)).1,
    ((C1_failure_returns_error_without_abort onePart onePartFails _
      (reaches_finalState onePart onePartFails (by decide))).2 "upload-1" "StatusCode: 500"
      (by decide) (by decide) (by decide)).2⟩

/-- Whenever `UploadLargeFile` or `CopyLargeFile` with `N` parts issues
CompleteUpload, the body is the opening tag, then for `k = 1, ..., N` in
ascending order the element `<Part><PartNumber>k</PartNumber><ETag>e_k</ETag>
</Part>`, then the closing tag, each part number once, whatever the schedule;
`e_k` is the ETag returned by the successful request of part `k`, and is empty
for a part none of whose requests succeeded. -/
theorem complete_manifest (cfg : Pipeline) (acts : List Action) (s : State)
    (h : Reaches cfg acts s) (body : String) (r : Resp)
    (hc : Event.CompleteUpload body r ∈ s.trace) :
    ∃ etags : List String, etags.length = cfg.total ∧
      body = "<CompleteMultipartUpload>" ++
        String.join ((List.range cfg.total).map fun k =>
          "<Part><PartNumber>" ++ toString (k + 1) ++ "</PartNumber><ETag>" ++
            etags.getD k "" ++ "</ETag></Part>") ++
        "</CompleteMultipartUpload>" ∧
      (∀ k e, Event.Part (k + 1) (.ok e) ∈ s.trace → etags[k]? = some e) ∧
      (∀ k, k < cfg.total → (∀ e, Event.Part (k + 1) (.ok e) ∉ s.trace) →
        etags[k]? = some "") := by
  have hall := reaches_allInv cfg acts s h
  have hret : s.coord = .returned := by
    by_contra hcon
    have := (hall.outcome.running hcon).2 _ hc
    simp [isCompleteUpload] at this
  refine ⟨s.uploadPartList, hall.inv.len, ?_, ?_, ?_⟩
  · rcases hall.outcome.done hret with ⟨e1, _, ht⟩ | ⟨e1, _, _, hno⟩ | ⟨_, r1, _, hiff⟩
    · rw [ht] at hc
      simp at hc
    · have := hno _ hc
      simp [isCompleteUpload] at this
    · rw [((hiff body r).mp hc).1, completeUploadInfo_eq, hall.inv.len]
  · intro k e hm
    exact (hall.okSlot k e hm).1
  · intro k hk hno
    rcases hall.slotFilled k hk with h1 | ⟨e, he⟩
    · exact h1
    · exact absurd he (hno e)

set_option maxRecDepth 16000 in
/-- In the run `reverseOrder` part 2 finishes before part 1 and the manifest
lists part 1 with its ETag first. -/
theorem complete_manifest_example :
    Reaches twoParts reverseOrder (finalState twoParts reverseOrder) ∧
    Event.CompleteUpload
      "<CompleteMultipartUpload><Part><PartNumber>1</PartNumber><ETag>etag-a</ETag></Part><Part><PartNumber>2</PartNumber><ETag>etag-b</ETag></Part></CompleteMultipartUpload>"
      (.ok "done") ∈ (finalState twoParts reverseOrder).trace ∧
    ∃ etags : List String, etags.length = twoParts.total ∧
      "<CompleteMultipartUpload><Part><PartNumber>1</PartNumber><ETag>etag-a</ETag></Part><Part><PartNumber>2</PartNumber><ETag>etag-b</ETag></Part></CompleteMultipartUpload>" =
        "<CompleteMultipartUpload>" ++
        String.join ((List.range twoParts.total).map fun k =>
          "<Part><PartNumber>" ++ toString (k + 1) ++ "</PartNumber><ETag>" ++
            etags.getD k "" ++ "</ETag></Part>") ++
        "</CompleteMultipartUpload>" ∧
      (∀ k e, Event.Part (k + 1) (.ok e) ∈ (finalState twoParts reverseOrder).trace →
        etags[k]? = some e) ∧
      (∀ k, k < twoParts.total →
        (∀ e, Event.Part (k + 1) (.ok e) ∉ (finalState twoParts reverseOrder).trace) →
        etags[k]? = some "") :=
  ⟨reaches_finalState twoParts reverseOrder (by decide), by decide,
    complete_manifest twoParts reverseOrder _
      (reaches_finalState twoParts reverseOrder (by decide))
      "<CompleteMultipartUpload><Part><PartNumber>1</PartNumber><ETag>etag-a</ETag></Part><Part><PartNumber>2</PartNumber><ETag>etag-b</ETag></Part></CompleteMultipartUpload>"
      (.ok "done") (by decide)⟩

set_option maxRecDepth 16000 in
/-- C5 (the code at the failing input). In the run `manifestGap` of two parts
with three attempts allowed, part 2 fails on each of its attempts and part 1
succeeds afterwards: CompleteUpload is issued, and its body lists part 2 with
an empty ETag, which no attempt for part 2 has returned; no attempt for part 2
was successful. -/
theorem C5_manifest_with_empty_etag :
    (exec twoParts (init twoParts) manifestGap).map (fun s => (s.result, s.trace)) =
      some (some (.ok "done"),
        [.InitUpload (.ok "upload-1"), .go 0 false, .go 1 false,
          .Part 2 (.err "StatusCode: 500"), .Part 2 (.err "StatusCode: 500"),
          .Part 2 (.err "StatusCode: 500"), .Part 1 (.ok "etag-a"), .percent 0, .percent 1,
          .CompleteUpload
            "<CompleteMultipartUpload><Part><PartNumber>1</PartNumber><ETag>etag-a</ETag></Part><Part><PartNumber>2</PartNumber><ETag></ETag></Part></CompleteMultipartUpload>"
            (.ok "done")]) := by
  decide

set_option maxRecDepth 16000 in
/-- C6 (the code at the failing input). In the run `failThenSucceed` part 1
fails on each of its three attempts and part 2 succeeds afterwards: the call
does not return an error, it issues CompleteUpload with an empty ETag for
part 1 and returns the answer of that request. -/
theorem C6_failure_erased_by_later_success :
    (exec twoParts (init twoParts) failThenSucceed).map
        (fun s => (s.coord, s.partErr, s.result, s.trace)) =
      some (.returned, none, some (.ok "done"),
        [.InitUpload (.ok "upload-1"), .go 0 false, .go 1 false,
          .Part 1 (.err "StatusCode: 500"), .Part 1 (.err "StatusCode: 500"),
          .Part 1 (.err "StatusCode: 500"), .Part 2 (.ok "etag-b"), .percent 1, .percent 0,
          .CompleteUpload
            "<CompleteMultipartUpload><Part><PartNumber>1</PartNumber><ETag></ETag></Part><Part><PartNumber>2</PartNumber><ETag>etag-b</ETag></Part></CompleteMultipartUpload>"
            (.ok "done")]) := by
  decide

/-- C7 (counterexample). In the run `lateStart` the worker of part 1 has set
the fail-fast flag, and the coordinator, which was waiting for the pool slot,
then starts the worker of part 2: the start is recorded with the flag set. -/
theorem C7_counterexample :
    (exec poolOfOne (init poolOfOne) lateStart).map (fun s => (s.uploadExit, s.trace)) =
      some (true,
        [.InitUpload (.ok "upload-1"), .go 0 false, .Part 1 (.err "StatusCode: 500"),
          .go 1 true]) := by
  decide

/-- C7 (amended). In every run of the pipeline at most one worker is started
after the fail-fast flag has been set: the coordinator tests the flag at the
loop head, so only the part that had passed that test and was waiting for a
pool slot can still be started. -/
theorem C7_at_most_one_late_start (cfg : Pipeline) (acts : List Action) (s : State)
    (h : Reaches cfg acts s) : lateStarts s.trace ≤ 1 :=
  (reaches_allInv cfg acts s h).late.1

/-- Witness of C7 (amended): the run `lateStart` has exactly one late start. -/
theorem C7_at_most_one_late_start_witness :
    Reaches poolOfOne lateStart (finalState poolOfOne lateStart) ∧
    lateStarts (finalState poolOfOne lateStart).trace = 1 ∧
    lateStarts (finalState poolOfOne lateStart).trace ≤ 1 :=
  ⟨reaches_finalState poolOfOne lateStart (by decide), by decide,
    C7_at_most_one_late_start poolOfOne lateStart _
      (reaches_finalState poolOfOne lateStart (by decide))⟩

end LargeFile

/-! ## The retry loops -/

theorem retryFrom_counts (pass : Nat → Pass) (fuel i : Nat) (out : LoopOut) :
    (retryFrom pass fuel i out).passes ≤ out.passes + fuel ∧
    (retryFrom pass fuel i out).requests.length + out.passes ≤
      (retryFrom pass fuel i out).passes + out.requests.length := by
  induction fuel generalizing i out with
  | zero => simp only [retryFrom]; omega
  | succ n ih =>
    unfold retryFrom
    split
    · simp only; omega
    · rename_i e _
      have := ih (i + 1) { out with passes := out.passes + 1, err := some e }
      simp only at this ⊢
      omega
    · rename_i e _
      have := ih (i + 1)
        { out with requests := out.requests ++ [.err e], passes := out.passes + 1, err := some e }
      simp only [List.length_append, List.length_singleton] at this ⊢
      omega
    · simp only [List.length_append, List.length_singleton]; omega

theorem retryFrom_requests (pass : Nat → Pass) (fuel i : Nat) (out : LoopOut) :
    ∃ rs : List Resp, (retryFrom pass fuel i out).requests = out.requests ++ rs ∧
      rs.dropLast.all Resp.isErr = true := by
  induction fuel generalizing i out with
  | zero => exact ⟨[], by simp [retryFrom]⟩
  | succ n ih =>
    unfold retryFrom
    split
    · exact ⟨[], by simp⟩
    · rename_i e _
      obtain ⟨rs, h1, h2⟩ := ih (i + 1) { out with passes := out.passes + 1, err := some e }
      exact ⟨rs, h1, h2⟩
    · rename_i e _
      obtain ⟨rs, h1, h2⟩ := ih (i + 1)
        { out with requests := out.requests ++ [.err e], passes := out.passes + 1, err := some e }
      refine ⟨.err e :: rs, by simpa using h1, ?_⟩
      cases rs with
      | nil => simp
      | cons r rest =>
        rw [List.dropLast_cons_of_ne_nil (by simp)]
        simp only [List.all_cons, Resp.isErr, Bool.true_and]
        exact h2
    · rename_i v _
      exact ⟨[.ok v], by simp⟩

theorem retryFrom_err (pass : Nat → Pass) (fuel i : Nat) (out : LoopOut) :
    (retryFrom pass fuel i out).err.isSome = true ↔
      ((∀ j, i ≤ j → j < i + fuel → (pass j).failed = true) ∧
        (fuel = 0 → out.err.isSome = true)) ∨
      ∃ j, i ≤ j ∧ j < i + fuel ∧ pass j = .canceled ∧
        ∀ j1, i ≤ j1 → j1 < j → (pass j1).failed = true := by
  induction fuel generalizing i out with
  | zero =>
    simp only [retryFrom, Nat.add_zero, true_implies]
    constructor
    · intro h
      exact Or.inl ⟨fun j h1 h2 => by omega, h⟩
    · rintro (⟨_, h⟩ | ⟨j, h1, h2, _⟩)
      · exact h
      · omega
  | succ n ih =>
    have hshift : ∀ (e : String) (out1 : LoopOut), out1.err = some e →
        (pass i).failed = true →
        ((retryFrom pass n (i + 1) out1).err.isSome = true ↔
          ((∀ j, i ≤ j → j < i + (n + 1) → (pass j).failed = true) ∧
            (n + 1 = 0 → out.err.isSome = true)) ∨
          ∃ j, i ≤ j ∧ j < i + (n + 1) ∧ pass j = .canceled ∧
            ∀ j1, i ≤ j1 → j1 < j → (pass j1).failed = true) := by
      intro e out1 he hf
      rw [ih (i + 1) out1]
      constructor
      · rintro (⟨h1, _⟩ | ⟨j, h1, h2, h3, h4⟩)
        · left
          refine ⟨fun j hj1 hj2 => ?_, fun hcon => by omega⟩
          by_cases hji : j = i
          · subst hji; exact hf
          · exact h1 j (by omega) (by omega)
        · right
          refine ⟨j, by omega, by omega, h3, fun j1 hj1 hj2 => ?_⟩
          by_cases hji : j1 = i
          · subst hji; exact hf
          · exact h4 j1 (by omega) hj2
      · rintro (⟨h1, _⟩ | ⟨j, h1, h2, h3, h4⟩)
        · left
          exact ⟨fun j hj1 hj2 => h1 j (by omega) (by omega), fun _ => by simp [he]⟩
        · right
          have hji : j ≠ i := by
            intro hcon
            subst hcon
            rw [h3] at hf
            exact absurd hf (by simp [Pass.failed])
          exact ⟨j, by omega, by omega, h3, fun j1 hj1 hj2 => h4 j1 (by omega) hj2⟩
    unfold retryFrom
    split
    · rename_i hp
      simp only [Option.isSome_some, true_iff]
      right
      exact ⟨i, le_refl i, by omega, hp, fun j1 h1 h2 => by omega⟩
    · rename_i e hp
      exact hshift e _ rfl (by simp [hp, Pass.failed])
    · rename_i e hp
      exact hshift e _ rfl (by simp [hp, Pass.failed])
    · rename_i v hp
      simp only [Option.isSome_none, Bool.false_eq_true, false_iff, not_or, not_and, not_exists]
      constructor
      · intro h1
        have := h1 i (le_refl i) (by omega)
        rw [hp] at this
        exact absurd this (by simp [Pass.failed])
      · intro j h1 h2 h3 h4
        by_cases hji : j = i
        · subst hji
          rw [hp] at h3
          exact absurd h3 (by simp)
        · have := h4 i (le_refl i) (by omega)
          rw [hp] at this
          exact absurd this (by simp [Pass.failed])

theorem retryLoop_err (maxRetryNum : Nat) (hmax : 1 ≤ maxRetryNum) (pass : Nat → Pass)
    (err0 : Option String) :
    (retryLoop maxRetryNum pass err0).err.isSome = true ↔
      (∀ i, i < maxRetryNum → (pass i).failed = true) ∨
      ∃ j, j < maxRetryNum ∧ pass j = .canceled ∧ ∀ i, i < j → (pass i).failed = true := by
  unfold retryLoop
  rw [retryFrom_err pass maxRetryNum 0]
  constructor
  · rintro (⟨h5, _⟩ | ⟨j, _, h6, h7, h8⟩)
    · exact Or.inl fun i hi => h5 i (Nat.zero_le i) (by omega)
    · exact Or.inr ⟨j, by omega, h7, fun i hi => h8 i (Nat.zero_le i) hi⟩
  · rintro (h5 | ⟨j, h6, h7, h8⟩)
    · exact Or.inl ⟨fun i _ hi => h5 i (by omega), fun hcon => by omega⟩
    · exact Or.inr ⟨j, Nat.zero_le j, by omega, h7, fun i _ hi => h8 i hi⟩

theorem guardedPass_failed (loc : Nat → Option String) (resp : Nat → Resp) (i : Nat) :
    (guardedPass loc resp i).failed = true ↔ (loc i).isSome = true ∨ (resp i).isErr = true := by
  unfold guardedPass requestPass
  cases loc i <;> cases resp i <;> simp [Pass.failed, Resp.isErr]

theorem guardedPass_ne_canceled (loc : Nat → Option String) (resp : Nat → Resp) (i : Nat) :
    guardedPass loc resp i ≠ .canceled := by
  unfold guardedPass requestPass
  cases loc i <;> cases resp i <;> simp

/-- The loops with a local step in front of the request (`Cat` in
`SyncLargeFile`, `Put` in `UploadFromDir`, and `UploadPart` in
`SyncLargeFile` whenever that loop ends) have no cancelled pass: what they
store last is an error exactly when every pass failed, at the local step or
at the request. -/
theorem guarded_loop_err (maxRetryNum : Nat) (hmax : 1 ≤ maxRetryNum)
    (loc : Nat → Option String) (resp : Nat → Resp) (err0 : Option String) :
    (retryLoop maxRetryNum (guardedPass loc resp) err0).err.isSome = true ↔
      ∀ i, i < maxRetryNum → (loc i).isSome = true ∨ (resp i).isErr = true := by
  rw [retryLoop_err maxRetryNum hmax]
  constructor
  · rintro (h | ⟨j, _, h, _⟩)
    · exact fun i hi => (guardedPass_failed loc resp i).mp (h i hi)
    · exact absurd h (guardedPass_ne_canceled loc resp j)
  · exact fun h => Or.inl fun i hi => (guardedPass_failed loc resp i).mpr (h i hi)

/-- The loops whose body is the request alone (`Delete` in `MoveLargeFile`):
what they store last is an error exactly when all `maxRetryNum` requests
failed. -/
theorem request_loop_err (maxRetryNum : Nat) (hmax : 1 ≤ maxRetryNum)
    (resp : Nat → Resp) (err0 : Option String) :
    (retryLoop maxRetryNum (requestPass resp) err0).err.isSome = true ↔
      ∀ i, i < maxRetryNum → (resp i).isErr = true := by
  have h := guarded_loop_err maxRetryNum hmax (fun _ => none) resp err0
  have e : guardedPass (fun _ => none) resp = requestPass resp := by
    funext i; rfl
  rw [e] at h
  rw [h]
  simp

/-! ## Closed evaluations and options -/

set_option maxRecDepth 16000 in
/-- C2 (the code at the failing input). `SyncLargeFile` for a source object of
10 MiB with a part size of 5 MiB (two parts), every request succeeding: the
call returns success, but only part 1 is visited; no ranged download and no
UploadPart is issued for part 2, and the manifest carries an empty ETag at
position 2. -/
theorem C2_sync_skips_every_other_part :
    totalParts 10485760 5242880 = 2 ∧
    SyncLargeFile defaultClient Sync.allSucceed 10485760 "5242880" =
      { result := some (.ok "done")
        trace :=
          [.InitUpload (.ok "upload-1"), .go 0 false, .Cat "bytes=0-5242879" (.ok ""),
            .Part 1 (.ok "etag-1"), .percent 0,
            .CompleteUpload
              "<CompleteMultipartUpload><Part><PartNumber>1</PartNumber><ETag>etag-1</ETag></Part><Part><PartNumber>2</PartNumber><ETag></ETag></Part></CompleteMultipartUpload>"
              (.ok "done")]
        files := [] } := by
  constructor
  · decide
  · rfl

/-- C3 (the code at the failing input). For an object of `S = 2·P - 1` bytes
with `P` = 5 MiB the code uses 2 parts, and the range computed for the last
part ends at `S`, not at `S - 1 = min(2·P, S) - 1`; the same for `S = 3`,
`P = 2`. -/
theorem C3_last_range_one_past_the_end :
    totalParts 10485759 5242880 = 2 ∧
    partRange 10485759 5242880 1 = (5242880, 10485759) ∧
    (partRange 10485759 5242880 1).2 ≠ min (2 * 5242880) 10485759 - 1 ∧
    partRangeHeader 10485759 5242880 1 = "bytes=5242880-10485759" ∧
    totalParts 3 2 = 2 ∧ partRange 3 2 1 = (2, 3) := by
  decide

/-- C9 (counterexample). With the default limits 1 and 10 and 100 parts, the
option `thread_num = "0"` gives a pool of 10, where the clamp of the claim
gives 1. -/
theorem C9_counterexample :
    poolCapacity defaultClient "0" 100 = 10 ∧
    min (specClamp (Atoi "0") defaultClient.threadMinNum defaultClient.threadMaxNum) 100 = 1 := by
  decide

theorem threadNumOption_eq (c : Client) (thread_num : String) :
    threadNumOption c thread_num =
      (if thread_num = "" ∨ Atoi thread_num < c.threadMinNum then c.threadMaxNum
        else specClamp (Atoi thread_num) c.threadMinNum c.threadMaxNum) := by
  unfold threadNumOption specClamp
  by_cases h1 : thread_num = ""
  · simp [h1]
  · by_cases h2 : Atoi thread_num < c.threadMinNum
    · have h4 : ¬ (Atoi thread_num ≤ c.threadMaxNum ∧ Atoi thread_num ≥ c.threadMinNum) := by
        omega
      simp [h1, h2, h4]
    · by_cases h3 : Atoi thread_num ≤ c.threadMaxNum
      · have h4 : Atoi thread_num ≤ c.threadMaxNum ∧ Atoi thread_num ≥ c.threadMinNum := by
          omega
        have h5 : ¬ Atoi thread_num > c.threadMaxNum := by omega
        simp [h1, h2, h4, h5]
      · have h4 : ¬ (Atoi thread_num ≤ c.threadMaxNum ∧ Atoi thread_num ≥ c.threadMinNum) := by
          omega
        have h5 : Atoi thread_num > c.threadMaxNum := by omega
        simp [h1, h2, h4, h5]

theorem ite_lt_eq_min (total x : Int) : (if total < x then total else x) = min x total := by
  split
  · rw [min_eq_right (by omega)]
  · rw [min_eq_left (by omega)]

/-- C9 (amended). For every value of the option `thread_num` the pool
capacity of `UploadLargeFile`, `CopyLargeFile` and `SyncLargeFile` is
`min(e, total)`, where `e` is the clamp of the requested value when the option
is not empty and its integer value (0 for a string that is not a number) is
at least `threadMinNum`, and `e` is `threadMaxNum` otherwise: a value above
the maximum becomes the maximum, a value below the minimum becomes the
maximum as well. -/
theorem C9_pool_capacity (c : Client) (thread_num : String) (total : Int) :
    poolCapacity c thread_num total =
      min (if thread_num = "" ∨ Atoi thread_num < c.threadMinNum then c.threadMaxNum
        else specClamp (Atoi thread_num) c.threadMinNum c.threadMaxNum) total := by
  unfold poolCapacity
  simp only
  rw [ite_lt_eq_min, threadNumOption_eq]

/-- C10 (the code at the failing input). With `full_path = "true"`, source
prefix "src/", target prefix "dst" and the listed key "src/a/src/b.txt" the
target key is "dst/a/b.txt": the second occurrence of the source prefix is
removed as well, where the claim gives "dst/a/src/b.txt". The examples of the
spec hold: "src/a/b.txt" gives "dst/a/b.txt", and "dst/b.txt" without
`full_path`. -/
theorem C10_full_path_removes_every_occurrence :
    targetObject (normalizePrefix "dst") "src/" "src/a/src/b.txt" "true" = "dst/a/b.txt" ∧
    targetObject (normalizePrefix "dst") "src/" "src/a/src/b.txt" "true" ≠ "dst/a/src/b.txt" ∧
    targetObject (normalizePrefix "dst/") "src/" "src/a/b.txt" "true" = "dst/a/b.txt" ∧
    targetObject (normalizePrefix "dst/") "src/" "src/a/b.txt" "" = "dst/b.txt" := by
  decide

/-! ## Suffix filters, region, status, lifecycle -/

theorem allowedLoop_false (fileName : String) (l : List String) :
    allowedLoop fileName l false = true ↔
      ∃ item ∈ l, item ≠ "" ∧ HasSuffix (ToLower fileName) item = true := by
  induction l with
  | nil => simp [allowedLoop]
  | cons x rest ih =>
    unfold allowedLoop
    by_cases hx : x = ""
    · simp [hx, ih]
    · by_cases hs : HasSuffix (ToLower fileName) x = true
      · simp only [hx, if_false, hs, if_true, true_iff]
        exact ⟨x, List.mem_cons_self x rest, hx, hs⟩
      · simp only [hx, if_false, hs, ih, List.mem_cons, Bool.false_eq_true]
        constructor
        · rintro ⟨item, hm, h1, h2⟩
          exact ⟨item, Or.inr hm, h1, h2⟩
        · rintro ⟨item, hm | hm, h1, h2⟩
          · subst hm
            exact absurd h2 hs
          · exact ⟨item, hm, h1, h2⟩

theorem allowedLoop_true (fileName : String) (l : List String) :
    allowedLoop fileName l true = true ↔
      (∀ item ∈ l, item = "") ∨
        ∃ item ∈ l, item ≠ "" ∧ HasSuffix (ToLower fileName) item = true := by
  induction l with
  | nil => simp [allowedLoop]
  | cons x rest ih =>
    unfold allowedLoop
    by_cases hx : x = ""
    · simp only [hx, if_true, ih, List.mem_cons, forall_eq_or_imp, true_and, ne_eq]
      constructor
      · rintro (h | ⟨item, hm, h1, h2⟩)
        · exact Or.inl h
        · exact Or.inr ⟨item, Or.inr hm, h1, h2⟩
      · rintro (h | ⟨item, hm | hm, h1, h2⟩)
        · exact Or.inl h
        · exact absurd hm h1
        · exact Or.inr ⟨item, hm, h1, h2⟩
    · by_cases hs : HasSuffix (ToLower fileName) x = true
      · simp only [hx, if_false, hs, if_true, true_iff]
        exact Or.inr ⟨x, List.mem_cons_self x rest, hx, hs⟩
      · simp only [hx, if_false, hs, Bool.false_eq_true, allowedLoop_false]
        constructor
        · rintro ⟨item, hm, h1, h2⟩
          exact Or.inr ⟨item, List.mem_cons_of_mem x hm, h1, h2⟩
        · rintro (h | ⟨item, hm, h1, h2⟩)
          · exact absurd (h x (List.mem_cons_self x rest)) hx
          · rcases List.mem_cons.mp hm with hm | hm
            · subst hm
              exact absurd h2 hs
            · exact ⟨item, hm, h1, h2⟩

/-- What the filter of `WalkDir` decides: a file is put into the list iff the
option is empty or holds only empty items, or the lower-cased file name ends
with one of the items as they are written in the option. -/
theorem walkAllowed_iff (suffix fileName : String) :
    walkAllowed suffix fileName = true ↔
      suffix = "" ∨ (∀ item ∈ Split suffix ',', item = "") ∨
        ∃ item ∈ Split suffix ',', item ≠ "" ∧ HasSuffix (ToLower fileName) item = true := by
  unfold walkAllowed
  by_cases h : suffix = ""
  · simp [h]
  · simp only [ne_eq, h, not_false_eq_true, if_true, allowedLoop_true, false_or]

/-- C13 (the code at the failing input). With the suffix option ".TXT" the
file "a.txt" is left out by `WalkDir`: the file name is lower-cased, the
suffix is not. With the option ".txt" the file "A.TXT" is included. -/
theorem C13_uppercase_suffix_never_matches :
    walkAllowed ".TXT" "a.txt" = false ∧ walkAllowed ".TXT" "A.TXT" = false ∧
    walkAllowed ".txt" "A.TXT" = true ∧ walkAllowed ".txt" "a.txt" = true := by
  decide

/-- C18 (the code at the failing input). For the host "localhost", which has
no dot, `strings.Split(c.host, ".")[1]` is out of range: `CreateBucket`
panics and no region, not "us-east-1" either, is derived. For
"s3.us-east-1.amazonaws.com" the region is the second label. -/
theorem C18_region_index_out_of_range :
    region "localhost" = none ∧ createBucketContent "localhost" = none ∧
    region "s3.us-east-1.amazonaws.com" = some "us-east-1" := by
  decide

/-- For every response status other than 200, `Put`, `Copy`, `Head`,
`InitUpload`, `UploadPart`, `CopyPart`, `CompleteUpload` and `ListObject`
return a failure, and `Cat` returns a failure unless the status is 206;
`Delete`, `CancelPart` and `DeleteLifecycle` do not look at the status and
return a success value for every response. -/
theorem status_classification (code : String) (xmlOk : Bool) (h : code ≠ "200") :
    (∀ op ∈ [Op.Put, Op.Copy, Op.Head, Op.InitUpload, Op.UploadPart, Op.CopyPart,
        Op.CompleteUpload, Op.ListObject], op.succeeds (.status code) xmlOk = false) ∧
    (Op.succeeds .Cat (.status code) xmlOk = true ↔ code = "206") ∧
    (∀ op ∈ [Op.Delete, Op.CancelPart, Op.DeleteLifecycle],
      op.succeeds (.status code) xmlOk = true) := by
  refine ⟨?_, ?_, ?_⟩
  · intro op hop
    simp only [List.mem_cons, List.mem_singleton, List.not_mem_nil, or_false] at hop
    rcases hop with rfl | rfl | rfl | rfl | rfl | rfl | rfl | rfl <;>
      simp [Op.succeeds, checked200, checked200Xml, h]
  · simp [Op.succeeds, checkedCat, h]
  · intro op hop
    simp only [List.mem_cons, List.mem_singleton, List.not_mem_nil, or_false] at hop
    rcases hop with rfl | rfl | rfl <;> simp [Op.succeeds, unchecked]

/-- C16 (the code at the failing input). `Delete` answered with status 500,
`CancelPart` answered with status 404 and `DeleteLifecycle` answered with
status 403 return a success value, where `Head`, `Put` and `CompleteUpload`
return a failure for the same statuses. -/
theorem C16_status_not_tested :
    Op.succeeds .Delete (.status "500") true = true ∧
    Op.succeeds .CancelPart (.status "404") true = true ∧
    Op.succeeds .DeleteLifecycle (.status "403") true = true ∧
    Op.succeeds .Head (.status "500") true = false ∧
    Op.succeeds .Put (.status "404") true = false ∧
    Op.succeeds .CompleteUpload (.status "403") true = false := by
  decide

theorem join_append_singleton (l : List String) (x : String) :
    String.join (l ++ [x]) = String.join l ++ x := by
  unfold String.join
  rw [List.foldl_append]
  rfl

theorem foldl_rules (rules : List LifecycleRule) (a : String) :
    rules.foldl (fun content v => content ++ existingRule v) a =
      a ++ String.join (rules.map existingRule) := by
  unfold String.join
  induction rules generalizing a with
  | nil => simp
  | cons x rest ih =>
    simp only [List.foldl_cons, List.map_cons]
    rw [ih, foldl_append_init _ ("" ++ existingRule x), String.empty_append,
      String.append_assoc]

set_option maxRecDepth 16000 in
/-- C19. For every rule list returned by `GetLifecycle` (taken as empty when
the fetch fails) and every prefix and expiration, the document `SetLifecycle`
puts is the opening tag, the existing rules in their order, each with its own
ID, status Enabled, its prefix and its days, then one new rule with the UUID,
status Enabled, the given prefix and expiration, then the closing tag: it
holds `n + 1` rules, none dropped and none merged. -/
theorem C19_lifecycle_document (lifecycle : Option (List LifecycleRule))
    (uuid pfx expiration : String) :
    lifecycleContent lifecycle uuid pfx expiration =
      "<LifecycleConfiguration>" ++
        String.join ((lifecycle.getD []).map existingRule ++ [newRule uuid pfx expiration]) ++
        "</LifecycleConfiguration>" ∧
    ((lifecycle.getD []).map existingRule ++ [newRule uuid pfx expiration]).length =
      (lifecycle.getD []).length + 1 ∧
    existingRule { ID := "r1", FilterPrefix := "logs/", ExpirationDays := 30 } =
      "<Rule><ID>r1</ID><Status>Enabled</Status><Filter><Prefix>logs/</Prefix></Filter><Expiration><Days>30</Days></Expiration></Rule>" ∧
    newRule "6ba7b810-9dad-41d1-80b4-00c04fd430c8" "tmp/" "7" =
      "<Rule><ID>6ba7b810-9dad-41d1-80b4-00c04fd430c8</ID><Status>Enabled</Status><Filter><Prefix>tmp/</Prefix></Filter><Expiration><Days>7</Days></Expiration></Rule>" := by
  refine ⟨?_, by simp, by decide, by decide⟩
  unfold lifecycleContent
  rw [join_append_singleton]
  cases lifecycle with
  | none => simp [String.join, String.append_assoc]
  | some rules =>
    simp only [Option.getD_some]
    rw [foldl_rules]
    simp only [String.append_assoc]

/-! ## The v2 signature -/

namespace V2

theorem lexLe_total (a b : List Char) : lexLe a b = true ∨ lexLe b a = true := by
  induction a generalizing b with
  | nil => left; simp [lexLe]
  | cons x xs ih =>
    cases b with
    | nil => right; simp [lexLe]
    | cons y ys =>
      simp only [lexLe]
      rcases Nat.lt_trichotomy x.toNat y.toNat with h | h | h
      · left; simp [h]
      · have h1 : ¬ x.toNat < y.toNat := by omega
        have h2 : ¬ y.toNat < x.toNat := by omega
        simp only [h1, h2, if_false]
        exact ih ys
      · right; simp [h]

theorem lexLe_trans (a b c : List Char) (h1 : lexLe a b = true) (h2 : lexLe b c = true) :
    lexLe a c = true := by
  induction a generalizing b c with
  | nil => simp [lexLe]
  | cons x xs ih =>
    cases b with
    | nil => simp [lexLe] at h1
    | cons y ys =>
      cases c with
      | nil => simp [lexLe] at h2
      | cons z zs =>
        simp only [lexLe] at h1 h2 ⊢
        by_cases hxy : x.toNat < y.toNat
        · by_cases hyz : y.toNat < z.toNat
          · have : x.toNat < z.toNat := by omega
            simp [this]
          · by_cases hzy : z.toNat < y.toNat
            · simp [hyz, hzy] at h2
            · have : x.toNat < z.toNat := by omega
              simp [this]
        · by_cases hyx : y.toNat < x.toNat
          · simp [hxy, hyx] at h1
          · simp only [hxy, hyx, if_false] at h1
            by_cases hyz : y.toNat < z.toNat
            · have : x.toNat < z.toNat := by omega
              simp [this]
            · by_cases hzy : z.toNat < y.toNat
              · simp [hyz, hzy] at h2
              · simp only [hyz, hzy, if_false] at h2
                have e1 : ¬ x.toNat < z.toNat := by omega
                have e2 : ¬ z.toNat < x.toNat := by omega
                simp only [e1, e2, if_false]
                exact ih ys zs h1 h2

theorem sortStrings_sorted (l : List String) :
    (sortStrings l).Sorted fun a b => lexLe a.data b.data = true := by
  haveI : IsTotal String (fun a b => lexLe a.data b.data = true) :=
    ⟨fun a b => lexLe_total a.data b.data⟩
  haveI : IsTrans String (fun a b => lexLe a.data b.data = true) :=
    ⟨fun a b c => lexLe_trans a.data b.data c.data⟩
  exact List.sorted_insertionSort _ l

theorem sortStrings_perm (l : List String) : (sortStrings l).Perm l :=
  List.perm_insertionSort _ l

theorem signLoop_eq (headers : List (String × String)) (keys : List String) (s : String) :
    signLoop headers keys s = s ++ String.join (keys.map (headerLine headers)) := by
  unfold String.join
  induction keys generalizing s with
  | nil => simp [signLoop]
  | cons k rest ih =>
    simp only [signLoop, List.map_cons, List.foldl_cons]
    rw [foldl_append_init _ ("" ++ headerLine headers k), String.empty_append]
    by_cases hc : Contains k "x-amz-" = true
    · have hk : headerLine headers k = k ++ ":" ++ headerValue headers k ++ "\n" := by
        simp [headerLine, hc]
      rw [if_pos hc, ih, String.append_assoc, hk]
    · have hk : headerLine headers k = headerValue headers k ++ "\n" := by
        simp [headerLine, hc]
      rw [if_neg hc, ih, String.append_assoc, hk]

theorem lexLe_antisymm (a b : List Char) (h1 : lexLe a b = true) (h2 : lexLe b a = true) :
    a = b := by
  induction a generalizing b with
  | nil =>
    cases b with
    | nil => rfl
    | cons y ys => simp [lexLe] at h2
  | cons x xs ih =>
    cases b with
    | nil => simp [lexLe] at h1
    | cons y ys =>
      simp only [lexLe] at h1 h2
      by_cases hxy : x.toNat < y.toNat
      · have hyx : ¬ y.toNat < x.toNat := by omega
        simp [hxy, hyx] at h2
      · by_cases hyx : y.toNat < x.toNat
        · simp [hxy, hyx] at h1
        · simp only [hxy, hyx, if_false] at h1 h2
          have hx : x = y := by
            apply Char.ext
            apply UInt32.ext
            have e : x.toNat = y.toNat := by omega
            exact e
          rw [hx, ih ys h1 h2]

/-- The strict lexicographic order of the code points is contained in the
order `sort.Strings` sorts by. -/
theorem lexLe_of_lex (a b : List Char) (h : List.Lex (fun x y : Char => x < y) a b) :
    lexLe a b = true := by
  induction h with
  | nil => simp [lexLe]
  | cons _ ih => simp [lexLe, ih]
  | rel hr =>
    have : Char.toNat _ < Char.toNat _ := hr
    simp [lexLe, this]

/-- In a map given by its entries, each key once, the value of a key is the
value of its entry. -/
theorem headerValue_of_mem (headers : List (String × String))
    (hnodup : (headers.map Prod.fst).Nodup) (k v : String) (h : (k, v) ∈ headers) :
    headerValue headers k = v := by
  unfold headerValue
  induction headers with
  | nil => simp at h
  | cons p rest ih =>
    obtain ⟨k1, v1⟩ := p
    simp only [List.map_cons, List.nodup_cons, List.mem_map, not_exists, not_and] at hnodup
    rcases List.mem_cons.mp h with h1 | h1
    · simp only [Prod.mk.injEq] at h1
      simp [List.lookup, h1.1, h1.2]
    · have hne : k ≠ k1 := fun e => hnodup.1 (k, v) h1 e
      have hb : (k == k1) = false := by simpa using hne
      simp only [List.lookup, hb]
      exact ih hnodup.2 h1

/-- The sorted key list is the list of the names of any arrangement of the
entries in ascending order. -/
theorem sortStrings_eq (headers pairs : List (String × String)) (hperm : pairs.Perm headers)
    (hsorted : (pairs.map Prod.fst).Sorted fun a b =>
      List.Lex (fun x y : Char => x < y) a.data b.data) :
    sortStrings (headers.map Prod.fst) = pairs.map Prod.fst := by
  haveI : IsAntisymm String (fun a b => lexLe a.data b.data = true) :=
    ⟨fun a b h1 h2 => String.ext (lexLe_antisymm a.data b.data h1 h2)⟩
  have h1 : (sortStrings (headers.map Prod.fst)).Perm (pairs.map Prod.fst) :=
    (sortStrings_perm _).trans (hperm.symm.map Prod.fst)
  have h2 : (pairs.map Prod.fst).Sorted fun a b => lexLe a.data b.data = true :=
    List.Pairwise.imp (fun h => lexLe_of_lex _ _ h) hsorted
  exact List.eq_of_perm_of_sorted h1 (sortStrings_sorted _) h2

/-- C17. For every method, header map (each name once), bucket and object,
`sign` returns "AWS " + access key id + ":" + base64(HMAC-SHA1(secret, S))
with S = method + "\n" + the lines of the headers + "/" + bucket + ("/" +
object when the object is not empty). The lines of the headers are those of
the entries of the map arranged in ascending lexicographic order of their
names (by code points): name + ":" + value + "\n" when the name contains
"x-amz-", and value + "\n" otherwise. -/
theorem C17_v2_sign (hmacEncode : String → String → String) (Base64Encode : String → String)
    (c : Client) (method : String) (headers pairs : List (String × String))
    (bucket object : String) (hnodup : (headers.map Prod.fst).Nodup)
    (hperm : pairs.Perm headers)
    (hsorted : (pairs.map Prod.fst).Sorted fun a b =>
      List.Lex (fun x y : Char => x < y) a.data b.data) :
    sign hmacEncode Base64Encode c method headers bucket object =
      "AWS " ++ c.accessKeyID ++ ":" ++
        Base64Encode (hmacEncode
          (method ++ "\n" ++
            String.join (pairs.map fun p =>
              if "x-amz-".data <:+: p.1.data then p.1 ++ ":" ++ p.2 ++ "\n"
              else p.2 ++ "\n") ++
            "/" ++ bucket ++ (if object = "" then "" else "/" ++ object))
          c.accessKeySecret) := by
  unfold sign stringToSign
  simp only
  rw [sortStrings_eq headers pairs hperm hsorted, signLoop_eq, List.map_map]
  have hl : pairs.map (headerLine headers ∘ Prod.fst) =
      pairs.map fun p =>
        if "x-amz-".data <:+: p.1.data then p.1 ++ ":" ++ p.2 ++ "\n" else p.2 ++ "\n" := by
    apply List.map_congr_left
    intro p hp
    have hv := headerValue_of_mem headers hnodup p.1 p.2 (hperm.subset hp)
    simp only [Function.comp, headerLine, Contains, decide_eq_true_eq, hv]
  rw [hl]
  congr 2
  by_cases hb : bucket = ""
  · by_cases ho : object = ""
    · simp [hb, ho]
    · simp [hb, ho, String.append_assoc]
  · by_cases ho : object = ""
    · simp [hb, ho]
    · simp [hb, ho, String.append_assoc]

/-- Witness of C17: the headers `x-amz-acl`, `Date` and `Content-Md5`, with
HMAC-SHA1 and base64 replaced by functions that show the string signed. -/
theorem C17_v2_sign_witness :
    sign (fun s key => s ++ "|" ++ key) (fun s => s) { accessKeyID := "id", accessKeySecret := "secret" }
        "PUT" signedHeaders "b" "k" =
      "AWS id:PUT\nm\nd\nx-amz-acl:private\n/b/k|secret" ∧
    sign (fun s key => s ++ "|" ++ key) (fun s => s) { accessKeyID := "id", accessKeySecret := "secret" }
        "PUT" signedHeaders "b" "k" =
      "AWS " ++ "id" ++ ":" ++
        ("PUT" ++ "\n" ++
            String.join (sortedHeaders.map fun p =>
              if "x-amz-".data <:+: p.1.data then p.1 ++ ":" ++ p.2 ++ "\n"
              else p.2 ++ "\n") ++
            "/" ++ "b" ++ (if "k" = "" then "" else "/" ++ "k") ++ "|" ++ "secret") :=
  ⟨by decide,
    C17_v2_sign (fun s key => s ++ "|" ++ key) (fun s => s)
      { accessKeyID := "id", accessKeySecret := "secret" } "PUT" signedHeaders sortedHeaders
      "b" "k" (by decide) (by decide) (by decide)⟩

end V2

/-! ## `MoveLargeFile` -/

theorem split_source (bucket key : String) (h : '/' ∉ bucket.data) :
    Split ("/" ++ bucket ++ "/" ++ key) '/' =
      "" :: bucket :: (key.data.splitOn '/').map String.mk := by
  unfold Split
  have hd : ("/" ++ bucket ++ "/" ++ key).data = '/' :: (bucket.data ++ '/' :: key.data) := by
    simp [String.data_append]
  rw [hd, List.splitOn, List.splitOnP_cons]
  simp only [beq_self_eq_true, if_true, List.map_cons]
  have hb : ∀ x ∈ bucket.data, ¬ (x == '/') = true := by
    intro x hx hcon
    simp only [beq_iff_eq] at hcon
    exact h (hcon ▸ hx)
  rw [List.splitOnP_first (fun x => x == '/') bucket.data hb '/' (by simp) key.data]
  rfl

/-- The source "/" + bucket + "/" + key is taken apart into the bucket and
the key again, when the bucket name holds no "/". -/
theorem parseSource_eq (bucket key : String) (h : '/' ∉ bucket.data) :
    parseSource ("/" ++ bucket ++ "/" ++ key) = some (bucket, key) := by
  unfold parseSource
  simp only
  rw [split_source bucket key h]
  simp only [List.getElem?_cons_succ, List.getElem?_cons_zero, List.drop_succ_cons,
    List.drop_zero]
  congr 2
  unfold Join
  have hmap : ((key.data.splitOn '/').map String.mk).map String.data = key.data.splitOn '/' := by
    rw [List.map_map]
    exact List.map_id _
  rw [hmap]
  show String.mk (['/'].intercalate (key.data.splitOn '/')) = key
  rw [List.intercalate_splitOn]

/-- C15: for every bucket, every object and the source "/" + bucket + "/" +
object, `MoveLargeFile` returns an error at once, having issued no HEAD, copy
or delete request. A bucket is a label of the host name (`bucket.host`) and
holds no "/"; the form "/bucket/key" is defined for such names only. -/
theorem C15_move_refuses_same_object (maxRetryNum : Nat) (env : MoveEnv)
    (bucket object : String) (h : '/' ∉ bucket.data) :
    MoveLargeFile maxRetryNum env bucket object ("/" ++ bucket ++ "/" ++ object) =
      some (.err "move soure-object and target-object same not allowed", []) := by
  unfold MoveLargeFile
  rw [parseSource_eq bucket object h]
  simp

/-- Witness of C15: bucket "photos", object "2024/a.jpg". -/
theorem C15_move_refuses_same_object_witness :
    '/' ∉ "photos".data ∧
    MoveLargeFile 3 moveAllSucceed "photos" "2024/a.jpg" ("/" ++ "photos" ++ "/" ++ "2024/a.jpg") =
      some (.err "move soure-object and target-object same not allowed", []) :=
  ⟨by decide, C15_move_refuses_same_object 3 moveAllSucceed "photos" "2024/a.jpg" (by decide)⟩

/-! ## The skip policy and the suffix filter of the directory operations -/

theorem suffixSkipped_empty (key : String) : suffixSkipped "" key = false := by
  simp [suffixSkipped]

/-- The replace block finds the target up to date exactly when the target HEAD
has answered with the size of the source and a time not before that of the
source, provided the source is known: its time is a real time (behind the
zero time) or its size is not 0. -/
theorem replaceSkipped_iff (replace : String) (sourceSize sourceTime : Int)
    (objectHead : Option HeadInfo) (hr : replace ≠ "true")
    (hs : zeroTimeUnix < sourceTime ∨ sourceSize ≠ 0) :
    replaceSkipped replace sourceSize sourceTime objectHead = true ↔
      ∃ t, objectHead = some t ∧ Atoi t.ContentLength = sourceSize ∧
        t.LastModified ≥ sourceTime := by
  unfold replaceSkipped
  rw [if_pos hr]
  cases objectHead with
  | none =>
    have h0 : Atoi "" = 0 := by decide
    simp only [headSize, headTime, h0, reduceCtorEq, false_and, exists_false, iff_false]
    rcases hs with h | h
    · have : ¬ zeroTimeUnix ≥ sourceTime := by omega
      simp [this]
    · simp [h]
  | some t =>
    simp only [headSize, headTime, Option.some.injEq, exists_eq_left']
    by_cases h1 : sourceSize = Atoi t.ContentLength
    · by_cases h2 : t.LastModified ≥ sourceTime
      · simp [h1, h2]
      · simp [h1, h2]
    · have h3 : ¬ Atoi t.ContentLength = sourceSize := fun h => h1 h.symm
      simp [h1, h3]

theorem replaceSkipped_true (sourceSize sourceTime : Int) (objectHead : Option HeadInfo) :
    replaceSkipped "true" sourceSize sourceTime objectHead = false := by
  simp [replaceSkipped]

/-- The skip policy of `CopyAllObject` for an entry whose source HEAD has
answered with a real time, without suffix filter: when the target HEAD has
answered with the same size and a time not before that of the source, the
entry adds 1 to the skip counter and issues no mutation; in every other case,
and always with `replace = "true"`, the copy is issued and the skip counter
is left alone. -/
theorem copyEntry_policy (options : DirOptions) (env : EntryEnv) (h : HeadInfo)
    (bucket pfx sourceBucket sourcePrefix key : String) (hsuf : options.suffix = "")
    (hsrc : env.sourceHead = some h) (htime : zeroTimeUnix < h.LastModified) :
    ((options.replace ≠ "true" ∧ ∃ t, env.objectHead = some t ∧
        Atoi t.ContentLength = Atoi h.ContentLength ∧ t.LastModified ≥ h.LastModified) →
      (copyEntry options env bucket pfx sourceBucket sourcePrefix key).skip = 1 ∧
      (copyEntry options env bucket pfx sourceBucket sourcePrefix key).calls.any
        Call.isMutation = false) ∧
    (¬ (options.replace ≠ "true" ∧ ∃ t, env.objectHead = some t ∧
        Atoi t.ContentLength = Atoi h.ContentLength ∧ t.LastModified ≥ h.LastModified) →
      (copyEntry options env bucket pfx sourceBucket sourcePrefix key).skip = 0 ∧
      Call.CopyLargeFile bucket (targetObject pfx sourcePrefix key options.full_path)
        ("/" ++ sourceBucket ++ "/" ++ key) ∈
        (copyEntry options env bucket pfx sourceBucket sourcePrefix key).calls) := by
  have hskip : entrySkipped options env key = true ↔
      (options.replace ≠ "true" ∧ ∃ t, env.objectHead = some t ∧
        Atoi t.ContentLength = Atoi h.ContentLength ∧ t.LastModified ≥ h.LastModified) := by
    unfold entrySkipped
    rw [hsuf, suffixSkipped_empty, Bool.false_or, hsrc]
    by_cases hr : options.replace = "true"
    · rw [hr, replaceSkipped_true]
      simp
    · have hk := replaceSkipped_iff options.replace (headSize (some h)) (headTime (some h))
        env.objectHead hr (Or.inl htime)
      rw [hk]
      simp [hr, headSize, headTime]
  constructor
  · intro hc
    have hs := hskip.mpr hc
    unfold copyEntry
    simp only [hs, if_true, true_and]
    unfold entryHeads
    split <;> simp [Call.isMutation]
  · intro hc
    have hs : entrySkipped options env key = false := by
      cases hx : entrySkipped options env key with
      | false => rfl
      | true => exact absurd (hskip.mp hx) hc
    unfold copyEntry
    simp only [hs, Bool.false_eq_true, if_false]
    cases env.CopyLargeFile <;> simp

/-- C11 (the code at the failing input). `CopyAllObject` and `MoveAllObject`
without `replace` and without suffix filter, for a listed key whose source
HEAD fails and whose target HEAD fails (the target does not exist): both
sizes read as 0 and both times as the zero time, so the entry is skipped: it
adds 1 to the skip counter and no copy is issued, although the target HEAD
has reported neither a size nor a time. -/
theorem C11_skip_when_both_heads_fail :
    copyEntry { replace := "", suffix := "", full_path := "true" } headsFail
        "dst" "out/" "src" "in/" "in/a.txt" =
      { calls := [.Head "src" "in/a.txt", .Head "dst" "out/a.txt"], skip := 1, finish := 0,
        fileErr := none } ∧
    moveEntry 3 { replace := "", suffix := "", full_path := "true" } headsFail
        "dst" "out/" "src" "in/" "in/a.txt" =
      { calls := [.Head "src" "in/a.txt", .Head "dst" "out/a.txt"], skip := 1, finish := 0,
        fileErr := none } ∧
    copyEntry { replace := "", suffix := "", full_path := "true" } targetMissing
        "dst" "out/" "src" "in/" "in/a.txt" =
      { calls :=
          [.Head "src" "in/a.txt", .Head "dst" "out/a.txt",
            .CopyLargeFile "dst" "out/a.txt" "/src/in/a.txt"]
        skip := 0, finish := 1, fileErr := none } := by
  decide

/-- C12 (the code at the failing input). `CopyAllObject` and `MoveAllObject`
with the suffix option ".txt" and `replace = "true"`: the entry "in/a.txt",
whose key ends with the suffix, is skipped (1 is added to the skip counter, no
copy is issued), and the entry "in/a.jpg", which matches no suffix, is copied
(and, in `MoveAllObject`, its source deleted). -/
theorem C12_matching_entries_are_skipped :
    copyEntry { replace := "true", suffix := ".txt", full_path := "true" } targetMissing
        "dst" "out/" "src" "in/" "in/a.txt" =
      { calls := [.Head "src" "in/a.txt"], skip := 1, finish := 0, fileErr := none } ∧
    copyEntry { replace := "true", suffix := ".txt", full_path := "true" } targetMissing
        "dst" "out/" "src" "in/" "in/a.jpg" =
      { calls := [.Head "src" "in/a.jpg", .CopyLargeFile "dst" "out/a.jpg" "/src/in/a.jpg"],
        skip := 0, finish := 1, fileErr := none } ∧
    moveEntry 3 { replace := "true", suffix := ".txt", full_path := "true" } targetMissing
        "dst" "out/" "src" "in/" "in/a.txt" =
      { calls := [.Head "src" "in/a.txt"], skip := 1, finish := 0, fileErr := none } ∧
    moveEntry 3 { replace := "true", suffix := ".txt", full_path := "true" } targetMissing
        "dst" "out/" "src" "in/" "in/a.jpg" =
      { calls :=
          [.Head "src" "in/a.jpg", .CopyLargeFile "dst" "out/a.jpg" "/src/in/a.jpg",
            .Delete "src" "in/a.jpg"]
        skip := 0, finish := 1, fileErr := none } := by
  decide

/-! ## `DeleteAllObject` -/

namespace DeleteAll

theorem foldl_keys (keys : List String) (a : String) :
    keys.foldl (fun content key => content ++ ("<Object><Key>" ++ key ++ "</Key></Object>")) a =
      a ++ String.join (keys.map fun key => "<Object><Key>" ++ key ++ "</Key></Object>") := by
  unfold String.join
  induction keys generalizing a with
  | nil => simp
  | cons x rest ih =>
    simp only [List.foldl_cons, List.map_cons]
    rw [ih, foldl_append_init _ ("" ++ _), String.empty_append, String.append_assoc]

/-- The body built by the code is the body of the claim. -/
theorem content_eq (keys : List String) : content keys = specBody keys := by
  unfold content specBody
  rw [foldl_keys]
  rfl

theorem foldl_marker (keys : List String) (m : String) :
    keys.foldl (fun _ key => key) m = keys.getLastD m := by
  induction keys generalizing m with
  | nil => rfl
  | cons x rest ih =>
    simp only [List.foldl_cons]
    rw [ih x]
    cases rest <;> simp [List.getLastD]

/-- The listing loop over `k` non-empty pages of which all but the last are
truncated: `k` list calls, one body and one count per page. -/
theorem listLoop_pages (bucket : String) (init : List ListPage) (last : ListPage)
    (htrunc : ∀ p ∈ init, p.IsTruncated = "true") (hlast : last.IsTruncated ≠ "true")
    (hne : ∀ p ∈ init ++ [last], p.Contents ≠ []) (l : Listing) :
    ∃ marker, listLoop bucket ((init ++ [last]).map .page) l =
      .done
        { contents := l.contents ++ (init ++ [last]).map fun p => specBody p.Contents
          counts := l.counts ++ (init ++ [last]).map fun p => p.Contents.length
          marker := marker
          total := l.total + ((init ++ [last]).map fun p => p.Contents.length).sum
          calls := l.calls ++ listCalls bucket l.marker (init ++ [last]) } := by
  induction init generalizing l with
  | nil =>
    have hpos : 0 < last.Contents.length :=
      List.length_pos.mpr (hne last (by simp))
    have h0 : ¬ (l.total + last.Contents.length ≤ 0) := by omega
    refine ⟨last.Contents.foldl (fun _ key => key) l.marker, ?_⟩
    simp [listLoop, h0, hlast, content_eq, listCalls]
  | cons p rest ih =>
    have hpos : 0 < p.Contents.length :=
      List.length_pos.mpr (hne p (by simp))
    have h0 : ¬ (l.total + p.Contents.length ≤ 0) := by omega
    have hp : p.IsTruncated = "true" := htrunc p (by simp)
    obtain ⟨m, hm⟩ := ih (fun q hq => htrunc q (by simp [hq]))
      (fun q hq => hne q (by simp at hq ⊢; tauto))
      { contents := l.contents ++ [content p.Contents]
        counts := l.counts ++ [p.Contents.length]
        marker := p.Contents.foldl (fun _ key => key) l.marker
        total := l.total + p.Contents.length
        calls := l.calls ++ [.ListObject bucket l.marker] }
    refine ⟨m, ?_⟩
    simp only [List.cons_append, List.map_cons, listLoop, h0, hp, if_true, if_false,
      List.append_eq]
    rw [hm]
    simp [content_eq, listCalls, foldl_marker, Nat.add_assoc]

/-! ### The pipeline of the delete requests -/

theorem postError_none (pfx : String) (answer : PostAnswer) :
    postError pfx answer = none ↔ answer.succeeded = true := by
  cases answer with
  | fail cErr => simp [postError, PostAnswer.succeeded]
  | response status reqID Code Message => simp [postError, PostAnswer.succeeded]

theorem delete_step_sound (cfg : Pipeline) (s : State) (a : Action) (s1 : State)
    (hs : step cfg s a = some s1) : Step cfg s s1 := by
  cases a with
  | coord =>
    simp only [step, coordStep] at hs
    split at hs
    · rename_i hc
      split at hs
      · rename_i hn
        split at hs
        · rename_i hx
          simp only [Option.some.injEq] at hs
          subst hs
          exact Step.headExit s hc hn hx
        · rename_i hx
          simp only [Option.some.injEq] at hs
          subst hs
          exact Step.headAdd s hc hn (by simpa using hx)
      · rename_i hn
        simp only [Option.some.injEq] at hs
        subst hs
        exact Step.headEnd s hc hn
    · rename_i hc
      split at hs
      · rename_i hq
        simp only [Option.some.injEq] at hs
        subst hs
        exact Step.start s hc hq
      · exact absurd hs (by simp)
    · rename_i hc
      split at hs
      · rename_i hw
        split at hs
        · rename_i e he
          simp only [Option.some.injEq] at hs
          subst hs
          exact Step.joinErr s e hc hw he
        · rename_i he
          simp only [Option.some.injEq] at hs
          subst hs
          exact Step.joinOk s hc hw he
      · exact absurd hs (by simp)
    · exact absurd hs (by simp)
  | worker k answer =>
    simp only [step, workerStep] at hs
    split at hs
    · exact absurd hs (by simp)
    · rename_i hp
      split at hs
      · rename_i e he
        simp only [Option.some.injEq] at hs
        subst hs
        refine Step.postFail s k answer e hp ?_
        cases hsucc : answer.succeeded with
        | false => rfl
        | true =>
          rw [(postError_none cfg.pfx answer).mpr hsucc] at he
          exact absurd he (by simp)
      · rename_i he
        simp only [Option.some.injEq] at hs
        subst hs
        exact Step.postOk s k answer hp ((postError_none cfg.pfx answer).mp he)
    · rename_i hp
      simp only [Option.some.injEq] at hs
      subst hs
      exact Step.deferred s k hp
    · rename_i hp
      simp only [Option.some.injEq] at hs
      subst hs
      exact Step.wgDone s k hp
    · rename_i hp
      simp only [Option.some.injEq] at hs
      subst hs
      exact Step.release s k hp
    · exact absurd hs (by simp)

theorem sumOver_succ (f : Nat → WorkerPc → Nat) (w : Nat → WorkerPc) (n : Nat) :
    sumOver f w (n + 1) = sumOver f w n + f n (w n) := by
  unfold sumOver
  rw [List.range_succ, List.map_append, List.sum_append]
  simp

theorem sumOver_update_ge (f : Nat → WorkerPc → Nat) (w : Nat → WorkerPc) (n k : Nat)
    (v : WorkerPc) (h : n ≤ k) : sumOver f (Function.update w k v) n = sumOver f w n := by
  induction n with
  | zero => rfl
  | succ m ih =>
    rw [sumOver_succ, sumOver_succ, ih (by omega)]
    have : m ≠ k := by omega
    rw [Function.update_noteq this]

/-- The sum over the workers, split into the share of the worker `k` and the
rest, which does not change when the worker `k` moves. -/
theorem sumOver_split (f : Nat → WorkerPc → Nat) (w : Nat → WorkerPc) (n k : Nat) (h : k < n) :
    ∃ rest, sumOver f w n = rest + f k (w k) ∧
      ∀ v, sumOver f (Function.update w k v) n = rest + f k v := by
  induction n with
  | zero => omega
  | succ m ih =>
    by_cases hk : k = m
    · subst hk
      refine ⟨sumOver f w k, sumOver_succ f w k, fun v => ?_⟩
      rw [sumOver_succ, sumOver_update_ge f w k k v (le_refl k), Function.update_same]
    · obtain ⟨rest, h1, h2⟩ := ih (by omega)
      refine ⟨rest + f m (w m), ?_, fun v => ?_⟩
      · rw [sumOver_succ, h1]; omega
      · rw [sumOver_succ, h2 v, Function.update_noteq (Ne.symm hk)]; omega

theorem sumOver_pos (f : Nat → WorkerPc → Nat) (w : Nat → WorkerPc) (n : Nat)
    (h : 0 < sumOver f w n) : ∃ i, i < n ∧ 0 < f i (w i) := by
  induction n with
  | zero => simp [sumOver] at h
  | succ m ih =>
    rw [sumOver_succ] at h
    by_cases hm : 0 < f m (w m)
    · exact ⟨m, by omega, hm⟩
    · obtain ⟨i, hi, hf⟩ := ih (by omega)
      exact ⟨i, by omega, hf⟩

theorem sumOver_eq (f : Nat → WorkerPc → Nat) (w : Nat → WorkerPc) (g : Nat → Nat) (n : Nat)
    (h : ∀ i, i < n → f i (w i) = g i) :
    sumOver f w n = ((List.range n).map g).sum := by
  induction n with
  | zero => rfl
  | succ m ih =>
    rw [sumOver_succ, ih (fun i hi => h i (by omega)), h m (by omega), List.range_succ,
      List.map_append, List.sum_append]
    simp

theorem sum_getD_range (l : List Nat) :
    ((List.range l.length).map fun i => l.getD i 0).sum = l.sum := by
  have : (List.range l.length).map (fun i => l.getD i 0) = l := by
    apply List.ext_getElem
    · simp
    · intro i h1 h2
      simp [List.getD_eq_getElem?_getD, List.getElem?_eq_getElem h2]
  rw [this]

/-- What holds of counters and positions in every state of a run. -/
structure Inv (cfg : Pipeline) (s : State) : Prop where
  fileNum_le : s.fileNum ≤ cfg.contents.length
  acquire_lt : s.coord = .acquire → s.fileNum < cfg.contents.length
  idle : ∀ i, s.fileNum ≤ i → s.workers i = .notStarted
  started : ∀ i, i < s.fileNum → s.workers i ≠ .notStarted
  wg_eq : s.wg = sumOver (fun _ pc => if pc.active then 1 else 0) s.workers cfg.contents.length +
    (if s.coord = .acquire then 1 else 0)
  queue_eq : s.queue =
    sumOver (fun _ pc => if pc.holds then 1 else 0) s.workers cfg.contents.length
  quiet : s.coord = .returned → ∀ i, (s.workers i).active = false
  left : s.coord = .wait ∨ s.coord = .returned →
    s.fileExit = true ∨ s.fileNum = cfg.contents.length
  result_iff : s.result.isSome = true ↔ s.coord = .returned

theorem sumOver_idle (f : Nat → WorkerPc → Nat) (n : Nat) (hf : ∀ i, f i .notStarted = 0) :
    sumOver f (fun _ => .notStarted) n = 0 := by
  induction n with
  | zero => rfl
  | succ m ih => rw [sumOver_succ, ih, hf]

theorem delete_inv_init (cfg : Pipeline) : Inv cfg init := by
  constructor <;> simp [init, sumOver_idle, WorkerPc.active, WorkerPc.holds]

/-- A step of the worker `k` keeps the invariant. -/
theorem inv_worker (cfg : Pipeline) (s s1 : State) (k : Nat) (v : WorkerPc)
    (h : Inv cfg s) (hc : s1.coord = s.coord) (hf : s1.fileNum = s.fileNum)
    (hw : s1.workers = Function.update s.workers k v)
    (hns : s.workers k ≠ .notStarted) (hv : v ≠ .notStarted)
    (hwg : ∀ m, s.wg = m + (if (s.workers k).active then 1 else 0) →
      s1.wg = m + (if v.active then 1 else 0))
    (hq : ∀ m, s.queue = m + (if (s.workers k).holds then 1 else 0) →
      s1.queue = m + (if v.holds then 1 else 0))
    (ha : v.active = true → (s.workers k).active = true)
    (hx : s.fileExit = true → s1.fileExit = true)
    (hr : s1.result = s.result) : Inv cfg s1 := by
  obtain ⟨hle, hacq, hidle, hst, hwge, hqe, hqu, hleft, hres⟩ := h
  have hk : k < s.fileNum := by
    by_contra hcon
    exact hns (hidle k (by omega))
  have hkn : k < cfg.contents.length := by omega
  refine ⟨by rw [hf]; exact hle, by rw [hc, hf]; exact hacq, ?_, ?_, ?_, ?_, ?_, ?_,
    by rw [hr, hc]; exact hres⟩
  · intro j hj
    rw [hf] at hj
    rw [hw, Function.update_noteq (by omega)]
    exact hidle j hj
  · intro j hj
    rw [hf] at hj
    rw [hw]
    by_cases hjk : j = k
    · subst hjk
      rw [Function.update_same]
      exact hv
    · rw [Function.update_noteq hjk]
      exact hst j hj
  · obtain ⟨rest, h1, h2⟩ :=
      sumOver_split (fun _ pc => if pc.active then 1 else 0) s.workers _ k hkn
    rw [hw, hc, h2 v]
    have := hwg (rest + (if s.coord = .acquire then 1 else 0)) (by rw [hwge, h1]; omega)
    rw [this]
    omega
  · obtain ⟨rest, h1, h2⟩ :=
      sumOver_split (fun _ pc => if pc.holds then 1 else 0) s.workers _ k hkn
    rw [hw, h2 v]
    exact hq rest (by rw [hqe, h1])
  · intro hret j
    rw [hc] at hret
    rw [hw]
    by_cases hjk : j = k
    · subst hjk
      rw [Function.update_same]
      cases hva : v.active with
      | false => rfl
      | true =>
        have := hqu hret j
        rw [ha hva] at this
        exact absurd this (by simp)
    · rw [Function.update_noteq hjk]
      exact hqu hret j
  · intro hcw
    rw [hc] at hcw
    rw [hf]
    rcases hleft hcw with h1 | h1
    · exact Or.inl (hx h1)
    · exact Or.inr h1

theorem delete_inv_step (cfg : Pipeline) (s s1 : State) (h : Inv cfg s) (hs : Step cfg s s1) :
    Inv cfg s1 := by
  cases hs with
  | headExit hc hn hx =>
    obtain ⟨hle, hacq, hidle, hst, hwge, hqe, hqu, hleft, hres⟩ := h
    exact ⟨hle, by simp, hidle, hst, by simpa [hc] using hwge, hqe, by simp,
      fun _ => Or.inl hx, by simpa [hc] using hres⟩
  | headAdd hc hn hx =>
    obtain ⟨hle, hacq, hidle, hst, hwge, hqe, hqu, hleft, hres⟩ := h
    exact ⟨hle, fun _ => hn, hidle, hst, by simpa [hc] using hwge, hqe, by simp, by simp,
      by simpa [hc] using hres⟩
  | headEnd hc hn =>
    obtain ⟨hle, hacq, hidle, hst, hwge, hqe, hqu, hleft, hres⟩ := h
    exact ⟨hle, by simp, hidle, hst, by simpa [hc] using hwge, hqe, by simp,
      fun _ => Or.inr (by simp only; omega), by simpa [hc] using hres⟩
  | start hc hq1 =>
    obtain ⟨hle, hacq, hidle, hst, hwge, hqe, hqu, hleft, hres⟩ := h
    have hlt := hacq hc
    have hns := hidle s.fileNum (le_refl _)
    refine ⟨by simpa using hlt, by simp, ?_, ?_, ?_, ?_, by simp, by simp,
      by simpa [hc] using hres⟩
    · intro i hi
      simp only at hi
      simp only
      rw [Function.update_noteq (by omega)]
      exact hidle i (by omega)
    · intro i hi
      simp only at hi
      simp only
      by_cases hik : i = s.fileNum
      · subst hik
        rw [Function.update_same]
        simp
      · rw [Function.update_noteq hik]
        exact hst i (by omega)
    · obtain ⟨rest, h1, h2⟩ :=
        sumOver_split (fun _ pc => if pc.active then 1 else 0) s.workers _ s.fileNum hlt
      simp only
      rw [h2 .body, hwge, h1, hns]
      simp [hc, WorkerPc.active]
    · obtain ⟨rest, h1, h2⟩ :=
        sumOver_split (fun _ pc => if pc.holds then 1 else 0) s.workers _ s.fileNum hlt
      simp only
      rw [h2 .body, hqe, h1, hns]
      simp [WorkerPc.holds]
  | joinErr e hc hw he =>
    obtain ⟨hle, hacq, hidle, hst, hwge, hqe, hqu, hleft, hres⟩ := h
    refine ⟨hle, by simp, hidle, hst, by simpa [hc] using hwge, hqe, ?_,
      fun _ => hleft (Or.inl hc), by simp⟩
    intro _ i
    simp only
    by_contra hcon
    by_cases hi : i < cfg.contents.length
    · obtain ⟨rest, h1, _⟩ :=
        sumOver_split (fun _ pc => if pc.active then 1 else 0) s.workers _ i hi
      rw [hw, h1] at hwge
      simp only [Bool.not_eq_false] at hcon
      rw [hcon] at hwge
      simp only [if_true] at hwge
      omega
    · rw [hidle i (by omega)] at hcon
      simp [WorkerPc.active] at hcon
  | joinOk hc hw he =>
    obtain ⟨hle, hacq, hidle, hst, hwge, hqe, hqu, hleft, hres⟩ := h
    refine ⟨hle, by simp, hidle, hst, by simpa [hc] using hwge, hqe, ?_,
      fun _ => hleft (Or.inl hc), by simp⟩
    intro _ i
    simp only
    by_contra hcon
    by_cases hi : i < cfg.contents.length
    · obtain ⟨rest, h1, _⟩ :=
        sumOver_split (fun _ pc => if pc.active then 1 else 0) s.workers _ i hi
      rw [hw, h1] at hwge
      simp only [Bool.not_eq_false] at hcon
      rw [hcon] at hwge
      simp only [if_true] at hwge
      omega
    · rw [hidle i (by omega)] at hcon
      simp [WorkerPc.active] at hcon
  | postFail k answer e hp ha =>
    exact inv_worker cfg s _ k .deferred h rfl rfl rfl (by simp [hp]) (by simp)
      (by simp [hp, WorkerPc.active]) (by simp [hp, WorkerPc.holds])
      (by simp [hp, WorkerPc.active]) (fun hx => hx) rfl
  | postOk k answer hp ha =>
    exact inv_worker cfg s _ k .deferred h rfl rfl rfl (by simp [hp]) (by simp)
      (by simp [hp, WorkerPc.active]) (by simp [hp, WorkerPc.holds])
      (by simp [hp, WorkerPc.active]) (fun hx => hx) rfl
  | deferred k hp =>
    exact inv_worker cfg s _ k .wgDone h rfl rfl rfl (by simp [hp]) (by simp)
      (by simp [hp, WorkerPc.active]) (by simp [hp, WorkerPc.holds])
      (by simp [hp, WorkerPc.active]) (fun hx => by simp [hx]) rfl
  | wgDone k hp =>
    exact inv_worker cfg s _ k .release h rfl rfl rfl (by simp [hp]) (by simp)
      (by simp only [hp, WorkerPc.active]; intro m hm; simp at hm ⊢; omega)
      (by simp [hp, WorkerPc.holds])
      (by simp [WorkerPc.active]) (fun hx => hx) rfl
  | release k hp =>
    exact inv_worker cfg s _ k .finished h rfl rfl rfl (by simp [hp]) (by simp)
      (by simp [hp, WorkerPc.active])
      (by simp only [hp, WorkerPc.holds]; intro m hm; simp at hm ⊢; omega)
      (by simp [WorkerPc.active]) (fun hx => hx) rfl

/-- Every step takes one from the number of steps a run has before it. -/
theorem stepsLeft_step (cfg : Pipeline) (s s1 : State) (h : Inv cfg s) (hs : Step cfg s s1) :
    stepsLeft cfg s1 + 1 ≤ stepsLeft cfg s := by
  have worker : ∀ (k : Nat) (v : WorkerPc) (s2 : State), s.workers k ≠ .notStarted →
      v.left + 1 = (s.workers k).left → s2.coord = s.coord → s2.fileNum = s.fileNum →
      s2.workers = Function.update s.workers k v → stepsLeft cfg s2 + 1 ≤ stepsLeft cfg s := by
    intro k v s2 hns hv hc hf hw
    have hk : k < cfg.contents.length := by
      by_contra hcon
      exact hns (h.idle k (by have := h.fileNum_le; omega))
    obtain ⟨rest, h1, h2⟩ := sumOver_split (fun _ pc => pc.left) s.workers _ k hk
    unfold stepsLeft coordLeft
    rw [hw, hc, hf, h1, h2 v]
    omega
  cases hs with
  | headExit hc hn hx => simp only [stepsLeft, coordLeft, hc]; omega
  | headAdd hc hn hx => simp only [stepsLeft, coordLeft, hc]; omega
  | headEnd hc hn => simp only [stepsLeft, coordLeft, hc]; omega
  | start hc hq =>
    have hlt := h.acquire_lt hc
    obtain ⟨rest, h1, h2⟩ := sumOver_split (fun _ pc => pc.left) s.workers _ s.fileNum hlt
    simp only [stepsLeft, coordLeft, hc]
    rw [h2 .body, h1, h.idle s.fileNum (le_refl _)]
    simp only [WorkerPc.left]
    omega
  | joinErr e hc hw he => simp only [stepsLeft, coordLeft, hc]; omega
  | joinOk hc hw he => simp only [stepsLeft, coordLeft, hc]; omega
  | postFail k answer e hp ha =>
    exact worker k .deferred _ (by simp [hp]) (by simp [hp, WorkerPc.left]) rfl rfl rfl
  | postOk k answer hp ha =>
    exact worker k .deferred _ (by simp [hp]) (by simp [hp, WorkerPc.left]) rfl rfl rfl
  | deferred k hp =>
    exact worker k .wgDone _ (by simp [hp]) (by simp [hp, WorkerPc.left]) rfl rfl rfl
  | wgDone k hp =>
    exact worker k .release _ (by simp [hp]) (by simp [hp, WorkerPc.left]) rfl rfl rfl
  | release k hp =>
    exact worker k .finished _ (by simp [hp]) (by simp [hp, WorkerPc.left]) rfl rfl rfl

theorem stepsLeft_init (cfg : Pipeline) : stepsLeft cfg init = 6 * cfg.contents.length + 2 := by
  have : ∀ n, sumOver (fun _ pc => pc.left) (fun _ => WorkerPc.notStarted) n = 4 * n := by
    intro n
    induction n with
    | zero => rfl
    | succ m ih => rw [sumOver_succ, ih]; simp only [WorkerPc.left]; omega
  simp only [stepsLeft, coordLeft, init, this]
  omega

/-- A property that holds in front of the loop and is kept by every step holds
in every state of every run; and no run is longer than `6 * contentCount + 2`
steps. -/
theorem exec_invariant (cfg : Pipeline) (P : State → Prop) (h0 : P init)
    (hstep : ∀ s s1, Inv cfg s → P s → Step cfg s s1 → P s1) :
    ∀ (acts : List Action) (s : State), exec cfg init acts = some s →
      Inv cfg s ∧ P s ∧ acts.length ≤ 6 * cfg.contents.length + 2 := by
  have key : ∀ (acts : List Action) (s s1 : State), Inv cfg s → P s →
      exec cfg s acts = some s1 →
        Inv cfg s1 ∧ P s1 ∧ acts.length + stepsLeft cfg s1 ≤ stepsLeft cfg s := by
    intro acts
    induction acts with
    | nil =>
      intro s s1 hI hP h
      simp only [exec, Option.some.injEq] at h
      subst h
      exact ⟨hI, hP, by simp⟩
    | cons a rest ih =>
      intro s s1 hI hP h
      simp only [exec] at h
      cases hst : step cfg s a with
      | none => rw [hst] at h; exact absurd h (by simp)
      | some s2 =>
        rw [hst] at h
        have hS := delete_step_sound cfg s a s2 hst
        obtain ⟨h1, h2, h3⟩ := ih s2 s1 (delete_inv_step cfg s s2 hI hS) (hstep s s2 hI hP hS) h
        have := stepsLeft_step cfg s s2 hI hS
        exact ⟨h1, h2, by simp only [List.length_cons]; omega⟩
  intro acts s h
  obtain ⟨h1, h2, h3⟩ := key acts init s (delete_inv_init cfg) h0 h
  rw [stepsLeft_init] at h3
  exact ⟨h1, h2, by omega⟩

/-- A run that has not returned can go on: with a pool of at least one place,
the coordinator or one of the workers can move. -/
theorem can_step (cfg : Pipeline) (s : State) (h : Inv cfg s) (hpool : 1 ≤ cfg.threadNum)
    (hres : s.result = none) : ∃ a s1, step cfg s a = some s1 := by
  have moves : ∀ i, (s.workers i).holds = true → ∃ a s1, step cfg s a = some s1 := by
    intro i hi
    refine ⟨.worker i ok200, ?_⟩
    simp only [step, workerStep]
    cases hw : s.workers i with
    | notStarted => rw [hw] at hi; simp [WorkerPc.holds] at hi
    | body => simp [postError, ok200]
    | deferred => simp
    | wgDone => simp
    | release => simp
    | finished => rw [hw] at hi; simp [WorkerPc.holds] at hi
  cases hc : s.coord with
  | head =>
    refine ⟨.coord, ?_⟩
    simp only [step, coordStep, hc]
    split
    · split <;> simp
    · simp
  | acquire =>
    by_cases hq : s.queue < cfg.threadNum
    · exact ⟨.coord, by simp [step, coordStep, hc, hq]⟩
    · have hpos : 0 < sumOver (fun _ pc => if pc.holds then 1 else 0) s.workers
          cfg.contents.length := by
        rw [← h.queue_eq]; omega
      obtain ⟨i, _, hi⟩ := sumOver_pos _ _ _ hpos
      refine moves i ?_
      by_contra hcon
      simp [hcon] at hi
  | wait =>
    by_cases hw : s.wg = 0
    · refine ⟨.coord, ?_⟩
      simp only [step, coordStep, hc, hw, if_true]
      split <;> simp
    · have hpos : 0 < sumOver (fun _ pc => if pc.active then 1 else 0) s.workers
          cfg.contents.length := by
        have := h.wg_eq
        rw [hc] at this
        simp at this
        omega
      obtain ⟨i, _, hi⟩ := sumOver_pos _ _ _ hpos
      refine moves i ?_
      by_contra hcon
      have : (s.workers i).active = false := by
        cases hw2 : s.workers i <;> simp_all [WorkerPc.holds, WorkerPc.active]
      simp [this] at hi
  | returned =>
    have := h.result_iff.mpr hc
    rw [hres] at this
    exact absurd this (by simp)

/-- What holds of the requests in every state of a run. -/
structure Posts (cfg : Pipeline) (s : State) : Prop where
  mem : ∀ p, p ∈ s.posted →
    (s.workers p.fileNum).pastBody = true ∧ p.body = cfg.contents.getD p.fileNum ""
  all : ∀ i, (s.workers i).pastBody = true → i ∈ s.posted.map Post.fileNum
  nodup : (s.posted.map Post.fileNum).Nodup
  good : (∀ p, p ∈ s.posted → p.answer.succeeded = true) →
    s.fileErr = none ∧ s.fileExit = false ∧
    s.tmpFinish = sumOver (fun i pc => if pc.pastBody then cfg.counts.getD i 0 else 0)
      s.workers cfg.contents.length ∧
    ∀ r, s.result = some r → r = .ok [("Total", cfg.total), ("Finish", s.tmpFinish)]

theorem posts_init (cfg : Pipeline) : Posts cfg init := by
  constructor <;> simp [init, sumOver_idle, WorkerPc.pastBody]

/-- A step of the worker `k` behind its request keeps what holds of the
requests. -/
theorem posts_worker (cfg : Pipeline) (s s1 : State) (k : Nat) (v : WorkerPc)
    (hi : Inv cfg s) (h : Posts cfg s)
    (hw : s1.workers = Function.update s.workers k v)
    (hpb : (s.workers k).pastBody = true) (hv : v.pastBody = true)
    (hp : s1.posted = s.posted) (he : s1.fileErr = s.fileErr)
    (hx : s.fileErr = none → s1.fileExit = s.fileExit)
    (ht : s1.tmpFinish = s.tmpFinish) (hr : s1.result = s.result) : Posts cfg s1 := by
  obtain ⟨hmem, hall, hnd, hgood⟩ := h
  have hk : k < cfg.contents.length := by
    by_contra hcon
    have := hi.idle k (by have := hi.fileNum_le; omega)
    rw [this] at hpb
    simp [WorkerPc.pastBody] at hpb
  have hsame : ∀ j, ((Function.update s.workers k v) j).pastBody = (s.workers j).pastBody := by
    intro j
    by_cases hjk : j = k
    · subst hjk
      rw [Function.update_same, hv, hpb]
    · rw [Function.update_noteq hjk]
  refine ⟨?_, ?_, by rw [hp]; exact hnd, ?_⟩
  · intro p hpm
    rw [hp] at hpm
    rw [hw, hsame]
    exact hmem p hpm
  · intro j hj
    rw [hw, hsame] at hj
    rw [hp]
    exact hall j hj
  · intro hok
    rw [hp] at hok
    obtain ⟨g1, g2, g3, g4⟩ := hgood hok
    refine ⟨by rw [he]; exact g1, by rw [hx g1]; exact g2, ?_, by rw [hr, ht]; exact g4⟩
    obtain ⟨rest, h1, h2⟩ := sumOver_split
      (fun i pc => if pc.pastBody then cfg.counts.getD i 0 else 0) s.workers _ k hk
    rw [ht, hw, h2 v, g3, h1, hv, hpb]

theorem posts_step (cfg : Pipeline) (s s1 : State) (hi : Inv cfg s) (h : Posts cfg s)
    (hs : Step cfg s s1) : Posts cfg s1 := by
  cases hs with
  | headExit hc hn hx =>
    obtain ⟨hmem, hall, hnd, hgood⟩ := h
    refine ⟨hmem, hall, hnd, fun hok => ?_⟩
    have := (hgood hok).2.1
    rw [hx] at this
    exact absurd this (by simp)
  | headAdd hc hn hx =>
    obtain ⟨hmem, hall, hnd, hgood⟩ := h
    exact ⟨hmem, hall, hnd, hgood⟩
  | headEnd hc hn =>
    obtain ⟨hmem, hall, hnd, hgood⟩ := h
    exact ⟨hmem, hall, hnd, hgood⟩
  | start hc hq =>
    obtain ⟨hmem, hall, hnd, hgood⟩ := h
    have hns := hi.idle s.fileNum (le_refl _)
    have hlt := hi.acquire_lt hc
    have hsame : ∀ j, ((Function.update s.workers s.fileNum .body) j).pastBody =
        (s.workers j).pastBody := by
      intro j
      by_cases hjk : j = s.fileNum
      · subst hjk
        rw [Function.update_same, hns]
        rfl
      · rw [Function.update_noteq hjk]
    refine ⟨?_, ?_, hnd, ?_⟩
    · intro p hpm
      simp only [hsame]
      exact hmem p hpm
    · intro j hj
      simp only [hsame] at hj
      exact hall j hj
    · intro hok
      obtain ⟨g1, g2, g3, g4⟩ := hgood hok
      refine ⟨g1, g2, ?_, ?_⟩
      · obtain ⟨rest, h1, h2⟩ := sumOver_split
          (fun i pc => if pc.pastBody then cfg.counts.getD i 0 else 0) s.workers _ s.fileNum hlt
        simp only
        rw [h2 .body, g3, h1, hns]
        simp [WorkerPc.pastBody]
      · intro r hr
        have := hi.result_iff.mp (by simp only at hr; rw [hr]; rfl)
        rw [hc] at this
        exact absurd this (by simp)
  | joinErr e hc hw he =>
    obtain ⟨hmem, hall, hnd, hgood⟩ := h
    refine ⟨hmem, hall, hnd, fun hok => ?_⟩
    have := (hgood hok).1
    rw [he] at this
    exact absurd this (by simp)
  | joinOk hc hw he =>
    obtain ⟨hmem, hall, hnd, hgood⟩ := h
    refine ⟨hmem, hall, hnd, fun hok => ?_⟩
    obtain ⟨g1, g2, g3, g4⟩ := hgood hok
    exact ⟨g1, g2, g3, fun r hr => by simpa [eq_comm] using hr⟩
  | postFail k answer e hp ha =>
    obtain ⟨hmem, hall, hnd, hgood⟩ := h
    have hnew : k ∉ s.posted.map Post.fileNum := by
      intro hcon
      obtain ⟨p, hp1, hp2⟩ := List.mem_map.mp hcon
      have := (hmem p hp1).1
      rw [hp2, hp] at this
      simp [WorkerPc.pastBody] at this
    refine ⟨?_, ?_, ?_, ?_⟩
    · intro p hpm
      simp only [List.mem_append, List.mem_singleton] at hpm
      simp only
      rcases hpm with hpm | hpm
      · have := hmem p hpm
        have hne : p.fileNum ≠ k := by
          intro hcon
          rw [hcon, hp] at this
          simp [WorkerPc.pastBody] at this
        rw [Function.update_noteq hne]
        exact this
      · subst hpm
        simp [WorkerPc.pastBody]
    · intro j hj
      simp only at hj
      simp only [List.map_append, List.map_cons, List.map_nil, List.mem_append,
        List.mem_singleton]
      by_cases hjk : j = k
      · exact Or.inr hjk
      · rw [Function.update_noteq hjk] at hj
        exact Or.inl (hall j hj)
    · simp only [List.map_append, List.map_cons, List.map_nil]
      exact List.Nodup.append hnd (by simp) (by simpa using hnew)
    · intro hok
      have := hok { fileNum := k, body := cfg.contents.getD k "", answer := answer } (by simp)
      simp only at this
      rw [ha] at this
      exact absurd this (by simp)
  | postOk k answer hp ha =>
    obtain ⟨hmem, hall, hnd, hgood⟩ := h
    have hk : k < cfg.contents.length := by
      by_contra hcon
      have := hi.idle k (by have := hi.fileNum_le; omega)
      rw [this] at hp
      exact absurd hp (by simp)
    have hnew : k ∉ s.posted.map Post.fileNum := by
      intro hcon
      obtain ⟨p, hp1, hp2⟩ := List.mem_map.mp hcon
      have := (hmem p hp1).1
      rw [hp2, hp] at this
      simp [WorkerPc.pastBody] at this
    refine ⟨?_, ?_, ?_, ?_⟩
    · intro p hpm
      simp only [List.mem_append, List.mem_singleton] at hpm
      simp only
      rcases hpm with hpm | hpm
      · have := hmem p hpm
        have hne : p.fileNum ≠ k := by
          intro hcon
          rw [hcon, hp] at this
          simp [WorkerPc.pastBody] at this
        rw [Function.update_noteq hne]
        exact this
      · subst hpm
        simp [WorkerPc.pastBody]
    · intro j hj
      simp only at hj
      simp only [List.map_append, List.map_cons, List.map_nil, List.mem_append,
        List.mem_singleton]
      by_cases hjk : j = k
      · exact Or.inr hjk
      · rw [Function.update_noteq hjk] at hj
        exact Or.inl (hall j hj)
    · simp only [List.map_append, List.map_cons, List.map_nil]
      exact List.Nodup.append hnd (by simp) (by simpa using hnew)
    · intro hok
      obtain ⟨g1, g2, g3, g4⟩ := hgood (fun p hpm => hok p (by simp [hpm]))
      refine ⟨g1, g2, ?_, ?_⟩
      · obtain ⟨rest, h1, h2⟩ := sumOver_split
          (fun i pc => if pc.pastBody then cfg.counts.getD i 0 else 0) s.workers _ k hk
        simp only
        rw [h2 .deferred, g3, h1, hp]
        simp [WorkerPc.pastBody]
      · intro r hr
        have hret := hi.result_iff.mp (by simp only at hr; rw [hr]; rfl)
        have := hi.quiet hret k
        rw [hp] at this
        simp [WorkerPc.active] at this
  | deferred k hp =>
    exact posts_worker cfg s _ k .wgDone hi h rfl (by simp [hp, WorkerPc.pastBody])
      (by simp [WorkerPc.pastBody]) rfl rfl (fun he => by simp [he]) rfl rfl
  | wgDone k hp =>
    exact posts_worker cfg s _ k .release hi h rfl (by simp [hp, WorkerPc.pastBody])
      (by simp [WorkerPc.pastBody]) rfl rfl (fun _ => rfl) rfl rfl
  | release k hp =>
    exact posts_worker cfg s _ k .finished hi h rfl (by simp [hp, WorkerPc.pastBody])
      (by simp [WorkerPc.pastBody]) rfl rfl (fun _ => rfl) rfl rfl

/-- What a run that has returned, all of whose requests have succeeded, has
done: no error, every count added, one request per batch. -/
theorem returned_ok (cfg : Pipeline) (acts : List Action) (s : State)
    (hlen : cfg.counts.length = cfg.contents.length)
    (h : exec cfg init acts = some s) (hret : s.result.isSome = true)
    (hok : ∀ p, p ∈ s.posted → p.answer.succeeded = true) :
    s.result = some (.ok [("Total", cfg.total), ("Finish", cfg.counts.sum)]) ∧
    (s.posted.map Post.fileNum).Perm (List.range cfg.contents.length) ∧
    ∀ p, p ∈ s.posted → p.body = cfg.contents.getD p.fileNum "" := by
  obtain ⟨hi, hp, _⟩ := exec_invariant cfg (Posts cfg) (posts_init cfg)
    (fun s s1 hI hP hS => posts_step cfg s s1 hI hP hS) acts s h
  obtain ⟨g1, g2, g3, g4⟩ := hp.good hok
  have hc := hi.result_iff.mp hret
  have hfull : s.fileNum = cfg.contents.length := by
    rcases hi.left (Or.inr hc) with h1 | h1
    · rw [g2] at h1; exact absurd h1 (by simp)
    · exact h1
  have hpast : ∀ i, i < cfg.contents.length → (s.workers i).pastBody = true := by
    intro i hlt
    have h1 := hi.started i (by omega)
    have h2 := hi.quiet hc i
    cases hw : s.workers i <;> simp_all [WorkerPc.active, WorkerPc.pastBody]
  have hsum : s.tmpFinish = cfg.counts.sum := by
    rw [g3, sumOver_eq _ _ (fun i => cfg.counts.getD i 0) _
      (fun i hlt => by simp [hpast i hlt]), ← hlen, sum_getD_range]
  refine ⟨?_, ?_, fun p hpm => (hp.mem p hpm).2⟩
  · obtain ⟨r, hr⟩ := Option.isSome_iff_exists.mp hret
    rw [hr, g4 r hr, hsum]
  · rw [List.perm_ext_iff_of_nodup hp.nodup (List.nodup_range _)]
    intro i
    rw [List.mem_range]
    constructor
    · intro hm
      obtain ⟨p, hp1, hp2⟩ := List.mem_map.mp hm
      have := (hp.mem p hp1).1
      rw [hp2] at this
      by_contra hcon
      rw [hi.idle i (by omega)] at this
      simp [WorkerPc.pastBody] at this
    · intro hlt
      exact hp.all i (hpast i hlt)

theorem exec_append (cfg : Pipeline) (acts more : List Action) (s : State) :
    exec cfg s (acts ++ more) = (exec cfg s acts).bind fun s1 => exec cfg s1 more := by
  induction acts generalizing s with
  | nil => rfl
  | cons a rest ih =>
    simp only [List.cons_append, exec]
    cases step cfg s a with
    | none => rfl
    | some s1 => exact ih s1

theorem threadNumOption_pos (c : Client) (thread_num : String) (hmin : 1 ≤ c.threadMinNum)
    (hmax : 1 ≤ c.threadMaxNum) : 1 ≤ threadNumOption c thread_num := by
  unfold threadNumOption
  simp only
  split_ifs with h1 h2
  · omega
  · exact hmax
  · exact hmax

/-- With thread limits of at least 1 and at least one batch, the pipeline has
a pool of at least one place. -/
theorem pipeline_some (c : Client) (bucket pfx thread_num : String) (l : Listing)
    (hmin : 1 ≤ c.threadMinNum) (hmax : 1 ≤ c.threadMaxNum) (hne : 1 ≤ l.contents.length) :
    ∃ n, 1 ≤ n ∧ pipeline c bucket pfx thread_num l =
      some { bucket := bucket, pfx := pfx, contents := l.contents, counts := l.counts,
             total := l.total, threadNum := n } := by
  have hpos := threadNumOption_pos c thread_num hmin hmax
  unfold pipeline
  simp only
  split_ifs with h1 h2 h2
  · omega
  · exact ⟨_, by omega, rfl⟩
  · omega
  · exact ⟨_, by omega, rfl⟩

set_option maxRecDepth 16000 in
/-- C14 (counterexample). `DeleteAllObject` with `thread_num = 1` on a listing
of three keys in three pages, in the run `firstFails`: the request of the
first batch is answered with status 500 while the coordinator waits for the
place in the pool; the second batch is posted, the third is not: three list
calls and two delete requests only, and the error is returned. -/
theorem C14_counterexample :
    DeleteAllObject defaultClient "b" "logs/" "1" threePages firstFails =
      some
        { result := some (.error (" DeleteAllObject Prefix: logs/ StatusCode: 500" ++
            " X-Amz-Request-Id: req-1 Code: InternalError" ++
            " Message: We encountered an internal error."))
          calls := [.ListObject "b" "", .ListObject "b" "logs/a", .ListObject "b" "logs/b"]
          posted :=
            [{ fileNum := 0
               body := "<Delete><Quiet>true</Quiet><Object><Key>logs/a</Key></Object></Delete>"
               answer := .response "500" "req-1" "InternalError"
                 "We encountered an internal error." },
              { fileNum := 1
                body := "<Delete><Quiet>true</Quiet><Object><Key>logs/b</Key></Object></Delete>"
                answer := ok200 }] } := by
  decide

/-- C14 (amended). For a listing delivered as the non-empty pages
`front ++ [last]`, all but the last truncated, and a client whose thread
limits are at least 1: the empty schedule can be run; at the end of every
schedule that can be run, `DeleteAllObject` has issued one list call per page
(the first with the empty marker, every further one with the last key of the
page before), the schedule has at most `6 * k + 2` steps, `k` the number of
pages, and, the call not having returned, some thread can take a further
step; and when the call has returned and all delete requests have succeeded,
it has returned `Total` and `Finish` equal to the number of keys and issued
exactly one delete request per page, the request of page `i` having the body
`<Delete><Quiet>true</Quiet>`, one `<Object><Key>key</Key></Object>` per key
of the page in page order, and `</Delete>`. -/
theorem C14_delete_batches (c : Client) (bucket pfx thread_num : String)
    (front : List ListPage) (last : ListPage)
    (hmin : 1 ≤ c.threadMinNum) (hmax : 1 ≤ c.threadMaxNum)
    (htrunc : ∀ p ∈ front, p.IsTruncated = "true") (hlast : last.IsTruncated ≠ "true")
    (hne : ∀ p ∈ front ++ [last], p.Contents ≠ []) :
    (DeleteAllObject c bucket pfx thread_num ((front ++ [last]).map .page) []).isSome = true ∧
    ∀ acts r, DeleteAllObject c bucket pfx thread_num ((front ++ [last]).map .page) acts = some r →
      r.calls = listCalls bucket "" (front ++ [last]) ∧
      acts.length ≤ 6 * (front.length + 1) + 2 ∧
      (r.result = none → ∃ a,
        (DeleteAllObject c bucket pfx thread_num ((front ++ [last]).map .page)
          (acts ++ [a])).isSome = true) ∧
      (r.result.isSome = true → (∀ p, p ∈ r.posted → p.answer.succeeded = true) →
        r.result = some (.ok
          [("Total", ((front ++ [last]).map fun p => p.Contents.length).sum),
            ("Finish", ((front ++ [last]).map fun p => p.Contents.length).sum)]) ∧
        (r.posted.map Post.fileNum).Perm (List.range (front.length + 1)) ∧
        ∀ p, p ∈ r.posted → ∃ page, (front ++ [last])[p.fileNum]? = some page ∧
          p.body = specBody page.Contents) := by
  obtain ⟨m, hm⟩ := listLoop_pages bucket front last htrunc hlast hne
    { contents := [], counts := [], marker := "", total := 0, calls := [] }
  simp only [List.nil_append, Nat.zero_add] at hm
  obtain ⟨n, hn, hpipe⟩ := pipeline_some c bucket pfx thread_num
    { contents := (front ++ [last]).map fun p => specBody p.Contents
      counts := (front ++ [last]).map fun p => p.Contents.length
      marker := m
      total := ((front ++ [last]).map fun p => p.Contents.length).sum
      calls := listCalls bucket "" (front ++ [last]) } hmin hmax (by simp)
  simp only at hpipe
  have hlenk : ((front ++ [last]).map fun p => specBody p.Contents).length = front.length + 1 := by
    simp
  have hcall : ∀ acts,
      DeleteAllObject c bucket pfx thread_num ((front ++ [last]).map .page) acts =
        (exec
          { bucket := bucket, pfx := pfx
            contents := (front ++ [last]).map fun p => specBody p.Contents
            counts := (front ++ [last]).map fun p => p.Contents.length
            total := ((front ++ [last]).map fun p => p.Contents.length).sum
            threadNum := n } init acts).map fun s =>
          { result := s.result, calls := listCalls bucket "" (front ++ [last])
            posted := s.posted } := by
    intro acts
    unfold DeleteAllObject
    rw [hm]
    simp only [hpipe]
  refine ⟨by rw [hcall]; rfl, fun acts r hr => ?_⟩
  rw [hcall, Option.map_eq_some'] at hr
  obtain ⟨s, hs, hrs⟩ := hr
  subst hrs
  obtain ⟨hinv, _, hbound⟩ := exec_invariant _ (fun _ => True) trivial
    (fun _ _ _ _ _ => trivial) acts s hs
  refine ⟨rfl, by simpa using hbound, ?_, ?_⟩
  · intro hnone
    obtain ⟨a, s1, hstep⟩ := can_step _ s hinv hn hnone
    refine ⟨a, ?_⟩
    rw [hcall, exec_append, hs]
    simp only [Option.some_bind, exec, hstep]
    rfl
  · intro hret hok
    obtain ⟨h1, h2, h3⟩ := returned_ok _ acts s (by simp) hs hret hok
    refine ⟨h1, by simpa using h2, fun p hp => ?_⟩
    have hlt : p.fileNum < front.length + 1 := by
      have := h2.subset (List.mem_map_of_mem Post.fileNum hp)
      simpa using this
    have hlt2 : p.fileNum < (front ++ [last]).length := by simpa using hlt
    refine ⟨(front ++ [last])[p.fileNum], List.getElem?_eq_getElem hlt2, ?_⟩
    rw [h3 p hp]
    simp only [List.getD_eq_getElem?_getD, List.getElem?_map, List.getElem?_eq_getElem hlt2,
      Option.map_some', Option.getD_some]

/-- The state of the call at the end of a schedule (nothing done when the
schedule cannot be run). -/
theorem eq_some_getD (x : Option Return) (d : Return) (h : x.isSome = true) :
    x = some (x.getD d) := by
  cases x with
  | none => exact absurd h (by simp)
  | some r => rfl

set_option maxRecDepth 100000 in
/-- Witness of C14 (amended): 2500 keys listed with page size 1000, deleted
with the default client in the schedule in which the batches are posted one
after the other and every request succeeds: three list calls, three delete
requests, one for each of the batches of 1000, 1000 and 500 keys, and `Total`
and `Finish` both 2500. -/
theorem C14_delete_batches_witness :
    ((fullPages ++ [lastPage]).map fun p => p.Contents.length) = [1000, 1000, 500] ∧
    (listCalls "b" "" (fullPages ++ [lastPage])).length = 3 ∧
    (deleteAllKeys.getD { result := none, calls := [], posted := [] }).result =
      some (.ok [("Total", 2500), ("Finish", 2500)]) ∧
    ((deleteAllKeys.getD { result := none, calls := [], posted := [] }).posted.map
      Post.fileNum).Perm (List.range 3) :=
  have h := (C14_delete_batches defaultClient "b" "" "" fullPages lastPage (by decide) (by decide)
    (by simp [fullPages]) (by simp [lastPage]) (by simp [fullPages, lastPage, keysFrom])).2
      (serial 3 0) _ (eq_some_getD deleteAllKeys _ (by decide))
  have hsum : ((fullPages ++ [lastPage]).map fun p => p.Contents.length).sum = 2500 := by
    simp [fullPages, lastPage, keysFrom]
  ⟨by simp [fullPages, lastPage, keysFrom], by simp [fullPages, lastPage, listCalls],
    by simpa only [hsum] using (h.2.2.2 (by decide) (by decide)).1,
    (h.2.2.2 (by decide) (by decide)).2.1⟩

end DeleteAll

/-! ## The temp files of `SyncLargeFile` -/

/-- The `UploadPart` loop of `SyncLargeFile` started with `tFile` nil ends
only if no pass is left. -/
theorem syncUploadFrom_nil (reopen : Nat → Option String) (resp : Nat → Resp)
    (fuel i : Nat) (out o : LoopOut)
    (h : syncUploadFrom reopen resp fuel i true out = some o) : fuel = 0 ∧ o = out := by
  cases fuel with
  | zero => simpa [syncUploadFrom, eq_comm] using h
  | succ n => simp [syncUploadFrom] at h

/-- Whenever the `UploadPart` loop of `SyncLargeFile` ends, it leaves what
the retry loop with a local step in front of the request leaves. -/
theorem syncUploadFrom_eq (reopen : Nat → Option String) (resp : Nat → Resp) :
    ∀ (fuel i : Nat) (out o : LoopOut),
      syncUploadFrom reopen resp fuel i false out = some o →
        o = retryFrom (guardedPass reopen resp) fuel i out := by
  intro fuel
  induction fuel with
  | zero =>
    intro i out o h
    simpa [syncUploadFrom, retryFrom, eq_comm] using h
  | succ n ih =>
    intro i out o h
    unfold syncUploadFrom at h
    unfold retryFrom guardedPass requestPass
    cases hr : reopen i with
    | some e =>
      simp only [hr, Bool.false_eq_true, if_false] at h
      obtain ⟨hn, ho⟩ := syncUploadFrom_nil reopen resp n (i + 1) _ o h
      subst hn
      simp [ho, retryFrom]
    | none =>
      cases hp : resp i with
      | err e =>
        simp only [hr, hp, Bool.false_eq_true, if_false] at h
        simpa using ih (i + 1) _ o h
      | ok v =>
        simp only [hr, hp, Bool.false_eq_true, if_false, Option.some.injEq] at h
        simp [h.symm]

namespace Sync

theorem catPasses_files (env : Env) (partRange : String) (partNum : Nat) :
    ∀ (fuel i : Nat) (st : State),
      (catPasses env partRange partNum fuel i st).files = st.files ∧
      (catPasses env partRange partNum fuel i st).panicked = st.panicked := by
  intro fuel
  induction fuel with
  | zero => intro i st; simp [catPasses]
  | succ n ih =>
    intro i st
    unfold catPasses
    cases env.Seek partNum i with
    | some sErr => simpa using ih (i + 1) { st with partErr := some sErr }
    | none =>
      cases env.Cat partNum i with
      | err cErr => simpa using ih (i + 1) _
      | ok v => simp

/-- While `os.Open` does not fail, `tFile` stays the temp file and the
`UploadPart` loop neither touches the file system nor panics. -/
theorem uploadPasses_open_ok (env : Env) (partNum : Nat)
    (hopen : ∀ i, env.Open partNum i = none) (name : String) :
    ∀ (fuel i : Nat) (st : State),
      (uploadPasses env partNum fuel i (some name) st).1 = some name ∧
      (uploadPasses env partNum fuel i (some name) st).2.files = st.files ∧
      (uploadPasses env partNum fuel i (some name) st).2.panicked = st.panicked := by
  intro fuel
  induction fuel with
  | zero => intro i st; simp [uploadPasses]
  | succ n ih =>
    intro i st
    unfold uploadPasses
    simp only [hopen i]
    cases env.UploadPart partNum i with
    | err syncErr => simpa using ih (i + 1) _
    | ok Etag => simp

/-- While `os.Open` does not fail, a worker leaves the file system as it
found it and does not panic. -/
theorem worker_open_ok (env : Env) (maxRetryNum : Nat) (objectSize partSize : Int)
    (partNum : Nat) (hopen : ∀ i, env.Open partNum i = none) (st : State) :
    (worker env maxRetryNum objectSize partSize partNum st).files = st.files ∧
    (worker env maxRetryNum objectSize partSize partNum st).panicked = st.panicked := by
  have hbody : (workerBody env maxRetryNum objectSize partSize partNum st).files = st.files ∧
      (workerBody env maxRetryNum objectSize partSize partNum st).panicked = st.panicked := by
    unfold workerBody
    cases env.CreateTemp partNum with
    | err tErr => simp
    | ok name =>
      have hc := catPasses_files env (partRangeHeader objectSize partSize partNum) partNum
        maxRetryNum 0 { st with files := name :: st.files }
      have hu := uploadPasses_open_ok env partNum hopen name maxRetryNum 0
        (catPasses env (partRangeHeader objectSize partSize partNum) partNum maxRetryNum 0
          { st with files := name :: st.files })
      simp only at hc
      simp only
      split
      · simp [cleanup, hc.1, hc.2]
      · cases env.Stat partNum with
        | some e => simp [cleanup, hc.1, hc.2]
        | none =>
          simp only
          split
          · simp [cleanup, hu.1, hu.2.1, hu.2.2, hc.1, hc.2]
          · split <;> simp [cleanup, hu.1, hu.2.1, hu.2.2, hc.1, hc.2]
  unfold worker
  simp only
  split <;> simp [hbody.1, hbody.2]

theorem dispatch_open_ok (env : Env) (maxRetryNum : Nat) (objectSize partSize : Int)
    (total : Nat) (hopen : ∀ k i, env.Open k i = none) :
    ∀ (fuel partNum : Nat) (st : State),
      (dispatch env maxRetryNum objectSize partSize total fuel partNum st).files = st.files ∧
      (dispatch env maxRetryNum objectSize partSize total fuel partNum st).panicked =
        st.panicked := by
  intro fuel
  induction fuel with
  | zero => intro partNum st; simp [dispatch]
  | succ n ih =>
    intro partNum st
    unfold dispatch
    split
    · simp
    · split
      · split
        · simp
        · have hw := worker_open_ok env maxRetryNum objectSize partSize partNum (hopen partNum)
            { st with trace := st.trace ++ [.go partNum st.partExit] }
          have hd := ih (partNum + 2) (worker env maxRetryNum objectSize partSize partNum
            { st with trace := st.trace ++ [.go partNum st.partExit] })
          simp only at hw
          exact ⟨hd.1.trans hw.1, hd.2.trans hw.2⟩
      · simp

end Sync

/-- While `os.Open` does not fail, `SyncLargeFile` returns and no temp file
of the call is left, whatever else fails. -/
theorem SyncLargeFile_open_ok (c : Client) (env : Sync.Env) (objectSize : Int)
    (part_size : String) (hopen : ∀ k i, env.Open k i = none) :
    (SyncLargeFile c env objectSize part_size).files = [] ∧
    (SyncLargeFile c env objectSize part_size).result ≠ none := by
  unfold SyncLargeFile
  simp only
  split
  · simp
  · cases env.InitUpload with
    | err e => simp
    | ok uploadID =>
      simp only
      have hd := Sync.dispatch_open_ok env c.maxRetryNum.toNat objectSize
        (partSizeOption c part_size) (totalParts objectSize (partSizeOption c part_size)).toNat
        hopen (totalParts objectSize (partSizeOption c part_size)).toNat 0
        { partErr := none, partExit := false
          syncPartList := List.replicate
            (totalParts objectSize (partSizeOption c part_size)).toNat ""
          trace := [.InitUpload (.ok uploadID)], files := [], panicked := false }
      simp only at hd
      rw [if_neg (by simp [hd.2])]
      split <;> simp [hd.1]

/-- C20: `SyncLargeFile` of a one-byte object with three attempts allowed,
when re-opening the temp file fails. The first pass of the `UploadPart` loop
leaves `tFile` nil, the second pass evaluates `tFile.Name()` on it, and so
does the deferred removal: the call does not return (the program ends with a
panic), no request for a part is made, and the temp file of the worker is
still in the file system. -/
theorem C20_failed_reopen_leaves_temp_file :
    SyncLargeFile defaultClient Sync.openFails 1 "" =
      { result := none
        trace := [.InitUpload (.ok "upload-1"), .go 0 false, .Cat "bytes=0-0" (.ok "")]
        files := ["/tmp/aws-v4-sync-large0-1"] } := by
  rfl

/-! ## Parsing of `source` -/

/-- C21: for every bucket name without "/" and every key, the source
"/" + bucket + "/" + key is parsed (split on "/", element 1, elements from 2
on joined with "/") into exactly that bucket and that key. -/
theorem C21_source_parse (bucket key : String) (h : '/' ∉ bucket.data) :
    parseSource ("/" ++ bucket ++ "/" ++ key) = some (bucket, key) :=
  parseSource_eq bucket key h

/-- Witness of C21: a key with consecutive and trailing slashes, and the
empty key. -/
theorem C21_source_parse_witness :
    '/' ∉ "photos".data ∧
    parseSource ("/" ++ "photos" ++ "/" ++ "2024//a/b/") = some ("photos", "2024//a/b/") ∧
    parseSource "/photos/" = some ("photos", "") :=
  ⟨by decide, C21_source_parse "photos" "2024//a/b/" (by decide), by decide⟩

/-- C22 (the code at the failing inputs). For the empty source and for a
source without "/" the element 1 of the split does not exist: the index
expression panics. The source "bucket/key", which lacks the leading "/", is
parsed into the bucket "key" and the empty key, and `MoveLargeFile` issues its
HEAD, copy and delete with these. -/
theorem C22_malformed_source :
    parseSource "" = none ∧ parseSource "bucket" = none ∧
    parseSource "bucket/key" = some ("key", "") ∧
    MoveLargeFile 3 moveAllSucceed "dst" "k" "bucket" = none ∧
    MoveLargeFile 3 moveAllSucceed "dst" "k" "bucket/key" =
      some (.ok "copied",
        [.Head "key" "", .CopyLargeFile "dst" "k" "bucket/key", .Delete "key" ""]) := by
  decide

/-! ## The effective part size -/

/-- C30: for a client with `1 ≤ partMinSize ≤ partMaxSize` and every
`part_size` option, the part size of `UploadLargeFile`, `CopyLargeFile` and
`SyncLargeFile` and the part size of `Get` lie between `partMinSize` and
`partMaxSize`, so they are positive; they are the value of the option when it
is set and `strconv.Atoi` gives a number in that range, and else the default:
`partMaxSize` for upload, copy and sync, `partMinSize` for `Get`. -/
theorem C30_part_size (c : Client) (part_size : String) (hmin : 1 ≤ c.partMinSize)
    (hle : c.partMinSize ≤ c.partMaxSize) :
    (c.partMinSize ≤ partSizeOption c part_size ∧ partSizeOption c part_size ≤ c.partMaxSize ∧
      0 < partSizeOption c part_size) ∧
    (c.partMinSize ≤ getPartSizeOption c part_size ∧
      getPartSizeOption c part_size ≤ c.partMaxSize ∧ 0 < getPartSizeOption c part_size) ∧
    (partSizeOption c part_size =
      if part_size ≠ "" ∧ c.partMinSize ≤ Atoi part_size ∧ Atoi part_size ≤ c.partMaxSize
      then Atoi part_size else c.partMaxSize) ∧
    (getPartSizeOption c part_size =
      if part_size ≠ "" ∧ c.partMinSize ≤ Atoi part_size ∧ Atoi part_size ≤ c.partMaxSize
      then Atoi part_size else c.partMinSize) := by
  have key1 : partSizeOption c part_size =
      if part_size ≠ "" ∧ c.partMinSize ≤ Atoi part_size ∧ Atoi part_size ≤ c.partMaxSize
      then Atoi part_size else c.partMaxSize := by
    unfold partSizeOption
    by_cases h0 : part_size = ""
    · simp [h0]
    · by_cases h1 : Atoi part_size ≤ c.partMaxSize <;>
        by_cases h2 : c.partMinSize ≤ Atoi part_size <;> simp [h0, h1, h2]
  have key2 : getPartSizeOption c part_size =
      if part_size ≠ "" ∧ c.partMinSize ≤ Atoi part_size ∧ Atoi part_size ≤ c.partMaxSize
      then Atoi part_size else c.partMinSize := by
    unfold getPartSizeOption
    by_cases h0 : part_size = ""
    · simp [h0]
    · by_cases h1 : Atoi part_size ≤ c.partMaxSize <;>
        by_cases h2 : c.partMinSize ≤ Atoi part_size <;> simp [h0, h1, h2]
  refine ⟨?_, ?_, key1, key2⟩
  · rw [key1]
    split_ifs with h
    · exact ⟨h.2.1, h.2.2, by omega⟩
    · exact ⟨hle, le_refl _, by omega⟩
  · rw [key2]
    split_ifs with h
    · exact ⟨h.2.1, h.2.2, by omega⟩
    · exact ⟨le_refl _, hle, by omega⟩

/-- Witness of C30: the default client (parts of 5 MiB to 100 MiB) with the
options "10485760" (in range), "1" (out of range) and "abc" (no number). -/
theorem C30_part_size_witness :
    (1 ≤ defaultClient.partMinSize ∧ defaultClient.partMinSize ≤ defaultClient.partMaxSize) ∧
    partSizeOption defaultClient "10485760" = 10485760 ∧
    getPartSizeOption defaultClient "10485760" = 10485760 ∧
    partSizeOption defaultClient "1" = 104857600 ∧
    getPartSizeOption defaultClient "1" = 5242880 ∧
    partSizeOption defaultClient "abc" = 104857600 ∧
    getPartSizeOption defaultClient "abc" = 5242880 ∧
    0 < getPartSizeOption defaultClient "abc" :=
  ⟨by decide, by decide, by decide, by decide, by decide, by decide, by decide,
    (C30_part_size defaultClient "abc" (by decide) (by decide)).2.1.2.2⟩

/-! ## `UUID` -/

theorem list_of_length_16 (l : List Nat) (h : l.length = 16) :
    ∃ b0 b1 b2 b3 b4 b5 b6 b7 b8 b9 b10 b11 b12 b13 b14 b15,
      l = [b0, b1, b2, b3, b4, b5, b6, b7, b8, b9, b10, b11, b12, b13, b14, b15] := by
  match l, h with
  | [b0, b1, b2, b3, b4, b5, b6, b7, b8, b9, b10, b11, b12, b13, b14, b15], _ =>
    exact ⟨b0, b1, b2, b3, b4, b5, b6, b7, b8, b9, b10, b11, b12, b13, b14, b15, rfl⟩

set_option maxRecDepth 100000 in
/-- The version byte: the high digit becomes 4, the low digit stays. -/
theorem version_byte :
    ∀ b, b < 256 →
      (bitClear b 0xf0 ||| 0x40) / 16 = 4 ∧ (bitClear b 0xf0 ||| 0x40) % 16 = b % 16 := by
  decide

set_option maxRecDepth 100000 in
/-- The variant byte: the high digit becomes 8, 9, a or b, the low digit
stays. -/
theorem variant_byte :
    ∀ b, b < 256 →
      (bitClear b 0xc0 ||| 0x80) / 16 = 8 + (b / 16) % 4 ∧
      (bitClear b 0xc0 ||| 0x80) % 16 = b % 16 := by
  decide

theorem hexDigit_lower : ∀ n, n < 16 → isLowerHex (hexDigit n) = true := by
  decide

theorem variant_digit : ∀ k, k < 4 → hexDigit (8 + k) ∈ ['8', '9', 'a', 'b'] := by
  decide

theorem hexByte_lower (b : Nat) (h : b < 256) : ∀ c ∈ hexByte b, isLowerHex c = true := by
  intro c hc
  simp only [hexByte, List.mem_cons, List.mem_singleton, List.not_mem_nil, or_false] at hc
  rcases hc with rfl | rfl
  · exact hexDigit_lower _ (by omega)
  · exact hexDigit_lower _ (by omega)

/-- The string `UUID` returns, written out digit by digit. -/
theorem UUID_data (uuid : List Nat) (hlen : uuid.length = 16) (hbyte : ∀ b ∈ uuid, b < 256) :
    (UUID (some uuid)).data =
      hexByte (uuid.getD 0 0) ++ hexByte (uuid.getD 1 0) ++ hexByte (uuid.getD 2 0) ++
        hexByte (uuid.getD 3 0) ++ ['-'] ++
      hexByte (uuid.getD 4 0) ++ hexByte (uuid.getD 5 0) ++ ['-'] ++
      ['4', hexDigit (uuid.getD 6 0 % 16)] ++ hexByte (uuid.getD 7 0) ++ ['-'] ++
      [hexDigit (8 + (uuid.getD 8 0 / 16) % 4), hexDigit (uuid.getD 8 0 % 16)] ++
        hexByte (uuid.getD 9 0) ++ ['-'] ++
      hexByte (uuid.getD 10 0) ++ hexByte (uuid.getD 11 0) ++ hexByte (uuid.getD 12 0) ++
        hexByte (uuid.getD 13 0) ++ hexByte (uuid.getD 14 0) ++ hexByte (uuid.getD 15 0) := by
  obtain ⟨b0, b1, b2, b3, b4, b5, b6, b7, b8, b9, b10, b11, b12, b13, b14, b15, rfl⟩ :=
    list_of_length_16 uuid hlen
  have h6 := version_byte b6 (hbyte b6 (by simp))
  have h8 := variant_byte b8 (hbyte b8 (by simp))
  have e6 : hexByte (bitClear b6 0xf0 ||| 0x40) = ['4', hexDigit (b6 % 16)] := by
    unfold hexByte
    rw [h6.1, h6.2]
    rfl
  have e8 : hexByte (bitClear b8 0xc0 ||| 0x80) =
      [hexDigit (8 + (b8 / 16) % 4), hexDigit (b8 % 16)] := by
    unfold hexByte
    rw [h8.1, h8.2]
  simp only [UUID, hexBytes, List.getD_cons_succ, List.getD_cons_zero, List.set_cons_succ,
    List.set_cons_zero, List.take_succ_cons, List.take_zero, List.drop_succ_cons,
    List.drop_zero, List.flatMap_cons, List.flatMap_nil, String.data_append, e6, e8,
    List.append_nil]
  simp only [List.append_assoc]

/-- C27: for every 16 bytes read, `UUID` returns a string of 36 characters:
lowercase hexadecimal digits in groups of 8, 4, 4, 4 and 12 with "-" at the
positions 8, 13, 18 and 23; the digit at position 14 is "4", the digit at
position 19 is one of 8, 9, a, b, and every other digit is the digit of the
byte read (the string is written out in `UUID_data`). The empty string is
returned when the 16 bytes could not be read, and only then. -/
theorem C27_uuid_format (uuid : List Nat) (hlen : uuid.length = 16)
    (hbyte : ∀ b ∈ uuid, b < 256) :
    (UUID (some uuid)).data.length = 36 ∧
    (UUID (some uuid)).data =
      hexByte (uuid.getD 0 0) ++ hexByte (uuid.getD 1 0) ++ hexByte (uuid.getD 2 0) ++
        hexByte (uuid.getD 3 0) ++ ['-'] ++
      hexByte (uuid.getD 4 0) ++ hexByte (uuid.getD 5 0) ++ ['-'] ++
      ['4', hexDigit (uuid.getD 6 0 % 16)] ++ hexByte (uuid.getD 7 0) ++ ['-'] ++
      [hexDigit (8 + (uuid.getD 8 0 / 16) % 4), hexDigit (uuid.getD 8 0 % 16)] ++
        hexByte (uuid.getD 9 0) ++ ['-'] ++
      hexByte (uuid.getD 10 0) ++ hexByte (uuid.getD 11 0) ++ hexByte (uuid.getD 12 0) ++
        hexByte (uuid.getD 13 0) ++ hexByte (uuid.getD 14 0) ++ hexByte (uuid.getD 15 0) ∧
    (∀ i, i ∈ [8, 13, 18, 23] → (UUID (some uuid)).data[i]? = some '-') ∧
    (∀ i, i < 36 → i ∉ [8, 13, 18, 23] →
      ∃ c, (UUID (some uuid)).data[i]? = some c ∧ isLowerHex c = true) ∧
    (UUID (some uuid)).data[14]? = some '4' ∧
    (∃ c ∈ ['8', '9', 'a', 'b'], (UUID (some uuid)).data[19]? = some c) ∧
    UUID none = "" ∧ UUID (some uuid) ≠ "" := by
  have hd := UUID_data uuid hlen hbyte
  obtain ⟨b0, b1, b2, b3, b4, b5, b6, b7, b8, b9, b10, b11, b12, b13, b14, b15, rfl⟩ :=
    list_of_length_16 uuid hlen
  have hv := variant_digit ((b8 / 16) % 4) (Nat.mod_lt _ (by decide))
  have l0 := hexDigit_lower
  have hb : ∀ b ∈ [b0, b1, b2, b3, b4, b5, b6, b7, b8, b9, b10, b11, b12, b13, b14, b15],
      isLowerHex (hexDigit (b / 16)) = true ∧ isLowerHex (hexDigit (b % 16)) = true :=
    fun b h => ⟨l0 _ (by have := hbyte b h; omega), l0 _ (by omega)⟩
  have h4 : isLowerHex '4' = true := by decide
  have h8 : isLowerHex (hexDigit (8 + (b8 / 16) % 4)) = true := l0 _ (by omega)
  simp only [List.getD_cons_succ, List.getD_cons_zero, hexByte, List.cons_append,
    List.nil_append] at hd
  have hlen36 : (UUID (some [b0, b1, b2, b3, b4, b5, b6, b7, b8, b9, b10, b11, b12, b13, b14,
      b15])).data.length = 36 := by rw [hd]; rfl
  refine ⟨hlen36, by rw [hd]; simp only [hexByte, List.cons_append, List.nil_append,
    List.getD_cons_succ, List.getD_cons_zero], ?_, ?_, by rw [hd]; rfl,
    ⟨_, hv, by rw [hd]; rfl⟩, rfl, ?_⟩
  · intro i hi
    rw [hd]
    simp only [List.mem_cons, List.mem_singleton, List.not_mem_nil, or_false] at hi
    rcases hi with rfl | rfl | rfl | rfl <;> rfl
  · intro i hi hn
    rw [hd]
    clear hd hlen36 hlen hbyte
    simp only [List.mem_cons, List.mem_singleton, List.not_mem_nil, or_false, not_or] at hn
    simp only [List.forall_mem_cons, List.not_mem_nil, false_imp_iff, implies_true,
      and_true] at hb
    obtain ⟨⟨p0, q0⟩, ⟨p1, q1⟩, ⟨p2, q2⟩, ⟨p3, q3⟩, ⟨p4, q4⟩, ⟨p5, q5⟩, ⟨-, q6⟩, ⟨p7, q7⟩,
      ⟨-, q8⟩, ⟨p9, q9⟩, ⟨p10, q10⟩, ⟨p11, q11⟩, ⟨p12, q12⟩, ⟨p13, q13⟩, ⟨p14, q14⟩,
      ⟨p15, q15⟩⟩ := hb
    interval_cases i
    · exact ⟨_, rfl, p0⟩
    · exact ⟨_, rfl, q0⟩
    · exact ⟨_, rfl, p1⟩
    · exact ⟨_, rfl, q1⟩
    · exact ⟨_, rfl, p2⟩
    · exact ⟨_, rfl, q2⟩
    · exact ⟨_, rfl, p3⟩
    · exact ⟨_, rfl, q3⟩
    · exact absurd rfl hn.1
    · exact ⟨_, rfl, p4⟩
    · exact ⟨_, rfl, q4⟩
    · exact ⟨_, rfl, p5⟩
    · exact ⟨_, rfl, q5⟩
    · exact absurd rfl hn.2.1
    · exact ⟨_, rfl, h4⟩
    · exact ⟨_, rfl, q6⟩
    · exact ⟨_, rfl, p7⟩
    · exact ⟨_, rfl, q7⟩
    · exact absurd rfl hn.2.2.1
    · exact ⟨_, rfl, h8⟩
    · exact ⟨_, rfl, q8⟩
    · exact ⟨_, rfl, p9⟩
    · exact ⟨_, rfl, q9⟩
    · exact absurd rfl hn.2.2.2
    · exact ⟨_, rfl, p10⟩
    · exact ⟨_, rfl, q10⟩
    · exact ⟨_, rfl, p11⟩
    · exact ⟨_, rfl, q11⟩
    · exact ⟨_, rfl, p12⟩
    · exact ⟨_, rfl, q12⟩
    · exact ⟨_, rfl, p13⟩
    · exact ⟨_, rfl, q13⟩
    · exact ⟨_, rfl, p14⟩
    · exact ⟨_, rfl, q14⟩
    · exact ⟨_, rfl, p15⟩
    · exact ⟨_, rfl, q15⟩
  · intro h
    rw [h] at hlen36
    exact absurd hlen36 (by decide)

/-- Witness of C27: the bytes 12 34 56 78 9a bc de f0, twice. -/
theorem C27_uuid_format_witness :
    sampleBytes.length = 16 ∧ (∀ b ∈ sampleBytes, b < 256) ∧
    UUID (some sampleBytes) = "12345678-9abc-4ef0-9234-56789abcdef0" ∧
    (UUID (some sampleBytes)).data.length = 36 :=
  ⟨by decide, by decide, by decide,
    (C27_uuid_format sampleBytes (by decide) (by decide)).1⟩

/-! ## The strings signed by the v2 bucket operations -/

namespace V2

theorem sort_date : sortStrings ["Date"] = ["Date"] := by decide

theorem sort_date_acl : sortStrings ["Date", "x-amz-acl"] = ["Date", "x-amz-acl"] := by decide

theorem sort_md5_date : sortStrings ["Content-Md5", "Date"] = ["Content-Md5", "Date"] := by
  decide

theorem contains_date : Contains "Date" "x-amz-" = false := by decide

theorem contains_acl : Contains "x-amz-acl" "x-amz-" = true := by decide

theorem contains_md5 : Contains "Content-Md5" "x-amz-" = false := by decide

/-- The string signed when `Date` is the only header. -/
theorem stringToSign_date (method date bucket : String) (hb : bucket ≠ "") :
    stringToSign method [("Date", date)] bucket "" =
      method ++ "\n" ++ date ++ "\n" ++ "/" ++ bucket := by
  simp [stringToSign, sort_date, signLoop, contains_date, headerValue, List.lookup, hb,
    String.append_assoc]

/-- The string signed when `Date` and `x-amz-acl` are the headers. -/
theorem stringToSign_date_acl (method date acl bucket : String) (hb : bucket ≠ "") :
    stringToSign method [("Date", date), ("x-amz-acl", acl)] bucket "" =
      method ++ "\n" ++ date ++ "\n" ++ "x-amz-acl:" ++ acl ++ "\n" ++ "/" ++ bucket := by
  simp only [stringToSign, sort_date_acl, signLoop, contains_date, contains_acl, headerValue,
    List.lookup, hb, List.map_cons, List.map_nil, ne_eq, not_false_eq_true, if_true,
    not_true_eq_false, if_false, Bool.false_eq_true]
  apply String.ext
  simp [String.data_append, List.append_assoc]

theorem append_ne_empty (a b : String) (hb : b ≠ "") : a ++ b ≠ "" := by
  intro h
  have h1 : (a ++ b).data = [] := by rw [h]
  rw [String.data_append, List.append_eq_nil] at h1
  exact hb (String.ext h1.2)

/-- Three line feeds behind the verb. -/
theorem verb_layout (verb rest : String) :
    verb ++ "\n" ++ "\n" ++ "\n" ++ rest = verb ++ "\n\n\n" ++ rest := by
  have h : "\n" ++ "\n" ++ "\n" = "\n\n\n" := by decide
  rw [← h]
  simp only [String.append_assoc]

/-- C26: the string each v2 bucket operation signs. For `GetService`,
`CreateBucket`, `DeleteBucket`, `ListPart`, `GetACL`, `SetACL`, `GetLifecycle`
and `DeleteLifecycle` it is the verb, three line feeds, the date, a line feed,
the line `x-amz-acl:` + acl when the option `acl` is given (`CreateBucket`,
`SetACL`), and the resource; for `SetLifecycle` it is "PUT", a line feed, the
base64 MD5 of the body, two line feeds, the date, a line feed and the
resource. The resource is "/" for `GetService`, "/" + bucket + "/" for
`CreateBucket` and `DeleteBucket`, and "/" + bucket + "/?uploads", "/?acl",
"/?lifecycle" for the sub-resource operations. -/
theorem C26_v2_bucket_sign_strings (bucket acl date contentMd5 : String) :
    getServiceSign date = "GET" ++ "\n\n\n" ++ date ++ "\n" ++ "/" ∧
    createBucketSign bucket acl date =
      "PUT" ++ "\n\n\n" ++ date ++ "\n" ++ (if acl ≠ "" then "x-amz-acl:" ++ acl ++ "\n" else "") ++
        ("/" ++ bucket ++ "/") ∧
    deleteBucketSign bucket date = "DELETE" ++ "\n\n\n" ++ date ++ "\n" ++ ("/" ++ bucket ++ "/") ∧
    listPartSign bucket date =
      "GET" ++ "\n\n\n" ++ date ++ "\n" ++ ("/" ++ bucket ++ "/?uploads") ∧
    getACLSign bucket date = "GET" ++ "\n\n\n" ++ date ++ "\n" ++ ("/" ++ bucket ++ "/?acl") ∧
    setACLSign bucket acl date =
      "PUT" ++ "\n\n\n" ++ date ++ "\n" ++ (if acl ≠ "" then "x-amz-acl:" ++ acl ++ "\n" else "") ++
        ("/" ++ bucket ++ "/?acl") ∧
    getLifecycleSign bucket date =
      "GET" ++ "\n\n\n" ++ date ++ "\n" ++ ("/" ++ bucket ++ "/?lifecycle") ∧
    setLifecycleSign bucket contentMd5 date =
      "PUT\n" ++ contentMd5 ++ "\n\n" ++ date ++ "\n" ++ ("/" ++ bucket ++ "/?lifecycle") ∧
    deleteLifecycleSign bucket date =
      "DELETE" ++ "\n\n\n" ++ date ++ "\n" ++ ("/" ++ bucket ++ "/?lifecycle") := by
  have n1 : bucket ++ "/" ≠ "" := append_ne_empty _ _ (by decide)
  have n2 : bucket ++ "/?uploads" ≠ "" := append_ne_empty _ _ (by decide)
  have n3 : bucket ++ "/" ++ "?acl" ≠ "" := append_ne_empty _ _ (by decide)
  have n4 : bucket ++ "/" ++ "?lifecycle" ≠ "" := append_ne_empty _ _ (by decide)
  have e3 : "/" ++ "?acl" = "/?acl" := by decide
  have e4 : "/" ++ "?lifecycle" = "/?lifecycle" := by decide
  refine ⟨?_, ?_, ?_, ?_, ?_, ?_, ?_, ?_, ?_⟩
  · rw [← verb_layout]
    simp [getServiceSign, stringToSign, sort_date, signLoop, contains_date, headerValue,
      List.lookup, String.append_assoc]
  · rw [← verb_layout]
    unfold createBucketSign aclHeaders
    by_cases h : acl = ""
    · simp only [h, ne_eq, not_true_eq_false, if_false]
      rw [stringToSign_date _ _ _ n1]
      apply String.ext
      simp only [String.data_append, List.append_assoc]
      rfl
    · simp only [h, ne_eq, not_false_eq_true, if_true]
      rw [stringToSign_date_acl _ _ _ _ n1]
      simp only [String.append_assoc]
  · rw [← verb_layout, deleteBucketSign, stringToSign_date _ _ _ n1]
    simp only [String.append_assoc]
  · rw [← verb_layout, listPartSign, stringToSign_date _ _ _ n2]
    simp only [String.append_assoc]
  · rw [← verb_layout, getACLSign, stringToSign_date _ _ _ n3, ← e3]
    simp only [String.append_assoc]
  · rw [← verb_layout, ← e3]
    unfold setACLSign aclHeaders
    by_cases h : acl = ""
    · simp only [h, ne_eq, not_true_eq_false, if_false]
      rw [stringToSign_date _ _ _ n3]
      apply String.ext
      simp only [String.data_append, List.append_assoc]
      rfl
    · simp only [h, ne_eq, not_false_eq_true, if_true]
      rw [stringToSign_date_acl _ _ _ _ n3]
      simp only [String.append_assoc]
  · rw [← verb_layout, getLifecycleSign, stringToSign_date _ _ _ n4, ← e4]
    simp only [String.append_assoc]
  · have e5 : "PUT" ++ "\n" = "PUT\n" := by decide
    have e6 : "\n" ++ "\n" = "\n\n" := by decide
    rw [← e5, ← e6, ← e4]
    by_cases hb : bucket = ""
    · simp only [setLifecycleSign, stringToSign, sort_md5_date, signLoop, contains_date,
        contains_md5, headerValue, List.lookup, hb, List.map_cons, List.map_nil, ne_eq,
        not_false_eq_true, if_true, not_true_eq_false, if_false, Bool.false_eq_true]
      apply String.ext
      simp [String.data_append, List.append_assoc]
    · simp only [setLifecycleSign, stringToSign, sort_md5_date, signLoop, contains_date,
        contains_md5, headerValue, List.lookup, hb, List.map_cons, List.map_nil, ne_eq,
        not_false_eq_true, if_true, not_true_eq_false, if_false, Bool.false_eq_true]
      apply String.ext
      simp [String.data_append, List.append_assoc]
  · rw [← verb_layout, deleteLifecycleSign, stringToSign_date _ _ _ n4, ← e4]
    simp only [String.append_assoc]

end V2

/-! ## `GetDisposition` -/

/-- For a line without line feed that ends in `"`, the group is the line
without that `"`, whatever it holds. -/
theorem quotedGroup_line (n : List Char) (h : '\n' ∉ n) : quotedGroup (n ++ ['"']) = some n := by
  have ht : (n ++ ['"']).takeWhile (fun c => c != '\n') = n ++ ['"'] := by
    rw [List.takeWhile_eq_self_iff]
    intro c hc
    rw [List.mem_append, List.mem_singleton] at hc
    rcases hc with hc | rfl
    · simp only [bne_iff_ne, ne_eq]
      rintro rfl
      exact h hc
    · decide
  unfold quotedGroup
  rw [ht]
  simp

/-- No match starts at a character other than `f`. -/
theorem findSubmatch_skip (c : Char) (cs : List Char) (hc : c ≠ 'f') :
    findSubmatch (c :: cs) = findSubmatch cs := by
  have hp : "filename=\"".data.isPrefixOf (c :: cs) = false := by
    have e : "filename=\"".data = 'f' :: "ilename=\"".data := rfl
    rw [e, List.isPrefixOf]
    simp [Ne.symm hc]
  rw [findSubmatch, hp]
  simp

/-- The match found in the header value sent for a name without line feed. -/
theorem findSubmatch_header (n : List Char) (h : '\n' ∉ n) :
    findSubmatch ("attachment; filename=\"".data ++ n ++ ['"']) = some n := by
  have e : "attachment; filename=\"".data ++ n ++ ['"'] =
      'a' :: 't' :: 't' :: 'a' :: 'c' :: 'h' :: 'm' :: 'e' :: 'n' :: 't' :: ';' :: ' ' ::
        ("filename=\"".data ++ (n ++ ['"'])) := by
    simp [List.append_assoc]
  rw [e]
  have hp : "filename=\"".data.isPrefixOf ("filename=\"".data ++ (n ++ ['"'])) = true := by
    rw [List.isPrefixOf_iff_prefix]
    exact List.prefix_append _ _
  have hd : ("filename=\"".data ++ (n ++ ['"'])).drop 10 = n ++ ['"'] := by
    rw [List.drop_append_of_le_length (by decide)]
    rfl
  have hf : findSubmatch ("filename=\"".data ++ (n ++ ['"'])) = some n := by
    have hc : "filename=\"".data ++ (n ++ ['"']) =
        'f' :: ("ilename=\"".data ++ (n ++ ['"'])) := rfl
    rw [hc, findSubmatch, ← hc, hp, hd, quotedGroup_line n h]
    simp
  rw [findSubmatch_skip _ _ (by decide), findSubmatch_skip _ _ (by decide),
    findSubmatch_skip _ _ (by decide), findSubmatch_skip _ _ (by decide),
    findSubmatch_skip _ _ (by decide), findSubmatch_skip _ _ (by decide),
    findSubmatch_skip _ _ (by decide), findSubmatch_skip _ _ (by decide),
    findSubmatch_skip _ _ (by decide), findSubmatch_skip _ _ (by decide),
    findSubmatch_skip _ _ (by decide), findSubmatch_skip _ _ (by decide), hf]

/-- A group that is found stands in front of a `"` and holds no line feed. -/
theorem quotedGroup_sound (rest group : List Char) (h : quotedGroup rest = some group) :
    ∃ post, rest = group ++ '"' :: post ∧ '\n' ∉ group := by
  unfold quotedGroup at h
  have hline := List.takeWhile_append_dropWhile (fun c => c != '\n') rest
  have hrev := List.takeWhile_append_dropWhile (fun c => c != '"')
    (rest.takeWhile fun c => c != '\n').reverse
  cases hd : (rest.takeWhile fun c => c != '\n').reverse.dropWhile fun c => c != '"' with
  | nil => rw [hd] at h; simp at h
  | cons c r =>
    rw [hd] at h hrev
    simp only [Option.some.injEq] at h
    have hc : c = '"' := by
      have := List.head_dropWhile_not (fun c => c != '"')
        (rest.takeWhile fun c => c != '\n').reverse (by rw [hd]; simp)
      simp only [hd, List.head_cons] at this
      simpa using this
    subst hc
    have hl : rest.takeWhile (fun c => c != '\n') =
        r.reverse ++ '"' ::
          ((rest.takeWhile fun c => c != '\n').reverse.takeWhile fun c => c != '"').reverse := by
      have := congrArg List.reverse hrev
      simp only [List.reverse_append, List.reverse_cons, List.reverse_reverse,
        List.append_assoc, List.singleton_append] at this
      exact this.symm
    refine ⟨((rest.takeWhile fun c => c != '\n').reverse.takeWhile fun c => c != '"').reverse ++
      rest.dropWhile fun c => c != '\n', ?_, ?_⟩
    · rw [← h]
      conv_lhs => rw [← hline, hl]
      simp
    · rw [← h]
      intro hm
      have hm2 : '\n' ∈ rest.takeWhile fun c => c != '\n' := by
        rw [hl]
        exact List.mem_append_left _ hm
      have := List.mem_takeWhile_imp hm2
      simp at this

/-- A match that is found is an occurrence of `filename="`, a group without
line feed, and `"`. -/
theorem findSubmatch_sound (s group : List Char) (h : findSubmatch s = some group) :
    ∃ pre post, s = pre ++ "filename=\"".data ++ group ++ ['"'] ++ post ∧ '\n' ∉ group := by
  induction s with
  | nil => simp [findSubmatch] at h
  | cons c cs ih =>
    have step : findSubmatch cs = some group →
        ∃ pre post, c :: cs = pre ++ "filename=\"".data ++ group ++ ['"'] ++ post ∧
          '\n' ∉ group := by
      intro h2
      obtain ⟨pre, post, e, hn⟩ := ih h2
      exact ⟨c :: pre, post, by rw [e]; simp, hn⟩
    rw [findSubmatch] at h
    by_cases hp : "filename=\"".data.isPrefixOf (c :: cs) = true
    · rw [if_pos hp] at h
      cases hq : quotedGroup ((c :: cs).drop 10) with
      | none =>
        rw [hq] at h
        exact step h
      | some g =>
        rw [hq] at h
        simp only [Option.some.injEq] at h
        subst h
        obtain ⟨t, ht⟩ := List.isPrefixOf_iff_prefix.mp hp
        have hd : (c :: cs).drop 10 = t := by
          rw [← ht, List.drop_append_of_le_length (by decide)]
          rfl
        rw [hd] at hq
        obtain ⟨post, e, hn⟩ := quotedGroup_sound t g hq
        exact ⟨[], post, by rw [← ht, e]; simp, hn⟩
    · rw [if_neg hp] at h
      exact step h

/-- C25: for every file name without line feed (double quotes allowed),
`GetDisposition` applied to the header value `attachment; filename="` + name +
`"` that `Put` and `InitUpload` send returns the name; and a header value that
holds no `filename="`, text without line feed, `"` is returned unchanged. -/
theorem C25_disposition_roundtrip (name value : String) (hname : '\n' ∉ name.data)
    (hvalue : ¬ ∃ pre group post,
      value.data = pre ++ "filename=\"".data ++ group ++ ['"'] ++ post ∧ '\n' ∉ group) :
    GetDisposition (dispositionHeader name) = name ∧ GetDisposition value = value := by
  constructor
  · unfold GetDisposition dispositionHeader
    have e : ("attachment; filename=\"" ++ name ++ "\"").data =
        "attachment; filename=\"".data ++ name.data ++ ['"'] := by
      simp [String.data_append]
    rw [e, findSubmatch_header name.data hname]
  · unfold GetDisposition
    cases h : findSubmatch value.data with
    | none => rfl
    | some group =>
      obtain ⟨pre, post, e, hn⟩ := findSubmatch_sound value.data group h
      exact absurd ⟨pre, group, post, e, hn⟩ hvalue

/-- Witness of C25: a name with double quotes, and the value "inline". -/
theorem C25_disposition_roundtrip_witness :
    '\n' ∉ "my \"file\".txt".data ∧
    GetDisposition "attachment; filename=\"my \"file\".txt\"" = "my \"file\".txt" ∧
    GetDisposition (dispositionHeader "my \"file\".txt") = "my \"file\".txt" ∧
    GetDisposition "inline" = "inline" :=
  ⟨by decide, by decide,
    (C25_disposition_roundtrip "my \"file\".txt" "inline" (by decide)
      (by
        rintro ⟨pre, group, post, e, -⟩
        have h := congrArg List.length e
        have h1 : "inline".data.length = 6 := by decide
        have h2 : "filename=\"".data.length = 10 := by decide
        rw [List.length_append, List.length_append, List.length_append, List.length_append,
          h1, h2] at h
        omega)).1,
    by decide⟩

/-! ## A failed attempt that a retry recovers -/

namespace LargeFile

set_option maxRecDepth 16000 in
/-- C24 (the code at the failing input). In the run `recoveredRetry` of four
parts with a pool of two and three attempts allowed, part 2 fails once and
succeeds on its second attempt, and every other attempt succeeds: the worker
of part 1 sees the error of the failed attempt in the shared variable and
sets the fail-fast flag; the coordinator, which was waiting for a place in
the pool, still starts part 3, and leaves the loop at the head for part 4,
which is never dispatched. The second attempt of part 2 sets the variable
back to nil, and the call issues CompleteUpload with an empty ETag for
part 4 and returns the answer of that request. -/
theorem C24_recovered_attempt_stops_dispatch :
    (exec fourParts (init fourParts) recoveredRetry).map
        (fun s => (s.uploadExit, s.partErr, s.result, s.trace)) =
      some (true, none, some (.ok "done"),
        [.InitUpload (.ok "upload-1"), .go 0 false, .go 1 false,
          .Part 1 (.ok "etag-1"), .percent 0, .Part 2 (.err "StatusCode: 500"),
          .go 2 true, .Part 2 (.ok "etag-2"), .percent 1, .Part 3 (.ok "etag-3"), .percent 2,
          .CompleteUpload
            "<CompleteMultipartUpload><Part><PartNumber>1</PartNumber><ETag>etag-1</ETag></Part><Part><PartNumber>2</PartNumber><ETag>etag-2</ETag></Part><Part><PartNumber>3</PartNumber><ETag>etag-3</ETag></Part><Part><PartNumber>4</PartNumber><ETag></ETag></Part></CompleteMultipartUpload>"
            (.ok "done")]) := by
  decide

end LargeFile

/-! ## Moves onto the source itself -/

/-- The function `path.Clean` on some paths. -/
theorem Clean_examples :
    Clean "" = "." ∧ Clean "dir/" = "dir" ∧ Clean "/" = "/" ∧ Clean "a//b/./c/.." = "a/b" ∧
    Clean "../a" = "../a" ∧ Clean "a/../.." = ".." ∧ Clean "/.." = "/" ∧
    Clean "/a/b/" = "/a/b" ∧ Dir "a.txt" = "." ∧ Dir "dir/" = "dir" ∧
    Dir "dir/a.txt" = "dir" ∧ Dir "/a.txt" = "/" := by
  decide

/-- C28 (the code at the failing inputs). `MoveLargeFile` with the empty
object name, and with the object name "dir/", on a source whose base name is
the default: the guard compares the object name as given, so the call is not
refused, the copy is written to the key of the source itself, and the source
is deleted. `MoveAllObject` with target prefix "dir" and source "/b/dir": the
guard compares "dir/" with "dir" and does not refuse; with `replace = "true"`
the entry "dir/a.txt" is copied to "dir/a.txt" and then deleted. -/
theorem C28_move_deletes_its_own_target :
    MoveLargeFile 3 moveAllSucceed "b" "" "/b/a.txt" =
      some (.ok "copied",
        [.Head "b" "a.txt", .CopyLargeFile "b" "" "/b/a.txt", .Delete "b" "a.txt"]) ∧
    copyTargetObject "" "a.txt" = "a.txt" ∧
    MoveLargeFile 3 moveAllSucceed "b" "dir/" "/b/dir/a.txt" =
      some (.ok "copied",
        [.Head "b" "dir/a.txt", .CopyLargeFile "b" "dir/" "/b/dir/a.txt",
          .Delete "b" "dir/a.txt"]) ∧
    copyTargetObject "dir/" "dir/a.txt" = "dir/a.txt" ∧
    moveAllRefused "b" "dir" "/b/dir" = some false ∧
    moveEntry 3 { replace := "true", suffix := "", full_path := "" } sameObject
        "b" (normalizePrefix "dir") "b" "dir" "dir/a.txt" =
      { calls :=
          [.Head "b" "dir/a.txt", .CopyLargeFile "b" "dir/a.txt" "/b/dir/a.txt",
            .Delete "b" "dir/a.txt"]
        skip := 0, finish := 1, fileErr := none } ∧
    copyTargetObject "dir/a.txt" "dir/a.txt" = "dir/a.txt" := by
  decide

/-! ## The spool file of a part -/

namespace Spool

/-- C23 (the code at the failing input). A part of three bytes, three
attempts allowed: the first request is answered with status 503 and an error
document of eight bytes, the second succeeds with the three bytes of the part.
The second body is written over the start of the spool and the last five bytes
of the error document stay: `Get` writes eight bytes at the offset of the
part, and `SyncLargeFile` uploads eight bytes as the part, with size 8. When
the failed attempt has written less than the part, the spool is the part. -/
theorem C23_stale_bytes_behind_the_part :
    catPasses (fun _ => none) longError 3 0 ([], none) = ([1, 2, 3, 114, 111, 114, 47, 62], none) ∧
    getPart 3 (fun _ => none) longError none [] 0 = ([1, 2, 3, 114, 111, 114, 47, 62], none) ∧
    syncPart 3 (fun _ => none) longError none = some ([1, 2, 3, 114, 111, 114, 47, 62], 8) ∧
    getPart 3 (fun _ => none) shortError none [] 0 = ([1, 2, 3], none) ∧
    syncPart 3 (fun _ => none) shortError none = some ([1, 2, 3], 3) := by
  decide

end Spool

/-! ## The counters of the directory operations -/

namespace CopyAll

/-- C29 (the code at the failing input). `CopyAllObject` of two listed
entries with a pool of two, in the run `failureErased`: the copy of "in/a.txt"
fails, the copy of "in/b.txt" succeeds afterwards and sets the shared error
variable back to nil. The call returns without error with `Total` 2, `Skip` 0
and `Finish` 1: the first entry was neither skipped nor copied. In the run
`failureSeen` the same failure is returned as an error. -/
theorem C29_total_exceeds_skip_plus_finish :
    (exec twoEntries (init twoEntries) failureErased).map (fun s => (s.result, s.calls)) =
      some (some (.ok 2 0 1),
        [.Head "src" "in/a.txt", .CopyLargeFile "dst" "out/a.txt" "/src/in/a.txt",
          .Head "src" "in/b.txt", .CopyLargeFile "dst" "out/b.txt" "/src/in/b.txt"]) ∧
    (exec twoEntries (init twoEntries) failureSeen).map (fun s => s.result) =
      some (some (.error "StatusCode: 500")) := by
  decide

end CopyAll

/-! ## The attempts of a part -/

namespace LargeFile

theorem partResps_append (t : List Event) (ev : Event) (k : Nat) :
    partResps (t ++ [ev]) k = partResps t k ++ partResps [ev] k := by
  simp [partResps, List.filterMap_append]

theorem partResps_part (k : Nat) (r : Resp) : partResps [.Part (k + 1) r] k = [r] := by
  simp [partResps]

theorem partResps_part_ne (j k : Nat) (r : Resp) (h : j ≠ k) :
    partResps [.Part (j + 1) r] k = [] := by
  simp [partResps, h]

theorem all_dropLast (l : List Resp) (h : l.all Resp.isErr = true) :
    l.dropLast.all Resp.isErr = true := by
  rw [List.all_eq_true] at h ⊢
  exact fun x hx => h x (List.mem_of_mem_dropLast hx)

/-- What holds of the requests of every part and of the shared error variable
in every state of a run: a worker in its loop has made as many requests as it
has begun passes, all failed; a worker behind its loop has made at most
`maxRetryNum` requests, of which only the last can have succeeded; and an
error in `partErr` is "canceled", stored when the copy was cancelled, or the
error of a part whose requests have all failed and whose worker is still in
its loop or has used all `maxRetryNum` attempts. -/
structure Attempts (cfg : Pipeline) (s : State) : Prop where
  idle : ∀ k, s.workers k = .notStarted → partResps s.trace k = []
  inLoop : ∀ k i, s.workers k = .loop i →
    i ≤ cfg.maxRetryNum ∧ (partResps s.trace k).length = i ∧
      (partResps s.trace k).all Resp.isErr = true
  past : ∀ k, (s.workers k).pastLoop = true →
    (partResps s.trace k).length ≤ cfg.maxRetryNum ∧
      (partResps s.trace k).dropLast.all Resp.isErr = true
  err : ∀ e, s.partErr = some e →
    (s.copyCancel = true ∧ e = "canceled") ∨
    ∃ k, (partResps s.trace k).all Resp.isErr = true ∧
      ((∃ i, s.workers k = .loop i ∧ 1 ≤ i) ∨
        ((s.workers k).pastLoop = true ∧ 1 ≤ cfg.maxRetryNum ∧
          (partResps s.trace k).length = cfg.maxRetryNum))

theorem attempts_init (cfg : Pipeline) : Attempts cfg (init cfg) := by
  constructor <;> simp [init, partResps, WorkerPc.pastLoop]

/-- A step that changes neither the positions of the workers, nor the
requests in the trace, nor `partErr`. -/
theorem attempts_same (cfg : Pipeline) (s s1 : State) (h : Attempts cfg s)
    (hw : s1.workers = s.workers) (ht : ∀ j, partResps s1.trace j = partResps s.trace j)
    (he : s1.partErr = s.partErr) (hc : s.copyCancel = true → s1.copyCancel = true) :
    Attempts cfg s1 := by
  constructor
  · intro k hk
    rw [hw] at hk
    rw [ht]
    exact h.idle k hk
  · intro k i hk
    rw [hw] at hk
    rw [ht]
    exact h.inLoop k i hk
  · intro k hk
    rw [hw] at hk
    rw [ht]
    exact h.past k hk
  · intro e hs
    rw [he] at hs
    rcases h.err e hs with ⟨h1, h2⟩ | ⟨k, h1, h2⟩
    · exact Or.inl ⟨hc h1, h2⟩
    · refine Or.inr ⟨k, by rw [ht]; exact h1, ?_⟩
      rw [hw, ht]
      exact h2

/-- A step by which the worker of `k`, at the end of its loop or behind it,
goes to a position behind its loop. -/
theorem attempts_move (cfg : Pipeline) (s s1 : State) (k : Nat) (v : WorkerPc)
    (h : Attempts cfg s) (hw : s1.workers = Function.update s.workers k v)
    (hv : v.pastLoop = true)
    (hprev : (s.workers k).pastLoop = true ∨
      ∃ i, s.workers k = .loop i ∧ ¬ i < cfg.maxRetryNum)
    (ht : ∀ j, partResps s1.trace j = partResps s.trace j)
    (he : s1.partErr = s.partErr) (hc : s1.copyCancel = s.copyCancel) :
    Attempts cfg s1 := by
  have hvn : v ≠ .notStarted := by
    intro e; rw [e] at hv; simp [WorkerPc.pastLoop] at hv
  have hvl : ∀ i, v ≠ .loop i := by
    intro i e; rw [e] at hv; simp [WorkerPc.pastLoop] at hv
  have hk : (partResps s.trace k).length ≤ cfg.maxRetryNum ∧
      (partResps s.trace k).dropLast.all Resp.isErr = true := by
    rcases hprev with hp | ⟨i, hp, hi⟩
    · exact h.past k hp
    · obtain ⟨h1, h2, h3⟩ := h.inLoop k i hp
      exact ⟨by omega, all_dropLast _ h3⟩
  constructor
  · intro j hj
    rw [hw] at hj
    by_cases hjk : j = k
    · subst hjk; rw [Function.update_same] at hj; exact absurd hj hvn
    · rw [Function.update_noteq hjk] at hj
      rw [ht]
      exact h.idle j hj
  · intro j i hj
    rw [hw] at hj
    by_cases hjk : j = k
    · subst hjk; rw [Function.update_same] at hj; exact absurd hj (hvl i)
    · rw [Function.update_noteq hjk] at hj
      rw [ht]
      exact h.inLoop j i hj
  · intro j hj
    rw [hw] at hj
    rw [ht]
    by_cases hjk : j = k
    · subst hjk; exact hk
    · rw [Function.update_noteq hjk] at hj
      exact h.past j hj
  · intro e hs
    rw [he] at hs
    rcases h.err e hs with ⟨h1, h2⟩ | ⟨j, h1, h2⟩
    · exact Or.inl ⟨by rw [hc]; exact h1, h2⟩
    · refine Or.inr ⟨j, by rw [ht]; exact h1, ?_⟩
      rw [hw, ht]
      by_cases hjk : j = k
      · subst hjk
        rw [Function.update_same]
        right
        rcases h2 with ⟨i, hi, hi1⟩ | ⟨h3, h4, h5⟩
        · rcases hprev with hp | ⟨i1, hp, hi2⟩
          · rw [hi] at hp; simp [WorkerPc.pastLoop] at hp
          · rw [hi] at hp
            simp only [WorkerPc.loop.injEq] at hp
            subst hp
            obtain ⟨h6, h7, _⟩ := h.inLoop j i hi
            exact ⟨hv, by omega, by omega⟩
        · exact ⟨hv, h4, h5⟩
      · rw [Function.update_noteq hjk]
        exact h2

theorem attempts_step (cfg : Pipeline) (s s1 : State) (hi : Inv cfg s) (h : Attempts cfg s)
    (hs : Step cfg s s1) : Attempts cfg s1 := by
  have hnone : ∀ (ev : Event), (∀ n r, ev ≠ .Part n r) →
      ∀ j, partResps (s.trace ++ [ev]) j = partResps s.trace j := by
    intro ev hev j
    rw [partResps_append]
    cases ev <;> first
      | exact absurd rfl (hev _ _)
      | simp [partResps]
  cases hs
  case initFail e hc =>
    exact attempts_same cfg s _ h rfl (hnone _ (by simp)) rfl (fun x => x)
  case initOk v hc =>
    exact attempts_same cfg s _ h rfl (hnone _ (by simp)) rfl (fun x => x)
  case headExit hc hn hx => exact attempts_same cfg s _ h rfl (fun _ => rfl) rfl (fun x => x)
  case headAdd hc hn hx => exact attempts_same cfg s _ h rfl (fun _ => rfl) rfl (fun x => x)
  case headEnd hc hn => exact attempts_same cfg s _ h rfl (fun _ => rfl) rfl (fun x => x)
  case joinErr e hc hw he => exact attempts_same cfg s _ h rfl (fun _ => rfl) rfl (fun x => x)
  case joinOk r hc hw he =>
    exact attempts_same cfg s _ h rfl (hnone _ (by simp)) rfl (fun x => x)
  case cancel hc hx => exact attempts_same cfg s _ h rfl (fun _ => rfl) rfl (fun _ => rfl)
  case loopEnd k i hp hlt =>
    exact attempts_move cfg s _ k .check h rfl rfl (Or.inr ⟨i, hp, hlt⟩) (fun _ => rfl) rfl rfl
  case checkErr k e hp he =>
    exact attempts_move cfg s _ k .deferred h rfl rfl
      (Or.inl (by rw [hp]; rfl)) (fun _ => rfl) rfl rfl
  case checkOk k hp he =>
    exact attempts_move cfg s _ k .deferred h rfl rfl
      (Or.inl (by rw [hp]; rfl)) (hnone _ (by simp)) rfl rfl
  case deferred k hp =>
    exact attempts_move cfg s _ k .wgDone h rfl rfl
      (Or.inl (by rw [hp]; rfl)) (fun _ => rfl) rfl rfl
  case wgDone k hp =>
    exact attempts_move cfg s _ k .release h rfl rfl
      (Or.inl (by rw [hp]; rfl)) (fun _ => rfl) rfl rfl
  case release k hp =>
    exact attempts_move cfg s _ k .finished h rfl rfl
      (Or.inl (by rw [hp]; rfl)) (fun _ => rfl) rfl rfl
  case start hc hq =>
    have hidle : s.workers s.partNum = .notStarted := hi.started s.partNum (le_refl _)
    have hres := hnone (.go s.partNum s.uploadExit) (by simp)
    constructor
    · intro j hj
      simp only at hj ⊢
      rw [hres]
      by_cases hjk : j = s.partNum
      · subst hjk; rw [Function.update_same] at hj; exact absurd hj (by simp)
      · rw [Function.update_noteq hjk] at hj
        exact h.idle j hj
    · intro j i hj
      simp only at hj ⊢
      rw [hres]
      by_cases hjk : j = s.partNum
      · subst hjk
        rw [Function.update_same] at hj
        simp only [WorkerPc.loop.injEq] at hj
        subst hj
        simp [h.idle _ hidle]
      · rw [Function.update_noteq hjk] at hj
        exact h.inLoop j i hj
    · intro j hj
      simp only at hj ⊢
      rw [hres]
      by_cases hjk : j = s.partNum
      · subst hjk; rw [Function.update_same] at hj; simp [WorkerPc.pastLoop] at hj
      · rw [Function.update_noteq hjk] at hj
        exact h.past j hj
    · intro e he
      simp only at he ⊢
      rcases h.err e he with h1 | ⟨j, h1, h2⟩
      · exact Or.inl h1
      · have hjk : j ≠ s.partNum := by
          rintro rfl
          rcases h2 with ⟨i, h3, _⟩ | ⟨h3, _, _⟩
          · rw [hidle] at h3; simp at h3
          · rw [hidle] at h3; simp [WorkerPc.pastLoop] at h3
        refine Or.inr ⟨j, by rw [hres]; exact h1, ?_⟩
        rw [hres, Function.update_noteq hjk]
        exact h2
  case passCanceled k i hp hlt hx =>
    obtain ⟨h1, h2, h3⟩ := h.inLoop k i hp
    constructor
    · intro j hj
      simp only at hj ⊢
      by_cases hjk : j = k
      · subst hjk; rw [Function.update_same] at hj; simp at hj
      · rw [Function.update_noteq hjk] at hj
        exact h.idle j hj
    · intro j i1 hj
      simp only at hj ⊢
      by_cases hjk : j = k
      · subst hjk; rw [Function.update_same] at hj; simp at hj
      · rw [Function.update_noteq hjk] at hj
        exact h.inLoop j i1 hj
    · intro j hj
      simp only at hj ⊢
      by_cases hjk : j = k
      · subst hjk; exact ⟨by omega, all_dropLast _ h3⟩
      · rw [Function.update_noteq hjk] at hj
        exact h.past j hj
    · intro e he
      simp only [Option.some.injEq] at he
      exact Or.inl ⟨hx, he.symm⟩
  case passFail k i e hp hlt hx =>
    obtain ⟨h1, h2, h3⟩ := h.inLoop k i hp
    have hother : ∀ j, j ≠ k →
        partResps (s.trace ++ [.Part (k + 1) (.err e)]) j = partResps s.trace j := by
      intro j hjk
      rw [partResps_append, partResps_part_ne k j _ (Ne.symm hjk), List.append_nil]
    have hown : partResps (s.trace ++ [.Part (k + 1) (.err e)]) k =
        partResps s.trace k ++ [.err e] := by
      rw [partResps_append, partResps_part]
    constructor
    · intro j hj
      simp only at hj ⊢
      by_cases hjk : j = k
      · subst hjk; rw [Function.update_same] at hj; simp at hj
      · rw [Function.update_noteq hjk] at hj
        rw [hother j hjk]
        exact h.idle j hj
    · intro j i1 hj
      simp only at hj ⊢
      by_cases hjk : j = k
      · subst hjk
        rw [Function.update_same] at hj
        simp only [WorkerPc.loop.injEq] at hj
        subst hj
        rw [hown]
        refine ⟨by omega, by simp [h2], ?_⟩
        rw [List.all_append, h3]
        rfl
      · rw [Function.update_noteq hjk] at hj
        rw [hother j hjk]
        exact h.inLoop j i1 hj
    · intro j hj
      simp only at hj ⊢
      by_cases hjk : j = k
      · subst hjk; rw [Function.update_same] at hj; simp [WorkerPc.pastLoop] at hj
      · rw [Function.update_noteq hjk] at hj
        rw [hother j hjk]
        exact h.past j hj
    · intro e1 _
      refine Or.inr ⟨k, ?_, Or.inl ⟨i + 1, by simp, by omega⟩⟩
      simp only
      rw [hown, List.all_append, h3]
      rfl
  case passOk k i Etag hp hlt hx =>
    obtain ⟨h1, h2, h3⟩ := h.inLoop k i hp
    have hother : ∀ j, j ≠ k →
        partResps (s.trace ++ [.Part (k + 1) (.ok Etag)]) j = partResps s.trace j := by
      intro j hjk
      rw [partResps_append, partResps_part_ne k j _ (Ne.symm hjk), List.append_nil]
    have hown : partResps (s.trace ++ [.Part (k + 1) (.ok Etag)]) k =
        partResps s.trace k ++ [.ok Etag] := by
      rw [partResps_append, partResps_part]
    constructor
    · intro j hj
      simp only at hj ⊢
      by_cases hjk : j = k
      · subst hjk; rw [Function.update_same] at hj; simp at hj
      · rw [Function.update_noteq hjk] at hj
        rw [hother j hjk]
        exact h.idle j hj
    · intro j i1 hj
      simp only at hj ⊢
      by_cases hjk : j = k
      · subst hjk; rw [Function.update_same] at hj; simp at hj
      · rw [Function.update_noteq hjk] at hj
        rw [hother j hjk]
        exact h.inLoop j i1 hj
    · intro j hj
      simp only at hj ⊢
      by_cases hjk : j = k
      · subst hjk
        rw [hown, List.dropLast_concat]
        exact ⟨by simp [h2]; omega, h3⟩
      · rw [Function.update_noteq hjk] at hj
        rw [hother j hjk]
        exact h.past j hj
    · intro e1 he
      simp at he

theorem reaches_attempts (cfg : Pipeline) (acts : List Action) (s : State)
    (h : Reaches cfg acts s) : Inv cfg s ∧ Attempts cfg s :=
  reaches_invariant cfg (fun s => Inv cfg s ∧ Attempts cfg s) ⟨inv_init cfg, attempts_init cfg⟩
    (fun s s1 hP hs => ⟨inv_step cfg s s1 hP.1 hs, attempts_step cfg s s1 hP.1 hP.2 hs⟩) acts s h

/-- C8 (counterexample). `CopyLargeFile` of one part with three attempts
allowed, in the run `cancelledCopy`: the first `CopyPart` request fails, the
copy is cancelled, and the job is reported failed with the error "canceled"
after one attempt, not after three failed ones. -/
theorem C8_counterexample :
    (exec copyOnePart (init copyOnePart) cancelledCopy).map
        (fun s => (s.result, partResps s.trace 0, s.trace)) =
      some (some (.err "canceled"), [.err "context canceled"],
        [.InitUpload (.ok "upload-1"), .go 0 false, .Part 1 (.err "context canceled")]) := by
  decide

/-- What a retry loop does: at most `maxRetryNum` requests, and every request
but the last has failed. -/
theorem retryLoop_attempts (maxRetryNum : Nat) (pass : Nat → Pass) (err0 : Option String) :
    (retryLoop maxRetryNum pass err0).requests.length ≤ maxRetryNum ∧
      (retryLoop maxRetryNum pass err0).requests.dropLast.all Resp.isErr = true := by
  have h1 := retryFrom_counts pass maxRetryNum 0
    { requests := [], passes := 0, err := err0, value := none }
  obtain ⟨rs, h2, h3⟩ := retryFrom_requests pass maxRetryNum 0
    { requests := [], passes := 0, err := err0, value := none }
  unfold retryLoop
  simp only [List.length_nil, Nat.add_zero, Nat.zero_add, List.nil_append] at h1 h2
  exact ⟨by omega, by rw [h2]; exact h3⟩

/-- C8 (amended). In every run of `UploadLargeFile` and `CopyLargeFile`, for
every part, at most `maxRetryNum` requests (UploadPart, CopyPart) are made and
every request but the last has failed, so none follows a successful one; and
the call returns an error only if InitUpload or CompleteUpload failed, or the
copy was cancelled (`CopyLargeFile` only, error "canceled"), or all
`maxRetryNum` requests of some part have failed. The `Cat` loop and the
`UploadPart` loop of `SyncLargeFile` (the latter whenever it ends), the `Put`
loop of `UploadFromDir` and the `Delete` loop of `MoveLargeFile` make at most
`maxRetryNum` requests, every one but the last of which has failed; and the
`Delete` loop of `MoveLargeFile`, whose error variable is local, leaves an
error, which `MoveLargeFile` returns, exactly when all `maxRetryNum` requests
have failed. -/
theorem C8_attempts_and_report (cfg : Pipeline) (acts : List Action) (s : State)
    (h : Reaches cfg acts s) (maxRetryNum : Nat) (hmax : 1 ≤ maxRetryNum)
    (loc : Nat → Option String) (resp : Nat → Resp) (err0 : Option String) :
    (∀ k, (partResps s.trace k).length ≤ cfg.maxRetryNum ∧
      (partResps s.trace k).dropLast.all Resp.isErr = true) ∧
    (∀ e, s.result = some (.err e) →
      s.trace = [.InitUpload (.err e)] ∨
      (∃ body, Event.CompleteUpload body (.err e) ∈ s.trace) ∨
      (s.copyCancel = true ∧ e = "canceled") ∨
      ∃ k, 1 ≤ cfg.maxRetryNum ∧ (partResps s.trace k).length = cfg.maxRetryNum ∧
        (partResps s.trace k).all Resp.isErr = true) ∧
    ((catLoop maxRetryNum loc resp err0).requests.length ≤ maxRetryNum ∧
      (catLoop maxRetryNum loc resp err0).requests.dropLast.all Resp.isErr = true) ∧
    (∀ out, syncUploadLoop maxRetryNum loc resp err0 = some out →
      out.requests.length ≤ maxRetryNum ∧ out.requests.dropLast.all Resp.isErr = true) ∧
    ((putLoop maxRetryNum loc resp err0).requests.length ≤ maxRetryNum ∧
      (putLoop maxRetryNum loc resp err0).requests.dropLast.all Resp.isErr = true) ∧
    ((deleteLoop maxRetryNum resp).requests.length ≤ maxRetryNum ∧
      (deleteLoop maxRetryNum resp).requests.dropLast.all Resp.isErr = true) ∧
    ((deleteLoop maxRetryNum resp).err.isSome = true ↔
      ∀ i, i < maxRetryNum → (resp i).isErr = true) := by
  obtain ⟨hinv, hatt⟩ := reaches_attempts cfg acts s h
  have hout := (reaches_allInv cfg acts s h).outcome
  refine ⟨?_, ?_, ?_, ?_, ?_, ?_, ?_⟩
  · intro k
    cases hw : s.workers k with
    | notStarted => simp [hatt.idle k hw]
    | loop i =>
      obtain ⟨h1, h2, h3⟩ := hatt.inLoop k i hw
      exact ⟨by omega, all_dropLast _ h3⟩
    | check => exact hatt.past k (by rw [hw]; rfl)
    | deferred => exact hatt.past k (by rw [hw]; rfl)
    | wgDone => exact hatt.past k (by rw [hw]; rfl)
    | release => exact hatt.past k (by rw [hw]; rfl)
    | finished => exact hatt.past k (by rw [hw]; rfl)
  · intro e hr
    have hret : s.coord = .returned := by
      by_contra hcon
      have := (hout.running hcon).1
      rw [hr] at this
      simp at this
    rcases hout.done hret with ⟨e1, h1, h2⟩ | ⟨e1, h1, h2, _⟩ | ⟨_, r, h1, h2⟩
    · rw [hr] at h1
      simp only [Option.some.injEq, Resp.err.injEq] at h1
      subst h1
      exact Or.inl h2
    · rw [hr] at h2
      simp only [Option.some.injEq, Resp.err.injEq] at h2
      subst h2
      rcases hatt.err e h1 with h3 | ⟨k, h3, h4⟩
      · exact Or.inr (Or.inr (Or.inl h3))
      · rcases h4 with ⟨i, h5, _⟩ | ⟨_, h6, h7⟩
        · have := hinv.quiet hret k
          rw [h5] at this
          simp [WorkerPc.active] at this
        · exact Or.inr (Or.inr (Or.inr ⟨k, h6, h7, h3⟩))
    · rw [hr] at h1
      simp only [Option.some.injEq] at h1
      subst h1
      exact Or.inr (Or.inl ⟨_, (h2 _ _).mpr ⟨rfl, rfl⟩⟩)
  · exact retryLoop_attempts maxRetryNum _ err0
  · intro out ho
    have := syncUploadFrom_eq loc resp maxRetryNum 0 _ out ho
    rw [this]
    exact retryLoop_attempts maxRetryNum (guardedPass loc resp) err0
  · exact retryLoop_attempts maxRetryNum _ err0
  · exact retryLoop_attempts maxRetryNum _ none
  · exact request_loop_err maxRetryNum hmax resp none

set_option maxRecDepth 16000 in
/-- Witness of C8 (amended): the run `onePartFails`, in which the only part
fails on each of its three attempts and the call returns the error; and a
`Delete` loop whose first request fails and whose second succeeds. -/
theorem C8_attempts_and_report_witness :
    Reaches onePart onePartFails (finalState onePart onePartFails) ∧ 1 ≤ 3 ∧
    (finalState onePart onePartFails).result = some (.err "StatusCode: 500") ∧
    partResps (finalState onePart onePartFails).trace 0 =
      [.err "StatusCode: 500", .err "StatusCode: 500", .err "StatusCode: 500"] ∧
    (partResps (finalState onePart onePartFails).trace 0).length ≤ onePart.maxRetryNum ∧
    ((deleteLoop 3 fun i => if i = 0 then .err "StatusCode: 500" else .ok "").err.isSome = true ↔
      ∀ i, i < 3 → (Resp.isErr (if i = 0 then .err "StatusCode: 500" else .ok "")) = true) :=
  ⟨reaches_finalState onePart onePartFails (by decide), by decide, by decide, by decide,
    ((C8_attempts_and_report onePart onePartFails _
      (reaches_finalState onePart onePartFails (by decide)) 3 (by decide) (fun _ => none)
      (fun i => if i = 0 then .err "StatusCode: 500" else .ok "") none).1 0).1,
    (C8_attempts_and_report onePart onePartFails _
      (reaches_finalState onePart onePartFails (by decide)) 3 (by decide) (fun _ => none)
      (fun i => if i = 0 then .err "StatusCode: 500" else .ok "") none).2.2.2.2.2.2⟩

end LargeFile

end S3Sdk
